import Mathlib

/-!
# BMC mesh of ascot5 (`src/src/bmc_mesh.c`)

A shallow embedding of the five-dimensional backward Monte Carlo mesh:
construction, index to position, multilinear interpolation, the Hermite
weighted update and the end-of-step buffer swap.

Conventions of the embedding.

* `real` (a C `double`) is a rational number: all statements are statements of
  exact arithmetic.  Division by zero follows Lean (`x / 0 = 0`); the theorems
  that evaluate a quotient assume the axis widths positive.
* A C `int` is an `Int`.  The counts given to `bmc_mesh_init` and the sizes it
  stores are taken as they are.  The `int` products and the conversions to
  `int` of `bmc_mesh_index2pos` are reduced to `[-2 ^ 31, 2 ^ 31)`: C leaves a
  signed result outside this range undefined, and the embedding takes the
  two's complement value.
* A C `size_t` is a `Nat` below `2 ^ 64`; sums, differences and products of
  `size_t` values are reduced modulo `2 ^ 64`, and so is the conversion of an
  `int` to `size_t`.
* The conversion of a `real` to `size_t` truncates toward zero.  For a
  truncated value outside `[0, 2 ^ 64)` C leaves the result undefined; the
  embedding takes the value modulo `2 ^ 64`, which is what the usual
  two's complement targets produce.
* An array is a `List`; a read past the end (undefined in C) yields `0`.
* `malloc` grants a request of at most `heap` bytes, a parameter, and returns
  the null pointer for a larger one; `bmc_mesh_init` yields `none` when it
  writes through the null pointer or past the end of a block.
* `HERMITE_KNOTS` and `HERMITE_W` come from `simulate/simulate_bmc.h`; they
  are parameters `K` and `hermite_w` of `bmc_mesh_update`.
-/

namespace Ascot5

/-! ## Machine arithmetic -/

/-- Number of values of a `size_t`. -/
def SIZE_MOD : Nat := 2 ^ 64

/-- Conversion `int` to `size_t`. -/
def size_of_int (x : Int) : Nat := (x % (SIZE_MOD : Int)).toNat

/-- Conversion `real` to `size_t`: truncation toward zero, then reduction. -/
def size_of_real (x : ℚ) : Nat := size_of_int (Int.tdiv x.num (x.den : Int))

/-- Sum of two `size_t` values. -/
def add64 (a b : Nat) : Nat := (a + b) % SIZE_MOD

/-- Difference of two `size_t` values. -/
def sub64 (a b : Nat) : Nat := (a + (SIZE_MOD - b % SIZE_MOD)) % SIZE_MOD

/-- Product of two `size_t` values. -/
def mul64 (a b : Nat) : Nat := (a * b) % SIZE_MOD

/-- Number of values of an `int`. -/
def INT_MOD : Int := 2 ^ 32

/-- Largest value of an `int`. -/
def INT_MAX : Int := 2 ^ 31 - 1

/-- An `int` result: the value reduced to `[-2 ^ 31, 2 ^ 31)`. -/
def wrap_int (x : Int) : Int := (x + 2 ^ 31) % INT_MOD - 2 ^ 31

/-- Product of two `int` values. -/
def mul_int (a b : Int) : Int := wrap_int (a * b)

/-- Conversion of a `size_t` value to `int`. -/
def int_of_size (x : Nat) : Int := wrap_int (x : Int)

/-- Size of a `real` in bytes. -/
def SIZEOF_REAL : Nat := 8

/-- The call `malloc(bytes)` on an allocator that grants a request of at most
`heap` bytes and refuses a larger one: the number of `real` entries of the block
returned, `none` for the null pointer. -/
def malloc (heap bytes : Nat) : Option Nat :=
  if bytes ≤ heap then some (bytes / SIZEOF_REAL) else none

/-- Array read `a[i]` with an index of type `size_t`. -/
def rd (a : List ℚ) (i : Nat) : ℚ := a.getD i 0

/-- Array read `a[i]` with an index of type `int`. -/
def rdi (a : List ℚ) (i : Int) : ℚ := if 0 ≤ i then a.getD i.toNat 0 else 0

/-! ## The mesh -/

/-- The struct `bmc_mesh`: stored sizes, abscissae and the two value buffers. -/
structure bmc_mesh where
  n_r : Int
  n_phi : Int
  n_z : Int
  n_mom1 : Int
  n_mom2 : Int
  size : Nat
  r : List ℚ
  phi : List ℚ
  z : List ℚ
  mom1 : List ℚ
  mom2 : List ℚ
  val_next : List ℚ
  val_prev : List ℚ
deriving DecidableEq

/-- The loop `for (int i = 0; i <= n; i++) a[i] = min + i * (max - min) / n`. -/
def store_abscissae (min max : ℚ) (n : Int) : List ℚ :=
  (List.range (n + 1).toNat).map (fun (i : Nat) => min + (i : ℚ) * (max - min) / (n : ℚ))

/-- The loop `for (int i = 0; i < n; i++) phi[i] = min + i * (max - min) / (n + 1)`. -/
def store_abscissae_phi (min max : ℚ) (n : Int) : List ℚ :=
  (List.range n.toNat).map (fun (i : Nat) => min + (i : ℚ) * (max - min) / ((n + 1 : Int) : ℚ))

/-- The stores of `bmc_mesh_init` (lines 42-71): the mesh object as the function
leaves it when every store lands in the block allocated for it.  The value
buffers hold the `size * sizeof(real)` bytes, counted as a `size_t`, that are
requested from `malloc` and zeroed by `memset`. -/
def init_mesh (min_r max_r : ℚ) (n_r : Int)
    (min_phi max_phi : ℚ) (n_phi : Int)
    (min_z max_z : ℚ) (n_z : Int)
    (min_mom1 max_mom1 : ℚ) (n_mom1 : Int)
    (min_mom2 max_mom2 : ℚ) (n_mom2 : Int) : bmc_mesh :=
  let size := mul64 (mul64 (mul64 (mul64 (size_of_int (n_r + 1)) (size_of_int n_phi))
    (size_of_int (n_z + 1))) (size_of_int (n_mom1 + 1))) (size_of_int (n_mom2 + 1))
  { n_r := n_r + 1
    n_phi := n_phi
    n_z := n_z + 1
    n_mom1 := n_mom1 + 1
    n_mom2 := n_mom2 + 1
    size := size
    r := store_abscissae min_r max_r n_r
    phi := store_abscissae_phi min_phi max_phi n_phi
    z := store_abscissae min_z max_z n_z
    mom1 := store_abscissae min_mom1 max_mom1 n_mom1
    mom2 := store_abscissae min_mom2 max_mom2 n_mom2
    val_next := List.replicate (mul64 size SIZEOF_REAL / SIZEOF_REAL) 0
    val_prev := List.replicate (mul64 size SIZEOF_REAL / SIZEOF_REAL) 0 }

/-- The stores of `bmc_mesh_init` land in allocated memory: each abscissa loop
writes no more entries than the block returned by `malloc` holds (none for the
null pointer), and each `memset` is given the block of the bytes it clears. -/
def init_stores_ok (heap : Nat) (n_r n_phi n_z n_mom1 n_mom2 : Int) : Bool :=
  let size := mul64 (mul64 (mul64 (mul64 (size_of_int (n_r + 1)) (size_of_int n_phi))
    (size_of_int (n_z + 1))) (size_of_int (n_mom1 + 1))) (size_of_int (n_mom2 + 1))
  decide ((n_r + 1).toNat ≤ (malloc heap (mul64 (size_of_int (n_r + 1)) SIZEOF_REAL)).getD 0) &&
  decide (n_phi.toNat ≤ (malloc heap (mul64 (size_of_int n_phi) SIZEOF_REAL)).getD 0) &&
  decide ((n_z + 1).toNat ≤ (malloc heap (mul64 (size_of_int (n_z + 1)) SIZEOF_REAL)).getD 0) &&
  decide ((n_mom1 + 1).toNat ≤
    (malloc heap (mul64 (size_of_int (n_mom1 + 1)) SIZEOF_REAL)).getD 0) &&
  decide ((n_mom2 + 1).toNat ≤
    (malloc heap (mul64 (size_of_int (n_mom2 + 1)) SIZEOF_REAL)).getD 0) &&
  (malloc heap (mul64 size SIZEOF_REAL)).isSome

/-- The function `bmc_mesh_init` on an allocator that grants requests of at most
`heap` bytes: the return code and the initialised mesh, or `none` when a store
goes through the null pointer or past the end of its block. -/
def bmc_mesh_init (heap : Nat) (min_r max_r : ℚ) (n_r : Int)
    (min_phi max_phi : ℚ) (n_phi : Int)
    (min_z max_z : ℚ) (n_z : Int)
    (min_mom1 max_mom1 : ℚ) (n_mom1 : Int)
    (min_mom2 max_mom2 : ℚ) (n_mom2 : Int) : Option (Int × bmc_mesh) :=
  if init_stores_ok heap n_r n_phi n_z n_mom1 n_mom2 then
    some (0, init_mesh min_r max_r n_r min_phi max_phi n_phi min_z max_z n_z
      min_mom1 max_mom1 n_mom1 min_mom2 max_mom2 n_mom2)
  else none

/-- Axis counts of a well-formed call of `bmc_mesh_init`: every count is
positive and the number of mesh elements is representable as a `size_t`. -/
def counts_ok (n_r n_phi n_z n_mom1 n_mom2 : Int) : Prop :=
  0 < n_r ∧ 0 < n_phi ∧ 0 < n_z ∧ 0 < n_mom1 ∧ 0 < n_mom2 ∧
  (n_r + 1) * n_phi * (n_z + 1) * (n_mom1 + 1) * (n_mom2 + 1) < (SIZE_MOD : Int)

/-! ## Index to position -/

/-- The five axis indices `(r, phi, z, mom1, mom2)` that `bmc_mesh_index2pos`
derives from `idx`, by the successive quotients and remainders of the source.
The products of the stored sizes are `int` products, converted to `size_t` for
the division and the subtraction; each quotient is stored in an `int`. -/
def index2pos_indices (mesh : bmc_mesh) (idx : Nat) : Int × Int × Int × Int × Int :=
  let mom2 : Int := int_of_size (idx / size_of_int
    (mul_int (mul_int (mul_int mesh.n_r mesh.n_z) mesh.n_phi) mesh.n_mom1))
  let idx := sub64 idx (size_of_int
    (mul_int (mul_int (mul_int (mul_int mom2 mesh.n_r) mesh.n_z) mesh.n_phi) mesh.n_mom1))
  let mom1 : Int := int_of_size (idx / size_of_int
    (mul_int (mul_int mesh.n_r mesh.n_z) mesh.n_phi))
  let idx := sub64 idx (size_of_int
    (mul_int (mul_int (mul_int mom1 mesh.n_r) mesh.n_z) mesh.n_phi))
  let phi : Int := int_of_size (idx / size_of_int (mul_int mesh.n_r mesh.n_z))
  let idx := sub64 idx (size_of_int (mul_int (mul_int phi mesh.n_r) mesh.n_z))
  let z : Int := int_of_size (idx / size_of_int mesh.n_r)
  let idx := sub64 idx (size_of_int (mul_int z mesh.n_r))
  let r : Int := int_of_size idx
  (r, phi, z, mom1, mom2)

/-- The function `bmc_mesh_index2pos`: the coordinates `(R, phi, z, mom1, mom2)`
written to `coords[0..5)`. -/
def bmc_mesh_index2pos (mesh : bmc_mesh) (idx : Nat) : ℚ × ℚ × ℚ × ℚ × ℚ :=
  let i := index2pos_indices mesh idx
  (rdi mesh.r i.1, rdi mesh.phi i.2.1, rdi mesh.z i.2.2.1,
   rdi mesh.mom1 i.2.2.2.1, rdi mesh.mom2 i.2.2.2.2)

/-! ## Interpolation -/

/-- Index `i_r` of `bmc_mesh_interpolate`. -/
def interp_i_r (mesh : bmc_mesh) (r : ℚ) : Nat :=
  size_of_real ((r - rd mesh.r 0) / (rd mesh.r 1 - rd mesh.r 0))

/-- Index `i_z` of `bmc_mesh_interpolate`. -/
def interp_i_z (mesh : bmc_mesh) (z : ℚ) : Nat :=
  size_of_real ((z - rd mesh.z 0) / (rd mesh.z 1 - rd mesh.z 0))

/-- Index `i_mom1` of `bmc_mesh_interpolate`. -/
def interp_i_mom1 (mesh : bmc_mesh) (mom1 : ℚ) : Nat :=
  size_of_real ((mom1 - rd mesh.mom1 0) / (rd mesh.mom1 1 - rd mesh.mom1 0))

/-- Index `i_mom2` of `bmc_mesh_interpolate`. -/
def interp_i_mom2 (mesh : bmc_mesh) (mom2 : ℚ) : Nat :=
  size_of_real ((mom2 - rd mesh.mom2 0) / (rd mesh.mom2 1 - rd mesh.mom2 0))

/-- Index `i_phi` of `bmc_mesh_interpolate` (the periodic variable). -/
def interp_i_phi (mesh : bmc_mesh) (phi : ℚ) : Nat :=
  if mesh.n_phi = 1 then 0
  else size_of_real ((phi - rd mesh.phi 0) / (rd mesh.phi 1 - rd mesh.phi 0))

/-- Index `i_phi1` of `bmc_mesh_interpolate`: the upper phi neighbour, wrapped. -/
def interp_i_phi1 (mesh : bmc_mesh) (i_phi : Nat) : Nat :=
  if i_phi = size_of_int (mesh.n_phi - 1) then 0 else add64 i_phi 1

/-- The boundary test guarding the interpolation ("zero outside"). -/
def interp_inside (mesh : bmc_mesh) (i_r i_z i_mom1 i_mom2 : Nat) : Bool :=
  decide (0 ≤ i_mom1) && decide (i_mom1 < size_of_int (mesh.n_mom1 - 2)) &&
  decide (0 ≤ i_mom2) && decide (i_mom2 < size_of_int (mesh.n_mom2 - 2)) &&
  decide (0 ≤ i_r) && decide (i_r < size_of_int (mesh.n_r - 2)) &&
  decide (0 ≤ i_z) && decide (i_z < size_of_int (mesh.n_z - 2))

/-- The linear index `idx0` of one corner of the cell. -/
def interp_idx0 (mesh : bmc_mesh) (i_r i_z i_phi i_phi1 i_mom1 i_mom2 : Nat)
    (i1 i2 i3 i4 i5 : Nat) : Nat :=
  add64 (add64 (add64 (add64 (add64
    (mul64 (mul64 (mul64 (mul64 (add64 i_mom2 i5) (size_of_int mesh.n_r))
      (size_of_int mesh.n_z)) (size_of_int mesh.n_phi)) (size_of_int mesh.n_mom1))
    (mul64 (mul64 (mul64 (add64 i_mom1 i4) (size_of_int mesh.n_r))
      (size_of_int mesh.n_z)) (size_of_int mesh.n_phi)))
    (mul64 (mul64 (add64 i_phi (mul64 i3 (sub64 i_phi1 i_phi))) (size_of_int mesh.n_r))
      (size_of_int mesh.n_z)))
    (mul64 (add64 i_z i2) (size_of_int mesh.n_r)))
    i_r) i1

/-- The function `bmc_mesh_interpolate`. -/
def bmc_mesh_interpolate (mesh : bmc_mesh) (r phi z mom1 mom2 : ℚ) : ℚ :=
  let i_r := interp_i_r mesh r
  let i_z := interp_i_z mesh z
  let i_mom1 := interp_i_mom1 mesh mom1
  let i_mom2 := interp_i_mom2 mesh mom2
  let i_phi := interp_i_phi mesh phi
  let i_phi1 := interp_i_phi1 mesh i_phi
  if interp_inside mesh i_r i_z i_mom1 i_mom2 then
    let dr : List ℚ := [rd mesh.r (add64 i_r 1) - r, r - rd mesh.r i_r]
    let dphi : List ℚ := [rd mesh.phi i_phi1 - phi, phi - rd mesh.phi i_phi]
    let dz : List ℚ := [rd mesh.z (add64 i_z 1) - z, z - rd mesh.z i_z]
    let dppa : List ℚ := [rd mesh.mom1 (add64 i_mom1 1) - mom1, mom1 - rd mesh.mom1 i_mom1]
    let dppe : List ℚ := [rd mesh.mom2 (add64 i_mom2 1) - mom2, mom2 - rd mesh.mom2 i_mom2]
    let vol : ℚ := (rd mesh.r (add64 i_r 1) - rd mesh.r i_r)
      * max |rd mesh.phi i_phi1 - rd mesh.phi i_phi| 1
      * (rd mesh.z (add64 i_z 1) - rd mesh.z i_z)
      * (rd mesh.mom1 (add64 i_mom1 1) - rd mesh.mom1 i_mom1)
      * (rd mesh.mom2 (add64 i_mom2 1) - rd mesh.mom2 i_mom2)
    let dphi : List ℚ := if mesh.n_phi = 1 then [1 / 2, 1 / 2] else dphi
    let val : ℚ :=
      [0, 1].foldl (fun val i1 =>
      [0, 1].foldl (fun val i2 =>
      [0, 1].foldl (fun val i3 =>
      [0, 1].foldl (fun val i4 =>
      [0, 1].foldl (fun val i5 =>
        val + rd mesh.val_prev (interp_idx0 mesh i_r i_z i_phi i_phi1 i_mom1 i_mom2 i1 i2 i3 i4 i5)
          * rd dr i1 * rd dz i2 * rd dphi i3 * rd dppa i4 * rd dppe i5)
      val) val) val) val) 0
    val / vol
  else 0

/-! ## End of step and update -/

/-- The function `bmc_mesh_finishstep` without MPI: `memcpy` of `size` values
from `val_next` to `val_prev`, then `memset` of `size` values of `val_next`. -/
def bmc_mesh_finishstep (mesh : bmc_mesh) : bmc_mesh :=
  { mesh with
    val_prev := mesh.val_next.take mesh.size ++ mesh.val_prev.drop mesh.size
    val_next := List.replicate mesh.size 0 ++ mesh.val_next.drop mesh.size }

/-- The value `val` of one knot in `bmc_mesh_update`, record `j` of the push
matrix. -/
def knot_value (mesh : bmc_mesh) (r phi z mom1 mom2 : List ℚ) (fate : List Int)
    (j : Nat) : ℚ :=
  if fate.getD j 0 = 2 then 1
  else if |fate.getD j 0| = 1 then 0
  else bmc_mesh_interpolate mesh (rd r j) (rd phi j) (rd z j) (rd mom1 j) (rd mom2 j)

/-- One iteration of the knot loop of `bmc_mesh_update`:
`mesh->val_next[iprt] += val * hermite_w[i_knot]`, with `idx = (iprt - start) * K`. -/
def update_knot (hermite_w : List ℚ) (r phi z mom1 mom2 : List ℚ) (fate : List Int)
    (iprt idx : Nat) (mesh : bmc_mesh) (i_knot : Nat) : bmc_mesh :=
  let val := knot_value mesh r phi z mom1 mom2 fate (add64 idx i_knot)
  { mesh with
    val_next := mesh.val_next.set iprt (rd mesh.val_next iprt + val * rd hermite_w i_knot) }

/-- The body of the outer loop of `bmc_mesh_update` for one mesh element
`iprt`: the loop over the knots. -/
def update_element (K : Nat) (hermite_w : List ℚ) (start : Nat)
    (r phi z mom1 mom2 : List ℚ) (fate : List Int) (mesh : bmc_mesh) (iprt : Nat) :
    bmc_mesh :=
  (List.range K).foldl
    (update_knot hermite_w r phi z mom1 mom2 fate iprt (mul64 (sub64 iprt start) K)) mesh

/-- The function `bmc_mesh_update` over the mesh elements `[start, stop)`. -/
def bmc_mesh_update (K : Nat) (hermite_w : List ℚ) (mesh : bmc_mesh) (start stop : Nat)
    (r phi z mom1 mom2 : List ℚ) (fate : List Int) : bmc_mesh :=
  ((List.range (stop - start)).map (fun t => start + t)).foldl
    (update_element K hermite_w start r phi z mom1 mom2 fate) mesh

/-- Two mesh states that differ at most in `val_next`. -/
def agree_off_val_next (a b : bmc_mesh) : Prop :=
  { a with val_next := b.val_next } = b

/-- A buffer of `n` values: `1` at index `L` and `0` at every other index. -/
def one_hot (n L : Nat) : List ℚ := (List.replicate n 0).set L 1

/-- The mesh of counts `3` over `[0, 1]` on the four non-periodic axes, with
`n_phi` phi abscissae over `[0, max_phi]`, whose `val_prev` is filled with `vp`. -/
def mesh_three (max_phi : ℚ) (n_phi : Int) (vp : List ℚ) : bmc_mesh :=
  { (init_mesh 0 1 3 0 max_phi n_phi 0 1 3 0 1 3 0 1 3) with val_prev := vp }

/-- The four-dimensional multilinear interpolation of `val_prev` over
`(R, z, mom1, mom2)` on the phi row `0`, under the boundary policy of
`bmc_mesh_interpolate`: the sum over the 16 corners of the cell of the value at
the corner times the product of the four matching axis weights, divided by the
product of the four cell widths. -/
def interpolate_4d (mesh : bmc_mesh) (r z mom1 mom2 : ℚ) : ℚ :=
  let i_r := interp_i_r mesh r
  let i_z := interp_i_z mesh z
  let i_mom1 := interp_i_mom1 mesh mom1
  let i_mom2 := interp_i_mom2 mesh mom2
  if interp_inside mesh i_r i_z i_mom1 i_mom2 then
    let dr : List ℚ := [rd mesh.r (add64 i_r 1) - r, r - rd mesh.r i_r]
    let dz : List ℚ := [rd mesh.z (add64 i_z 1) - z, z - rd mesh.z i_z]
    let dppa : List ℚ := [rd mesh.mom1 (add64 i_mom1 1) - mom1, mom1 - rd mesh.mom1 i_mom1]
    let dppe : List ℚ := [rd mesh.mom2 (add64 i_mom2 1) - mom2, mom2 - rd mesh.mom2 i_mom2]
    let vol : ℚ := (rd mesh.r (add64 i_r 1) - rd mesh.r i_r)
      * (rd mesh.z (add64 i_z 1) - rd mesh.z i_z)
      * (rd mesh.mom1 (add64 i_mom1 1) - rd mesh.mom1 i_mom1)
      * (rd mesh.mom2 (add64 i_mom2 1) - rd mesh.mom2 i_mom2)
    let val : ℚ :=
      [0, 1].foldl (fun val i1 =>
      [0, 1].foldl (fun val i2 =>
      [0, 1].foldl (fun val i4 =>
      [0, 1].foldl (fun val i5 =>
        val + rd mesh.val_prev (interp_idx0 mesh i_r i_z 0 0 i_mom1 i_mom2 i1 i2 0 i4 i5)
          * rd dr i1 * rd dz i2 * rd dppa i4 * rd dppe i5)
      val) val) val) 0
    val / vol
  else 0

/-- One coordinate array of the push matrix of an identity orbit push with `K`
knots per mesh element: record `j` belongs to the element `j / K` and holds the
coordinate `sel` of the vertex of that element, as given by `bmc_mesh_index2pos`. -/
def vertex_endpoints (mesh : bmc_mesh) (K : Nat) (sel : ℚ × ℚ × ℚ × ℚ × ℚ → ℚ) : List ℚ :=
  (List.range (mesh.size * K)).map (fun (j : Nat) => sel (bmc_mesh_index2pos mesh (j / K)))

/-- The mesh of counts `3` over `[0, 1]` on the four non-periodic axes and three
phi abscissae over `[0, 6]` (phi spacing `3/2`), with `val_prev` equal to `c` at
every index. -/
def mesh_wide (c : ℚ) : bmc_mesh :=
  mesh_three 6 3 (List.replicate (init_mesh 0 1 3 0 6 3 0 1 3 0 1 3 0 1 3).size c)

theorem size_of_int_natCast (n : Nat) : size_of_int (n : Int) = n % SIZE_MOD := by
  unfold size_of_int
  rw [← Int.natCast_mod, Int.toNat_natCast]

theorem size_of_int_natCast_of_lt (n : Nat) (h : n < SIZE_MOD) : size_of_int (n : Int) = n := by
  rw [size_of_int_natCast, Nat.mod_eq_of_lt h]

theorem size_of_int_lt (x : Int) : size_of_int x < SIZE_MOD := by
  unfold size_of_int
  have h : (0 : Int) < (SIZE_MOD : Int) := by unfold SIZE_MOD; norm_num
  have h1 := Int.emod_lt_of_pos x h
  have h2 := Int.emod_nonneg x (ne_of_gt h)
  omega

theorem add64_eq (a b : Nat) (h : a + b < SIZE_MOD) : add64 a b = a + b :=
  Nat.mod_eq_of_lt h

theorem mul64_eq (a b : Nat) (h : a * b < SIZE_MOD) : mul64 a b = a * b :=
  Nat.mod_eq_of_lt h

theorem sub64_eq (a b : Nat) (hb : b ≤ a) (ha : a < SIZE_MOD) : sub64 a b = a - b := by
  unfold sub64
  rw [Nat.mod_eq_of_lt (lt_of_le_of_lt hb ha)]
  have : a + (SIZE_MOD - b) = (a - b) + SIZE_MOD := by omega
  rw [this, Nat.add_mod_right, Nat.mod_eq_of_lt (by omega)]

theorem trunc_eq_floor (x : ℚ) (h : 0 ≤ x) : Int.tdiv x.num (x.den : Int) = ⌊x⌋ := by
  rw [Rat.floor_def]
  exact Int.tdiv_eq_ediv (Rat.num_nonneg.mpr h) (Int.natCast_nonneg _)

theorem trunc_eq_zero (x : ℚ) (h1 : -1 < x) (h2 : x < 1) : Int.tdiv x.num (x.den : Int) = 0 := by
  rcases le_or_lt 0 x with h | h
  · rw [trunc_eq_floor x h, Int.floor_eq_iff]
    constructor
    · simpa using h
    · simpa using h2
  · have hneg : 0 ≤ -x := by linarith
    have := trunc_eq_floor (-x) hneg
    rw [Rat.neg_num, Rat.neg_den, Int.neg_tdiv] at this
    have h0 : ⌊-x⌋ = 0 := by
      rw [Int.floor_eq_iff]
      constructor
      · simpa using hneg
      · simp; linarith
    rw [h0] at this
    omega

theorem size_of_real_eq (x : ℚ) (k : Nat) (hk : k < SIZE_MOD) (h1 : (k : ℚ) ≤ x)
    (h2 : x < (k : ℚ) + 1) : size_of_real x = k := by
  unfold size_of_real
  have h0 : 0 ≤ x := le_trans (Nat.cast_nonneg k) h1
  rw [trunc_eq_floor x h0]
  have : ⌊x⌋ = (k : Int) := by
    rw [Int.floor_eq_iff]
    exact ⟨by simpa using h1, by simpa using h2⟩
  rw [this, size_of_int_natCast_of_lt k hk]

theorem size_of_real_eq_zero (x : ℚ) (h1 : -1 < x) (h2 : x < 1) : size_of_real x = 0 := by
  unfold size_of_real
  rw [trunc_eq_zero x h1 h2]
  rfl

/-! ## Lemmas on the stored abscissae -/

theorem store_abscissae_length (min max : ℚ) (n : Int) :
    (store_abscissae min max n).length = (n + 1).toNat := by
  simp only [store_abscissae, List.length_map, List.length_range]

theorem store_abscissae_phi_length (min max : ℚ) (n : Int) :
    (store_abscissae_phi min max n).length = n.toNat := by
  simp only [store_abscissae_phi, List.length_map, List.length_range]

theorem store_abscissae_get (min max : ℚ) (n : Int) (i : Nat) (hi : (i : Int) ≤ n) :
    (store_abscissae min max n)[i]? = some (min + (i : ℚ) * (max - min) / (n : ℚ)) := by
  have h : i < (n + 1).toNat := by omega
  simp only [store_abscissae, List.getElem?_map, List.getElem?_range h, Option.map_some']

theorem store_abscissae_phi_get (min max : ℚ) (n : Int) (i : Nat) (hi : (i : Int) < n) :
    (store_abscissae_phi min max n)[i]? =
      some (min + (i : ℚ) * (max - min) / ((n : ℚ) + 1)) := by
  have h : i < n.toNat := by omega
  simp only [store_abscissae_phi, List.getElem?_map, List.getElem?_range h, Option.map_some']
  push_cast
  rfl

theorem rd_of_get (a : List ℚ) (i : Nat) (v : ℚ) (h : a[i]? = some v) : rd a i = v := by
  simp [rd, List.getD, h]

theorem rd_store_abscissae (min max : ℚ) (n : Int) (i : Nat) (hi : (i : Int) ≤ n) :
    rd (store_abscissae min max n) i = min + (i : ℚ) * (max - min) / (n : ℚ) :=
  rd_of_get _ _ _ (store_abscissae_get min max n i hi)

theorem rd_store_abscissae_phi (min max : ℚ) (n : Int) (i : Nat) (hi : (i : Int) < n) :
    rd (store_abscissae_phi min max n) i = min + (i : ℚ) * (max - min) / ((n : ℚ) + 1) :=
  rd_of_get _ _ _ (store_abscissae_phi_get min max n i hi)

/-- Size stored by `bmc_mesh_init`, for non-negative stored sizes whose product
is representable. -/
theorem init_size_eq (a b c d e : Int) (ha : 0 ≤ a) (hb : 0 ≤ b) (hc : 0 ≤ c) (hd : 0 ≤ d)
    (he : 0 ≤ e) (hfit : a * b * c * d * e < (SIZE_MOD : Int)) :
    ((mul64 (mul64 (mul64 (mul64 (size_of_int a) (size_of_int b))
      (size_of_int c)) (size_of_int d)) (size_of_int e) : Nat) : Int) = a * b * c * d * e := by
  obtain ⟨a, rfl⟩ := Int.eq_ofNat_of_zero_le ha
  obtain ⟨b, rfl⟩ := Int.eq_ofNat_of_zero_le hb
  obtain ⟨c, rfl⟩ := Int.eq_ofNat_of_zero_le hc
  obtain ⟨d, rfl⟩ := Int.eq_ofNat_of_zero_le hd
  obtain ⟨e, rfl⟩ := Int.eq_ofNat_of_zero_le he
  have hfit' : a * b * c * d * e < SIZE_MOD := by exact_mod_cast hfit
  simp only [size_of_int_natCast]
  have : mul64 (mul64 (mul64 (mul64 (a % SIZE_MOD) (b % SIZE_MOD)) (c % SIZE_MOD))
      (d % SIZE_MOD)) (e % SIZE_MOD) = (a * b * c * d * e) % SIZE_MOD := by
    unfold mul64
    simp [Nat.mul_mod, Nat.mod_mod]
  rw [this, Nat.mod_eq_of_lt hfit']
  push_cast
  ring

/-- Claim C9: in exact arithmetic, for an axis with `n > 0` the abscissae stored
by `bmc_mesh_init` on a non-periodic axis are `a[i] = min + i * (max - min) / n`
for `i` in `[0, n]`, with `a[0] = min` and `a[n] = max`; the stored phi abscissae
are `phi[i] = min + i * (max - min) / (n + 1)` for `i` in `[0, n)`, with
`phi[0] = min`. -/
theorem C9_axis_layout (min_r max_r : ℚ) (n_r : Int) (min_phi max_phi : ℚ) (n_phi : Int)
    (min_z max_z : ℚ) (n_z : Int) (min_mom1 max_mom1 : ℚ) (n_mom1 : Int)
    (min_mom2 max_mom2 : ℚ) (n_mom2 : Int) (mesh : bmc_mesh)
    (hmesh : mesh = (init_mesh min_r max_r n_r min_phi max_phi n_phi min_z max_z n_z
      min_mom1 max_mom1 n_mom1 min_mom2 max_mom2 n_mom2)) :
    (0 < n_r →
      (∀ i : Nat, (i : Int) ≤ n_r →
        mesh.r[i]? = some (min_r + (i : ℚ) * (max_r - min_r) / (n_r : ℚ))) ∧
      mesh.r[0]? = some min_r ∧ mesh.r[n_r.toNat]? = some max_r) ∧
    (0 < n_z →
      (∀ i : Nat, (i : Int) ≤ n_z →
        mesh.z[i]? = some (min_z + (i : ℚ) * (max_z - min_z) / (n_z : ℚ))) ∧
      mesh.z[0]? = some min_z ∧ mesh.z[n_z.toNat]? = some max_z) ∧
    (0 < n_mom1 →
      (∀ i : Nat, (i : Int) ≤ n_mom1 →
        mesh.mom1[i]? = some (min_mom1 + (i : ℚ) * (max_mom1 - min_mom1) / (n_mom1 : ℚ))) ∧
      mesh.mom1[0]? = some min_mom1 ∧ mesh.mom1[n_mom1.toNat]? = some max_mom1) ∧
    (0 < n_mom2 →
      (∀ i : Nat, (i : Int) ≤ n_mom2 →
        mesh.mom2[i]? = some (min_mom2 + (i : ℚ) * (max_mom2 - min_mom2) / (n_mom2 : ℚ))) ∧
      mesh.mom2[0]? = some min_mom2 ∧ mesh.mom2[n_mom2.toNat]? = some max_mom2) ∧
    (0 < n_phi →
      (∀ i : Nat, (i : Int) < n_phi →
        mesh.phi[i]? = some (min_phi + (i : ℚ) * (max_phi - min_phi) / ((n_phi : ℚ) + 1))) ∧
      mesh.phi[0]? = some min_phi) := by
  have key : ∀ (min max : ℚ) (n : Int), 0 < n →
      (∀ i : Nat, (i : Int) ≤ n →
        (store_abscissae min max n)[i]? = some (min + (i : ℚ) * (max - min) / (n : ℚ))) ∧
      (store_abscissae min max n)[0]? = some min ∧
      (store_abscissae min max n)[n.toNat]? = some max := by
    intro min max n hn
    refine ⟨fun i hi => store_abscissae_get min max n i hi, ?_, ?_⟩
    · rw [store_abscissae_get min max n 0 (by simpa using hn.le)]
      simp
    · rw [store_abscissae_get min max n n.toNat (by omega)]
      have hq : ((n.toNat : Nat) : ℚ) = (n : ℚ) := by
        have : ((n.toNat : Nat) : Int) = n := Int.toNat_of_nonneg hn.le
        exact_mod_cast this
      have hne : (n : ℚ) ≠ 0 := by exact_mod_cast (ne_of_gt hn)
      rw [hq]
      congr 1
      field_simp
  subst hmesh
  refine ⟨key min_r max_r n_r, key min_z max_z n_z, key min_mom1 max_mom1 n_mom1,
    key min_mom2 max_mom2 n_mom2, ?_⟩
  intro hn
  refine ⟨fun i hi => store_abscissae_phi_get min_phi max_phi n_phi i hi, ?_⟩
  show (store_abscissae_phi min_phi max_phi n_phi)[0]? = some min_phi
  rw [store_abscissae_phi_get min_phi max_phi n_phi 0 (by simpa using hn)]
  simp

/-- Witness of C9 on the axes `[0, 1] x 2`, phi `[0, 6] x 2`. -/
theorem C9_axis_layout_witness :
    (init_mesh 0 1 2 0 6 2 0 1 2 0 1 2 0 1 2).r[2]? = some 1 ∧
    (init_mesh 0 1 2 0 6 2 0 1 2 0 1 2 0 1 2).phi[1]? = some (0 + (1 : ℚ) * (6 - 0) / (((2 : Int) : ℚ) + 1)) :=
  ⟨((C9_axis_layout 0 1 2 0 6 2 0 1 2 0 1 2 0 1 2 _ rfl).1 (by decide)).2.2,
   ((C9_axis_layout 0 1 2 0 6 2 0 1 2 0 1 2 0 1 2 _ rfl).2.2.2.2 (by decide)).1 1 (by decide)⟩

theorem sub64_quot (idx d : Nat) (hidx : idx < SIZE_MOD) :
    sub64 idx (size_of_int ((idx / d * d : Nat) : Int)) = idx % d := by
  have hle : idx / d * d ≤ idx := Nat.div_mul_le_self idx d
  rw [size_of_int_natCast_of_lt _ (lt_of_le_of_lt hle hidx), sub64_eq _ _ hle hidx]
  have := Nat.div_add_mod idx d
  have h2 : d * (idx / d) = idx / d * d := Nat.mul_comm _ _
  omega

/-! ## Lemmas on the `int` arithmetic -/

theorem wrap_int_eq (x : Int) (h0 : 0 ≤ x) (h1 : x ≤ INT_MAX) : wrap_int x = x := by
  unfold wrap_int INT_MOD
  unfold INT_MAX at h1
  omega

theorem int_of_size_eq (x : Nat) (h : (x : Int) ≤ INT_MAX) : int_of_size x = (x : Int) :=
  wrap_int_eq _ (Int.natCast_nonneg _) h

theorem mul_int_natCast (a b : Nat) (h : ((a * b : Nat) : Int) ≤ INT_MAX) :
    mul_int (a : Int) (b : Int) = ((a * b : Nat) : Int) := by
  unfold mul_int
  rw [← Nat.cast_mul]
  exact wrap_int_eq _ (Int.natCast_nonneg _) h

theorem mul_int_chain2 (q a b : Nat) (hb : 0 < b) (h : ((q * a * b : Nat) : Int) ≤ INT_MAX) :
    mul_int (mul_int (q : Int) (a : Int)) (b : Int) = ((q * a * b : Nat) : Int) := by
  have h1 : ((q * a : Nat) : Int) ≤ INT_MAX :=
    le_trans (by exact_mod_cast Nat.le_mul_of_pos_right (q * a) hb) h
  rw [mul_int_natCast q a h1, mul_int_natCast (q * a) b h]

theorem mul_int_chain3 (q a b c : Nat) (hb : 0 < b) (hc : 0 < c)
    (h : ((q * a * b * c : Nat) : Int) ≤ INT_MAX) :
    mul_int (mul_int (mul_int (q : Int) (a : Int)) (b : Int)) (c : Int) =
      ((q * a * b * c : Nat) : Int) := by
  have h1 : ((q * a * b : Nat) : Int) ≤ INT_MAX :=
    le_trans (by exact_mod_cast Nat.le_mul_of_pos_right (q * a * b) hc) h
  rw [mul_int_chain2 q a b hb h1, mul_int_natCast (q * a * b) c h]

theorem mul_int_chain4 (q a b c d : Nat) (hb : 0 < b) (hc : 0 < c) (hd : 0 < d)
    (h : ((q * a * b * c * d : Nat) : Int) ≤ INT_MAX) :
    mul_int (mul_int (mul_int (mul_int (q : Int) (a : Int)) (b : Int)) (c : Int)) (d : Int) =
      ((q * a * b * c * d : Nat) : Int) := by
  have h1 : ((q * a * b * c : Nat) : Int) ≤ INT_MAX :=
    le_trans (by exact_mod_cast Nat.le_mul_of_pos_right (q * a * b * c) hd) h
  rw [mul_int_chain3 q a b c hb hc h1, mul_int_natCast (q * a * b * c) d h]

theorem int_max_lt_size : INT_MAX < (SIZE_MOD : Int) := by
  unfold INT_MAX SIZE_MOD
  norm_num

theorem lt_size_of_le_int_max (x : Nat) (h : (x : Int) ≤ INT_MAX) : x < SIZE_MOD := by
  have := int_max_lt_size
  omega

/-- The indices derived by `bmc_mesh_index2pos`, as quotients and remainders of
natural numbers, on a mesh whose stored sizes are positive, when `idx` and the
product of the first four stored sizes are at most `INT_MAX`, so that every `int`
result of the function is representable. -/
theorem index2pos_indices_nat (m : bmc_mesh) (Nr Nz Nphi Nm1 : Nat)
    (hr : m.n_r = (Nr : Int)) (hz : m.n_z = (Nz : Int)) (hphi : m.n_phi = (Nphi : Int))
    (hm1 : m.n_mom1 = (Nm1 : Int)) (idx : Nat) (hidx : (idx : Int) ≤ INT_MAX)
    (hP : ((Nr * Nz * Nphi * Nm1 : Nat) : Int) ≤ INT_MAX) (h0 : 0 < Nr * Nz * Nphi * Nm1) :
    index2pos_indices m idx =
      (((idx % (Nr * Nz * Nphi * Nm1) % (Nr * Nz * Nphi) % (Nr * Nz) % Nr : Nat) : Int),
       ((idx % (Nr * Nz * Nphi * Nm1) % (Nr * Nz * Nphi) / (Nr * Nz) : Nat) : Int),
       ((idx % (Nr * Nz * Nphi * Nm1) % (Nr * Nz * Nphi) % (Nr * Nz) / Nr : Nat) : Int),
       ((idx % (Nr * Nz * Nphi * Nm1) / (Nr * Nz * Nphi) : Nat) : Int),
       ((idx / (Nr * Nz * Nphi * Nm1) : Nat) : Int)) := by
  have hNm1 : 0 < Nm1 := Nat.pos_of_ne_zero (by rintro rfl; simp at h0)
  have hNphi : 0 < Nphi := Nat.pos_of_ne_zero (by rintro rfl; simp at h0)
  have hNz : 0 < Nz := Nat.pos_of_ne_zero (by rintro rfl; simp at h0)
  have hNr : 0 < Nr := Nat.pos_of_ne_zero (by rintro rfl; simp at h0)
  have hidx' : idx < SIZE_MOD := lt_size_of_le_int_max idx hidx
  have fit : ∀ x : Nat, x ≤ idx → ((x : Nat) : Int) ≤ INT_MAX := fun x hx =>
    le_trans (by exact_mod_cast hx) hidx
  have hP3 : ((Nr * Nz * Nphi : Nat) : Int) ≤ INT_MAX :=
    le_trans (by exact_mod_cast Nat.le_mul_of_pos_right (Nr * Nz * Nphi) hNm1) hP
  have hP2 : ((Nr * Nz : Nat) : Int) ≤ INT_MAX :=
    le_trans (by exact_mod_cast Nat.le_mul_of_pos_right (Nr * Nz) hNphi) hP3
  have hP1 : ((Nr : Nat) : Int) ≤ INT_MAX :=
    le_trans (by exact_mod_cast Nat.le_mul_of_pos_right Nr hNz) hP2
  have l1 : idx % (Nr * Nz * Nphi * Nm1) ≤ idx := Nat.mod_le _ _
  have l2 : idx % (Nr * Nz * Nphi * Nm1) % (Nr * Nz * Nphi) ≤ idx :=
    le_trans (Nat.mod_le _ _) l1
  have l3 : idx % (Nr * Nz * Nphi * Nm1) % (Nr * Nz * Nphi) % (Nr * Nz) ≤ idx :=
    le_trans (Nat.mod_le _ _) l2
  have l4 : idx % (Nr * Nz * Nphi * Nm1) % (Nr * Nz * Nphi) % (Nr * Nz) % Nr ≤ idx :=
    le_trans (Nat.mod_le _ _) l3
  have a4 : ∀ x : Nat, x / (Nr * Nz * Nphi * Nm1) * Nr * Nz * Nphi * Nm1 =
      x / (Nr * Nz * Nphi * Nm1) * (Nr * Nz * Nphi * Nm1) := by intro x; ring
  have a3 : ∀ x : Nat, x / (Nr * Nz * Nphi) * Nr * Nz * Nphi =
      x / (Nr * Nz * Nphi) * (Nr * Nz * Nphi) := by intro x; ring
  have a2 : ∀ x : Nat, x / (Nr * Nz) * Nr * Nz = x / (Nr * Nz) * (Nr * Nz) := by
    intro x; ring
  simp only [index2pos_indices, hr, hz, hphi, hm1]
  rw [mul_int_chain3 Nr Nz Nphi Nm1 hNphi hNm1 hP,
    size_of_int_natCast_of_lt _ (lt_size_of_le_int_max _ hP),
    int_of_size_eq _ (fit _ (Nat.div_le_self _ _)),
    mul_int_chain4 _ Nr Nz Nphi Nm1 hNz hNphi hNm1
      (by rw [a4]; exact fit _ (Nat.div_mul_le_self _ _)),
    a4, sub64_quot _ _ hidx']
  rw [mul_int_chain2 Nr Nz Nphi hNphi hP3,
    size_of_int_natCast_of_lt _ (lt_size_of_le_int_max _ hP3),
    int_of_size_eq _ (fit _ (le_trans (Nat.div_le_self _ _) l1)),
    mul_int_chain3 _ Nr Nz Nphi hNz hNphi
      (by rw [a3]; exact fit _ (le_trans (Nat.div_mul_le_self _ _) l1)),
    a3, sub64_quot _ _ (lt_of_le_of_lt l1 hidx')]
  rw [mul_int_natCast Nr Nz hP2,
    size_of_int_natCast_of_lt _ (lt_size_of_le_int_max _ hP2),
    int_of_size_eq _ (fit _ (le_trans (Nat.div_le_self _ _) l2)),
    mul_int_chain2 _ Nr Nz hNz
      (by rw [a2]; exact fit _ (le_trans (Nat.div_mul_le_self _ _) l2)),
    a2, sub64_quot _ _ (lt_of_le_of_lt l2 hidx')]
  rw [size_of_int_natCast_of_lt _ (lt_size_of_le_int_max _ hP1),
    int_of_size_eq _ (fit _ (le_trans (Nat.div_le_self _ _) l3)),
    mul_int_natCast _ Nr (fit _ (le_trans (Nat.div_mul_le_self _ _) l3)),
    sub64_quot _ _ (lt_of_le_of_lt l3 hidx'),
    int_of_size_eq _ (fit _ l4)]

/-- Quotients and remainders of the canonical linearization: every index is
inside its axis and the indices recombine to `idx`. -/
theorem unlin_bounds (Nr Nz Nphi Nm1 Nm2 idx : Nat) (h0 : 0 < Nr * Nz * Nphi * Nm1)
    (h : idx < Nr * Nz * Nphi * Nm1 * Nm2) :
    idx % (Nr * Nz * Nphi * Nm1) % (Nr * Nz * Nphi) % (Nr * Nz) % Nr < Nr ∧
    idx % (Nr * Nz * Nphi * Nm1) % (Nr * Nz * Nphi) / (Nr * Nz) < Nphi ∧
    idx % (Nr * Nz * Nphi * Nm1) % (Nr * Nz * Nphi) % (Nr * Nz) / Nr < Nz ∧
    idx % (Nr * Nz * Nphi * Nm1) / (Nr * Nz * Nphi) < Nm1 ∧
    idx / (Nr * Nz * Nphi * Nm1) < Nm2 ∧
    idx / (Nr * Nz * Nphi * Nm1) * (Nr * Nz * Nphi * Nm1)
      + idx % (Nr * Nz * Nphi * Nm1) / (Nr * Nz * Nphi) * (Nr * Nz * Nphi)
      + idx % (Nr * Nz * Nphi * Nm1) % (Nr * Nz * Nphi) / (Nr * Nz) * (Nr * Nz)
      + idx % (Nr * Nz * Nphi * Nm1) % (Nr * Nz * Nphi) % (Nr * Nz) / Nr * Nr
      + idx % (Nr * Nz * Nphi * Nm1) % (Nr * Nz * Nphi) % (Nr * Nz) % Nr = idx := by
  have hNm1 : 0 < Nm1 := Nat.pos_of_ne_zero (by rintro rfl; simp at h0)
  have hNphi : 0 < Nphi := Nat.pos_of_ne_zero (by rintro rfl; simp at h0)
  have hNz : 0 < Nz := Nat.pos_of_ne_zero (by rintro rfl; simp at h0)
  have hNr : 0 < Nr := Nat.pos_of_ne_zero (by rintro rfl; simp at h0)
  have h3 : 0 < Nr * Nz * Nphi := Nat.mul_pos (Nat.mul_pos hNr hNz) hNphi
  have h2 : 0 < Nr * Nz := Nat.mul_pos hNr hNz
  refine ⟨Nat.mod_lt _ hNr, ?_, ?_, ?_, ?_, ?_⟩
  · rw [Nat.div_lt_iff_lt_mul h2, Nat.mul_comm Nphi (Nr * Nz)]
    exact Nat.mod_lt _ h3
  · rw [Nat.div_lt_iff_lt_mul hNr, Nat.mul_comm Nz Nr]
    exact Nat.mod_lt _ h2
  · rw [Nat.div_lt_iff_lt_mul h3, Nat.mul_comm Nm1 (Nr * Nz * Nphi)]
    exact Nat.mod_lt _ h0
  · rw [Nat.div_lt_iff_lt_mul h0, Nat.mul_comm Nm2 (Nr * Nz * Nphi * Nm1)]
    exact h
  · have a1 := Nat.div_add_mod idx (Nr * Nz * Nphi * Nm1)
    have a2 := Nat.div_add_mod (idx % (Nr * Nz * Nphi * Nm1)) (Nr * Nz * Nphi)
    have a3 := Nat.div_add_mod (idx % (Nr * Nz * Nphi * Nm1) % (Nr * Nz * Nphi)) (Nr * Nz)
    have a4 := Nat.div_add_mod
      (idx % (Nr * Nz * Nphi * Nm1) % (Nr * Nz * Nphi) % (Nr * Nz)) Nr
    rw [Nat.mul_comm] at a1 a2 a3 a4
    omega

/-! ## Index to position: claim C1 -/

theorem rdi_natCast (l : List ℚ) (k : Nat) (h : k < l.length) :
    l[k]? = some (rdi l (k : Int)) := by
  simp [rdi, List.getD, List.getElem?_eq_getElem h]

/-- Stored sizes of a mesh built from well-formed counts, as natural numbers. -/
theorem init_nat_sizes (min_r max_r : ℚ) (n_r : Int) (min_phi max_phi : ℚ) (n_phi : Int)
    (min_z max_z : ℚ) (n_z : Int) (min_mom1 max_mom1 : ℚ) (n_mom1 : Int)
    (min_mom2 max_mom2 : ℚ) (n_mom2 : Int) (hc : counts_ok n_r n_phi n_z n_mom1 n_mom2)
    (mesh : bmc_mesh)
    (hmesh : mesh = (init_mesh min_r max_r n_r min_phi max_phi n_phi min_z max_z n_z
        min_mom1 max_mom1 n_mom1 min_mom2 max_mom2 n_mom2)) :
    ∃ Nr Nz Nphi Nm1 Nm2 : Nat,
      2 ≤ Nr ∧ 2 ≤ Nz ∧ 1 ≤ Nphi ∧ 2 ≤ Nm1 ∧ 2 ≤ Nm2 ∧
      mesh.n_r = (Nr : Int) ∧ mesh.n_z = (Nz : Int) ∧ mesh.n_phi = (Nphi : Int) ∧
      mesh.n_mom1 = (Nm1 : Int) ∧ mesh.n_mom2 = (Nm2 : Int) ∧
      mesh.r.length = Nr ∧ mesh.z.length = Nz ∧ mesh.phi.length = Nphi ∧
      mesh.mom1.length = Nm1 ∧ mesh.mom2.length = Nm2 ∧
      mesh.size = Nr * Nz * Nphi * Nm1 * Nm2 ∧ Nr * Nz * Nphi * Nm1 * Nm2 < SIZE_MOD := by
  obtain ⟨h1, h2, h3, h4, h5, hfit⟩ := hc
  obtain ⟨a, rfl⟩ := Int.eq_ofNat_of_zero_le h1.le
  obtain ⟨b, rfl⟩ := Int.eq_ofNat_of_zero_le h2.le
  obtain ⟨c, rfl⟩ := Int.eq_ofNat_of_zero_le h3.le
  obtain ⟨d, rfl⟩ := Int.eq_ofNat_of_zero_le h4.le
  obtain ⟨e, rfl⟩ := Int.eq_ofNat_of_zero_le h5.le
  have hs := init_size_eq ((a : Int) + 1) b ((c : Int) + 1) ((d : Int) + 1) ((e : Int) + 1)
    (by omega) (by omega) (by omega) (by omega) (by omega) hfit
  have hfit' : (a + 1) * (c + 1) * b * (d + 1) * (e + 1) < SIZE_MOD := by
    have : (((a + 1) * (c + 1) * b * (d + 1) * (e + 1) : Nat) : Int) < (SIZE_MOD : Int) := by
      push_cast
      calc ((a : Int) + 1) * (c + 1) * b * (d + 1) * (e + 1)
          = ((a : Int) + 1) * b * (c + 1) * (d + 1) * (e + 1) := by ring
        _ < _ := hfit
    exact_mod_cast this
  subst hmesh
  refine ⟨a + 1, c + 1, b, d + 1, e + 1, ?_⟩
  refine ⟨by omega, by omega, by omega, by omega, by omega, ?_, ?_, rfl, ?_, ?_,
    ?_, ?_, ?_, ?_, ?_, ?_, hfit'⟩
  · simp [init_mesh]
  · simp [init_mesh]
  · simp [init_mesh]
  · simp [init_mesh]
  · simp only [init_mesh, store_abscissae_length]; omega
  · simp only [init_mesh, store_abscissae_length]; omega
  · simp only [init_mesh, store_abscissae_phi_length]; omega
  · simp only [init_mesh, store_abscissae_length]; omega
  · simp only [init_mesh, store_abscissae_length]; omega
  · have : ((((init_mesh min_r max_r (a : Int) min_phi max_phi (b : Int) min_z max_z (c : Int)
        min_mom1 max_mom1 (d : Int) min_mom2 max_mom2 (e : Int))).size : Nat) : Int) = (((a + 1) * (c + 1) * b * (d + 1) * (e + 1) : Nat) : Int) := by
      rw [show ((((init_mesh min_r max_r (a : Int) min_phi max_phi (b : Int) min_z max_z (c : Int)
        min_mom1 max_mom1 (d : Int) min_mom2 max_mom2 (e : Int))).size : Nat) : Int) = _ from hs]
      push_cast
      ring
    exact_mod_cast this

/-- The indices of `bmc_mesh_index2pos` on a mesh built by `bmc_mesh_init` from
positive counts, with at most `INT_MAX` elements so that every `int` result of
the function is representable: for every `idx < size` the five axis indices lie
inside the stored sizes, recombine under the canonical linearization to `idx`,
and the coordinates returned are the stored abscissae at those indices. -/
theorem index2pos_roundtrip (min_r max_r : ℚ) (n_r : Int) (min_phi max_phi : ℚ)
    (n_phi : Int) (min_z max_z : ℚ) (n_z : Int) (min_mom1 max_mom1 : ℚ) (n_mom1 : Int)
    (min_mom2 max_mom2 : ℚ) (n_mom2 : Int) (hc : counts_ok n_r n_phi n_z n_mom1 n_mom2)
    (hint : ((init_mesh min_r max_r n_r min_phi max_phi n_phi min_z max_z n_z
      min_mom1 max_mom1 n_mom1 min_mom2 max_mom2 n_mom2).size : Int) ≤ INT_MAX)
    (idx : Nat)
    (hidx : idx < (init_mesh min_r max_r n_r min_phi max_phi n_phi min_z max_z n_z
      min_mom1 max_mom1 n_mom1 min_mom2 max_mom2 n_mom2).size) :
    let mesh := (init_mesh min_r max_r n_r min_phi max_phi n_phi min_z max_z n_z
      min_mom1 max_mom1 n_mom1 min_mom2 max_mom2 n_mom2)
    let i := index2pos_indices mesh idx
    let coords := bmc_mesh_index2pos mesh idx
    (0 ≤ i.1 ∧ i.1 < mesh.n_r) ∧ (0 ≤ i.2.1 ∧ i.2.1 < mesh.n_phi) ∧
    (0 ≤ i.2.2.1 ∧ i.2.2.1 < mesh.n_z) ∧ (0 ≤ i.2.2.2.1 ∧ i.2.2.2.1 < mesh.n_mom1) ∧
    (0 ≤ i.2.2.2.2 ∧ i.2.2.2.2 < mesh.n_mom2) ∧
    i.2.2.2.2 * (mesh.n_r * mesh.n_z * mesh.n_phi * mesh.n_mom1)
      + i.2.2.2.1 * (mesh.n_r * mesh.n_z * mesh.n_phi)
      + i.2.1 * (mesh.n_r * mesh.n_z) + i.2.2.1 * mesh.n_r + i.1 = (idx : Int) ∧
    mesh.r[i.1.toNat]? = some coords.1 ∧
    mesh.phi[i.2.1.toNat]? = some coords.2.1 ∧
    mesh.z[i.2.2.1.toNat]? = some coords.2.2.1 ∧
    mesh.mom1[i.2.2.2.1.toNat]? = some coords.2.2.2.1 ∧
    mesh.mom2[i.2.2.2.2.toNat]? = some coords.2.2.2.2 := by
  obtain ⟨Nr, Nz, Nphi, Nm1, Nm2, h⟩ := init_nat_sizes min_r max_r n_r min_phi max_phi n_phi
    min_z max_z n_z min_mom1 max_mom1 n_mom1 min_mom2 max_mom2 n_mom2 hc _ rfl
  intro mesh
  obtain ⟨b1, b2, b3, b4, b5, hr, hz, hphi, hm1, hm2, lr, lz, lphi, lm1, lm2, hsize, hfit⟩ := h
  have hidx' : idx < Nr * Nz * Nphi * Nm1 * Nm2 := hsize ▸ hidx
  have h0 : 0 < Nr * Nz * Nphi * Nm1 := by positivity
  rw [hsize] at hint
  have hidxI : (idx : Int) ≤ INT_MAX := le_trans (by exact_mod_cast hidx'.le) hint
  have hle : Nr * Nz * Nphi * Nm1 ≤ Nr * Nz * Nphi * Nm1 * Nm2 :=
    Nat.le_mul_of_pos_right _ (by omega)
  have hP : ((Nr * Nz * Nphi * Nm1 : Nat) : Int) ≤ INT_MAX :=
    le_trans (by exact_mod_cast hle) hint
  have hi := index2pos_indices_nat mesh Nr Nz Nphi Nm1 hr hz hphi hm1 idx hidxI hP h0
  obtain ⟨u1, u2, u3, u4, u5, u6⟩ := unlin_bounds Nr Nz Nphi Nm1 Nm2 idx h0 hidx'
  intro i coords
  have hi' : i = _ := hi
  have hcoords : coords = (rdi mesh.r i.1, rdi mesh.phi i.2.1, rdi mesh.z i.2.2.1,
    rdi mesh.mom1 i.2.2.2.1, rdi mesh.mom2 i.2.2.2.2) := rfl
  rw [hcoords, hi', hr, hz, hphi, hm1, hm2]
  simp only [Int.toNat_natCast]
  refine ⟨⟨Int.natCast_nonneg _, by exact_mod_cast u1⟩, ⟨Int.natCast_nonneg _, by exact_mod_cast u2⟩,
    ⟨Int.natCast_nonneg _, by exact_mod_cast u3⟩, ⟨Int.natCast_nonneg _, by exact_mod_cast u4⟩,
    ⟨Int.natCast_nonneg _, by exact_mod_cast u5⟩, by exact_mod_cast u6,
    rdi_natCast _ _ (lr ▸ u1), rdi_natCast _ _ (lphi ▸ u2), rdi_natCast _ _ (lz ▸ u3),
    rdi_natCast _ _ (lm1 ▸ u4), rdi_natCast _ _ (lm2 ▸ u5)⟩

/-- Claim C1, evaluated on the code: the products of the stored sizes that
`bmc_mesh_index2pos` divides by are `int` products.  On the mesh of counts
`(1023, 1024, 1023, 1, 1)`, of stored sizes `(1024, 1024, 1024, 2, 2)` and `2 ^ 32`
elements (built with a heap of `2 ^ 36` bytes), the product
`n_r * n_z * n_phi * n_mom1 = 2 ^ 31` exceeds `INT_MAX`; with
its two's complement value `-2 ^ 31` the call with `idx = 2 ^ 31 < size` derives
the indices `(0, 4096, 4194304, 2, 0)`: the `mom1` index is `2 = n_mom1`, the phi
and `z` indices are past their axes of `1024` entries, and the indices do not
recombine to `idx`. -/
theorem C1_index2pos_int_overflow :
    counts_ok 1023 1024 1023 1 1 ∧
    (bmc_mesh_init 68719476736 0 1 1023 0 1 1024 0 1 1023 0 1 1 0 1 1).map
      (fun p => (p.1, p.2.size)) = some (0, 4294967296) ∧
    (init_mesh 0 1 1023 0 1 1024 0 1 1023 0 1 1 0 1 1).size = 4294967296 ∧
    ((init_mesh 0 1 1023 0 1 1024 0 1 1023 0 1 1 0 1 1).n_r,
     (init_mesh 0 1 1023 0 1 1024 0 1 1023 0 1 1 0 1 1).n_phi,
     (init_mesh 0 1 1023 0 1 1024 0 1 1023 0 1 1 0 1 1).n_z,
     (init_mesh 0 1 1023 0 1 1024 0 1 1023 0 1 1 0 1 1).n_mom1,
     (init_mesh 0 1 1023 0 1 1024 0 1 1023 0 1 1 0 1 1).n_mom2) = (1024, 1024, 1024, 2, 2) ∧
    INT_MAX < (1024 : Int) * 1024 * 1024 * 2 ∧
    mul_int (mul_int (mul_int 1024 1024) 1024) 2 = -2147483648 ∧
    index2pos_indices (init_mesh 0 1 1023 0 1 1024 0 1 1023 0 1 1 0 1 1) 2147483648 =
      (0, 4096, 4194304, 2, 0) ∧
    (0 : Int) * (1024 * 1024 * 1024 * 2) + 2 * (1024 * 1024 * 1024) + 4096 * (1024 * 1024)
      + 4194304 * 1024 + 0 ≠ 2147483648 :=
  ⟨⟨by decide, by decide, by decide, by decide, by decide, by decide⟩, by decide, by decide,
    by decide, by decide, by decide, by decide, by decide⟩

/-! ## Boundary policy: claim C2 -/

theorem size_of_real_lt (x : ℚ) : size_of_real x < SIZE_MOD := size_of_int_lt _

theorem boundary_test_fails (i : Nat) (n : Int) (hi : i < SIZE_MOD) (h2 : 2 ≤ n)
    (h : (i : Int) = n - 2 ∨ (i : Int) = n - 1) : ¬ i < size_of_int (n - 2) := by
  have hn : n - 2 = ((n - 2).toNat : Int) := (Int.toNat_of_nonneg (by omega)).symm
  have hlt : (n - 2).toNat < SIZE_MOD := by omega
  rw [hn, size_of_int_natCast_of_lt _ hlt]
  omega

theorem interpolate_outside (mesh : bmc_mesh) (r phi z mom1 mom2 : ℚ)
    (h : interp_inside mesh (interp_i_r mesh r) (interp_i_z mesh z) (interp_i_mom1 mesh mom1)
      (interp_i_mom2 mesh mom2) = false) :
    bmc_mesh_interpolate mesh r phi z mom1 mom2 = 0 := by
  unfold bmc_mesh_interpolate
  simp only [h]
  rfl

/-- Claim C2: whenever the index of the query on some non-periodic axis is
`n_a - 2` or `n_a - 1` (the axis holding at least the two abscissae the index is
computed from), `bmc_mesh_interpolate` returns exactly `0` whatever `val_prev`
holds; in particular on the mesh of counts `1` on each non-periodic axis with
`val_prev[0] = 1`, the query at the first vertex `(0, 0, 0, -1, 0)` returns `0`. -/
theorem C2_boundary_policy :
    (∀ (mesh : bmc_mesh) (r phi z mom1 mom2 : ℚ),
      ((2 ≤ mesh.n_r ∧ ((interp_i_r mesh r : Int) = mesh.n_r - 2 ∨
          (interp_i_r mesh r : Int) = mesh.n_r - 1)) ∨
       (2 ≤ mesh.n_z ∧ ((interp_i_z mesh z : Int) = mesh.n_z - 2 ∨
          (interp_i_z mesh z : Int) = mesh.n_z - 1)) ∨
       (2 ≤ mesh.n_mom1 ∧ ((interp_i_mom1 mesh mom1 : Int) = mesh.n_mom1 - 2 ∨
          (interp_i_mom1 mesh mom1 : Int) = mesh.n_mom1 - 1)) ∨
       (2 ≤ mesh.n_mom2 ∧ ((interp_i_mom2 mesh mom2 : Int) = mesh.n_mom2 - 2 ∨
          (interp_i_mom2 mesh mom2 : Int) = mesh.n_mom2 - 1))) →
      bmc_mesh_interpolate mesh r phi z mom1 mom2 = 0) ∧
    (∀ (max_phi : ℚ) (n_phi : Int),
      let mesh := (init_mesh 0 1 1 0 max_phi n_phi 0 1 1 (-1) 1 1 0 1 1)
      bmc_mesh_interpolate { mesh with val_prev := mesh.val_prev.set 0 1 } 0 0 0 (-1) 0 = 0) := by
  have gen : ∀ (mesh : bmc_mesh) (r phi z mom1 mom2 : ℚ),
      ((2 ≤ mesh.n_r ∧ ((interp_i_r mesh r : Int) = mesh.n_r - 2 ∨
          (interp_i_r mesh r : Int) = mesh.n_r - 1)) ∨
       (2 ≤ mesh.n_z ∧ ((interp_i_z mesh z : Int) = mesh.n_z - 2 ∨
          (interp_i_z mesh z : Int) = mesh.n_z - 1)) ∨
       (2 ≤ mesh.n_mom1 ∧ ((interp_i_mom1 mesh mom1 : Int) = mesh.n_mom1 - 2 ∨
          (interp_i_mom1 mesh mom1 : Int) = mesh.n_mom1 - 1)) ∨
       (2 ≤ mesh.n_mom2 ∧ ((interp_i_mom2 mesh mom2 : Int) = mesh.n_mom2 - 2 ∨
          (interp_i_mom2 mesh mom2 : Int) = mesh.n_mom2 - 1))) →
      bmc_mesh_interpolate mesh r phi z mom1 mom2 = 0 := by
    intro mesh r phi z mom1 mom2 h
    apply interpolate_outside
    unfold interp_inside
    rcases h with ⟨h2, h⟩ | ⟨h2, h⟩ | ⟨h2, h⟩ | ⟨h2, h⟩
    · have := boundary_test_fails (interp_i_r mesh r) mesh.n_r (size_of_real_lt _) h2 h
      simp [this]
    · have := boundary_test_fails (interp_i_z mesh z) mesh.n_z (size_of_real_lt _) h2 h
      simp [this]
    · have := boundary_test_fails (interp_i_mom1 mesh mom1) mesh.n_mom1 (size_of_real_lt _) h2 h
      simp [this]
    · have := boundary_test_fails (interp_i_mom2 mesh mom2) mesh.n_mom2 (size_of_real_lt _) h2 h
      simp [this]
  refine ⟨gen, ?_⟩
  intro max_phi n_phi mesh
  apply gen
  left
  refine ⟨by simp [mesh, init_mesh], Or.inl ?_⟩
  have h0 : interp_i_r { mesh with val_prev := mesh.val_prev.set 0 1 } 0 = 0 := by
    unfold interp_i_r
    apply size_of_real_eq_zero
    · simp [mesh, init_mesh, store_abscissae, rd]
    · simp [mesh, init_mesh, store_abscissae, rd]
  rw [h0]
  rfl

/-- Witness of C2: the scenario of the one-cell mesh with phi range `[0, 6]`,
through the general statement (the index on `R` is `0 = n_r - 2`). -/
theorem C2_boundary_policy_witness :
    bmc_mesh_interpolate
      { (init_mesh 0 1 1 0 6 1 0 1 1 (-1) 1 1 0 1 1) with
        val_prev := (init_mesh 0 1 1 0 6 1 0 1 1 (-1) 1 1 0 1 1).val_prev.set 0 1 }
      0 0 0 (-1) 0 = 0 :=
  C2_boundary_policy.1 _ 0 0 0 (-1) 0
    (Or.inl ⟨by decide, Or.inl (by
      rw [show interp_i_r { (init_mesh 0 1 1 0 6 1 0 1 1 (-1) 1 1 0 1 1) with
          val_prev := (init_mesh 0 1 1 0 6 1 0 1 1 (-1) 1 1 0 1 1).val_prev.set 0 1 } 0 = 0
        from size_of_real_eq_zero _ (by simp [init_mesh, store_abscissae, rd])
          (by simp [init_mesh, store_abscissae, rd])]
      rfl)⟩)

/-! ## End of step: claim C8 -/

/-- Claim C8: in single-worker mode, on a mesh whose two buffers hold `size`
values, after `bmc_mesh_finishstep` every `val_prev[i]` is the `val_next[i]` held
before the call, every `val_next[i]` is `0`, and the sizes and axis arrays are
unchanged. -/
theorem C8_finishstep (mesh : bmc_mesh) (hn : mesh.val_next.length = mesh.size)
    (hp : mesh.val_prev.length = mesh.size) :
    (bmc_mesh_finishstep mesh).val_prev = mesh.val_next ∧
    (∀ i : Nat, i < mesh.size →
      (bmc_mesh_finishstep mesh).val_prev[i]? = mesh.val_next[i]?) ∧
    (bmc_mesh_finishstep mesh).val_next.length = mesh.size ∧
    (∀ i : Nat, i < mesh.size → (bmc_mesh_finishstep mesh).val_next[i]? = some 0) ∧
    (bmc_mesh_finishstep mesh).n_r = mesh.n_r ∧
    (bmc_mesh_finishstep mesh).n_phi = mesh.n_phi ∧
    (bmc_mesh_finishstep mesh).n_z = mesh.n_z ∧
    (bmc_mesh_finishstep mesh).n_mom1 = mesh.n_mom1 ∧
    (bmc_mesh_finishstep mesh).n_mom2 = mesh.n_mom2 ∧
    (bmc_mesh_finishstep mesh).size = mesh.size ∧
    (bmc_mesh_finishstep mesh).r = mesh.r ∧
    (bmc_mesh_finishstep mesh).phi = mesh.phi ∧
    (bmc_mesh_finishstep mesh).z = mesh.z ∧
    (bmc_mesh_finishstep mesh).mom1 = mesh.mom1 ∧
    (bmc_mesh_finishstep mesh).mom2 = mesh.mom2 := by
  have h1 : (bmc_mesh_finishstep mesh).val_prev = mesh.val_next := by
    show mesh.val_next.take mesh.size ++ mesh.val_prev.drop mesh.size = mesh.val_next
    rw [List.take_of_length_le (le_of_eq hn), List.drop_of_length_le (le_of_eq hp),
      List.append_nil]
  have h2 : (bmc_mesh_finishstep mesh).val_next = List.replicate mesh.size 0 := by
    show List.replicate mesh.size 0 ++ mesh.val_next.drop mesh.size = _
    rw [List.drop_of_length_le (le_of_eq hn), List.append_nil]
  refine ⟨h1, fun i _ => by rw [h1], ?_, ?_, rfl, rfl, rfl, rfl, rfl, rfl, rfl, rfl, rfl,
    rfl, rfl⟩
  · rw [h2, List.length_replicate]
  · intro i hi
    rw [h2, List.getElem?_replicate_of_lt hi]

/-- Witness of C8 on a mesh of two elements. -/
theorem C8_finishstep_witness :
    (bmc_mesh_finishstep
      { n_r := 2, n_phi := 1, n_z := 1, n_mom1 := 1, n_mom2 := 1, size := 2,
        r := [0, 1], phi := [0], z := [0], mom1 := [0], mom2 := [0],
        val_next := [3, 4], val_prev := [5, 6] }).val_prev = [3, 4] :=
  (C8_finishstep
      { n_r := 2, n_phi := 1, n_z := 1, n_mom1 := 1, n_mom2 := 1, size := 2,
        r := [0, 1], phi := [0], z := [0], mom1 := [0], mom2 := [0],
        val_next := [3, 4], val_prev := [5, 6] } rfl rfl).1

/-! ## Update: claims C6 and C7 -/

theorem interpolate_agree (a b : bmc_mesh) (h : agree_off_val_next a b)
    (r phi z mom1 mom2 : ℚ) :
    bmc_mesh_interpolate a r phi z mom1 mom2 = bmc_mesh_interpolate b r phi z mom1 mom2 := by
  have e : bmc_mesh_interpolate a r phi z mom1 mom2 =
      bmc_mesh_interpolate { a with val_next := b.val_next } r phi z mom1 mom2 := rfl
  rw [e]
  unfold agree_off_val_next at h
  rw [h]

theorem knot_value_agree (a b : bmc_mesh) (h : agree_off_val_next a b)
    (r phi z mom1 mom2 : List ℚ) (fate : List Int) (j : Nat) :
    knot_value a r phi z mom1 mom2 fate j = knot_value b r phi z mom1 mom2 fate j := by
  unfold knot_value
  rw [interpolate_agree a b h]

theorem agree_off_val_next_trans (a b c : bmc_mesh) (h1 : agree_off_val_next a b)
    (h2 : agree_off_val_next b c) : agree_off_val_next a c := by
  unfold agree_off_val_next at h1 h2 ⊢
  rw [← h2, ← h1]

theorem update_knot_agree (w r phi z mom1 mom2 : List ℚ) (fate : List Int)
    (iprt idx : Nat) (m : bmc_mesh) (k : Nat) :
    agree_off_val_next (update_knot w r phi z mom1 mom2 fate iprt idx m k) m := rfl

/-- The sum accumulated by the knot loop of `bmc_mesh_update` for element `iprt`
over the knots of the list `l`. -/
theorem knots_fold (w r phi z mom1 mom2 : List ℚ) (fate : List Int)
    (iprt idx : Nat) (l : List Nat) :
    ∀ m : bmc_mesh,
      agree_off_val_next (l.foldl (update_knot w r phi z mom1 mom2 fate iprt idx) m) m ∧
      (l.foldl (update_knot w r phi z mom1 mom2 fate iprt idx) m).val_next.length =
        m.val_next.length ∧
      (∀ i : Nat, i ≠ iprt →
        (l.foldl (update_knot w r phi z mom1 mom2 fate iprt idx) m).val_next[i]? =
          m.val_next[i]?) ∧
      (iprt < m.val_next.length →
        (l.foldl (update_knot w r phi z mom1 mom2 fate iprt idx) m).val_next[iprt]? =
        some (rd m.val_next iprt +
          (l.map (fun k => knot_value m r phi z mom1 mom2 fate (add64 idx k) * rd w k)).sum)) := by
  induction l with
  | nil =>
    intro m
    refine ⟨rfl, rfl, fun _ _ => rfl, fun h => ?_⟩
    simp [rd, List.getElem?_eq_getElem h]
  | cons k l ih =>
    intro m
    simp only [List.foldl_cons, List.map_cons, List.sum_cons]
    obtain ⟨a1, a2, a3, a4⟩ := ih (update_knot w r phi z mom1 mom2 fate iprt idx m k)
    have hag := update_knot_agree w r phi z mom1 mom2 fate iprt idx m k
    have hlen : (update_knot w r phi z mom1 mom2 fate iprt idx m k).val_next.length =
        m.val_next.length := by
      simp [update_knot]
    refine ⟨agree_off_val_next_trans _ _ _ a1 hag, by rw [a2, hlen], ?_, ?_⟩
    · intro i hi
      rw [a3 i hi]
      exact List.getElem?_set_ne (Ne.symm hi)
    · intro h
      rw [a4 (by rw [hlen]; exact h)]
      have e1 : rd (update_knot w r phi z mom1 mom2 fate iprt idx m k).val_next iprt =
          rd m.val_next iprt + knot_value m r phi z mom1 mom2 fate (add64 idx k) * rd w k := by
        simp [update_knot, rd, List.getElem?_set_self h]
      have e2 : ∀ j, knot_value (update_knot w r phi z mom1 mom2 fate iprt idx m k)
          r phi z mom1 mom2 fate j = knot_value m r phi z mom1 mom2 fate j :=
        fun j => knot_value_agree _ _ hag _ _ _ _ _ _ _
      simp only [e1, e2]
      rw [add_assoc]

theorem update_element_spec (K : Nat) (w : List ℚ) (start : Nat)
    (r phi z mom1 mom2 : List ℚ) (fate : List Int) (m : bmc_mesh) (iprt : Nat) :
    agree_off_val_next (update_element K w start r phi z mom1 mom2 fate m iprt) m ∧
    (update_element K w start r phi z mom1 mom2 fate m iprt).val_next.length =
      m.val_next.length ∧
    (∀ i : Nat, i ≠ iprt →
      (update_element K w start r phi z mom1 mom2 fate m iprt).val_next[i]? =
        m.val_next[i]?) ∧
    (iprt < m.val_next.length →
      (update_element K w start r phi z mom1 mom2 fate m iprt).val_next[iprt]? =
      some (rd m.val_next iprt +
        ((List.range K).map (fun k => knot_value m r phi z mom1 mom2 fate
          (add64 (mul64 (sub64 iprt start) K) k) * rd w k)).sum)) :=
  knots_fold w r phi z mom1 mom2 fate iprt (mul64 (sub64 iprt start) K) (List.range K) m

/-- The effect of the element loop of `bmc_mesh_update` over a list `l` of
distinct mesh elements. -/
theorem elements_fold (K : Nat) (w : List ℚ) (start : Nat)
    (r phi z mom1 mom2 : List ℚ) (fate : List Int) (l : List Nat) :
    l.Nodup → ∀ m : bmc_mesh,
      agree_off_val_next
        (l.foldl (update_element K w start r phi z mom1 mom2 fate) m) m ∧
      (l.foldl (update_element K w start r phi z mom1 mom2 fate) m).val_next.length =
        m.val_next.length ∧
      (∀ i : Nat, i ∉ l →
        (l.foldl (update_element K w start r phi z mom1 mom2 fate) m).val_next[i]? =
          m.val_next[i]?) ∧
      (∀ i : Nat, i ∈ l → i < m.val_next.length →
        (l.foldl (update_element K w start r phi z mom1 mom2 fate) m).val_next[i]? =
        some (rd m.val_next i +
          ((List.range K).map (fun k => knot_value m r phi z mom1 mom2 fate
            (add64 (mul64 (sub64 i start) K) k) * rd w k)).sum)) := by
  induction l with
  | nil =>
    intro _ m
    exact ⟨rfl, rfl, fun _ _ => rfl, fun i hi => absurd hi (List.not_mem_nil i)⟩
  | cons a l ih =>
    intro hnd m
    obtain ⟨hal, hl⟩ := List.nodup_cons.mp hnd
    obtain ⟨b1, b2, b3, b4⟩ := update_element_spec K w start r phi z mom1 mom2 fate m a
    obtain ⟨a1, a2, a3, a4⟩ := ih hl (update_element K w start r phi z mom1 mom2 fate m a)
    simp only [List.foldl_cons]
    refine ⟨agree_off_val_next_trans _ _ _ a1 b1, by rw [a2, b2], ?_, ?_⟩
    · intro i hi
      rw [List.mem_cons, not_or] at hi
      rw [a3 i hi.2, b3 i hi.1]
    · intro i hi hlen
      by_cases hia : i = a
      · subst hia
        rw [a3 i hal, b4 hlen]
      · have hil : i ∈ l := by
          rcases List.mem_cons.mp hi with h | h
          · exact absurd h hia
          · exact h
        rw [a4 i hil (by rw [b2]; exact hlen)]
        have e1 : rd (update_element K w start r phi z mom1 mom2 fate m a).val_next i =
            rd m.val_next i := by
          simp only [rd, List.getD_eq_getElem?_getD, b3 i hia]
        have e2 : ∀ j, knot_value (update_element K w start r phi z mom1 mom2 fate m a)
            r phi z mom1 mom2 fate j = knot_value m r phi z mom1 mom2 fate j :=
          fun j => knot_value_agree _ _ b1 _ _ _ _ _ _ _
        simp only [e1, e2]

theorem update_range_nodup (start stop : Nat) :
    ((List.range (stop - start)).map (fun t => start + t)).Nodup :=
  (List.nodup_range _).map (fun _ _ h => Nat.add_left_cancel h)

theorem mem_update_range (start stop i : Nat) :
    i ∈ (List.range (stop - start)).map (fun t => start + t) ↔ start ≤ i ∧ i < stop := by
  simp only [List.mem_map, List.mem_range]
  constructor
  · rintro ⟨t, ht, rfl⟩
    omega
  · rintro ⟨h1, h2⟩
    exact ⟨i - start, by omega, by omega⟩

/-- Claim C6: for every `i` in `[start, stop)` (an element of `val_next`, the
record offsets being representable), after `bmc_mesh_update` the value
`val_next[i]` is its value before the call plus the sum over the knots `k` of
`w_k * v_k`, where for record `j = (i - start) * K + k` the contribution `v_k` is
`1` if `fate[j] = 2`, `0` if `fate[j]` is `1` or `-1`, and the interpolation of
`val_prev` at the endpoint otherwise. -/
theorem C6_update_value (K : Nat) (hermite_w : List ℚ) (mesh : bmc_mesh) (start stop : Nat)
    (r phi z mom1 mom2 : List ℚ) (fate : List Int)
    (hstop : stop < SIZE_MOD) (hrec : (stop - start) * K < SIZE_MOD)
    (hsz : stop ≤ mesh.val_next.length) (i : Nat) (hi1 : start ≤ i) (hi2 : i < stop) :
    (bmc_mesh_update K hermite_w mesh start stop r phi z mom1 mom2 fate).val_next[i]? =
      some (rd mesh.val_next i +
        ((List.range K).map (fun k => rd hermite_w k *
          (if fate.getD ((i - start) * K + k) 0 = 2 then 1
           else if fate.getD ((i - start) * K + k) 0 = 1 ∨
              fate.getD ((i - start) * K + k) 0 = -1 then 0
           else bmc_mesh_interpolate mesh (rd r ((i - start) * K + k))
              (rd phi ((i - start) * K + k)) (rd z ((i - start) * K + k))
              (rd mom1 ((i - start) * K + k)) (rd mom2 ((i - start) * K + k))))).sum) := by
  obtain ⟨_, _, _, h4⟩ := elements_fold K hermite_w start r phi z mom1 mom2 fate _
    (update_range_nodup start stop) mesh
  have h := h4 i ((mem_update_range start stop i).mpr ⟨hi1, hi2⟩) (lt_of_lt_of_le hi2 hsz)
  unfold bmc_mesh_update
  rw [h]
  refine congrArg (fun s => some (rd mesh.val_next i + s))
    (congrArg List.sum (List.map_congr_left ?_))
  intro k hk
  rw [List.mem_range] at hk
  have hmul : (i - start) * K + k < (stop - start) * K := by
    have : (i - start) + 1 ≤ stop - start := by omega
    calc (i - start) * K + k < (i - start) * K + K := by omega
      _ = ((i - start) + 1) * K := by ring
      _ ≤ (stop - start) * K := Nat.mul_le_mul_right K this
  have hj : add64 (mul64 (sub64 i start) K) k = (i - start) * K + k := by
    rw [sub64_eq i start hi1 (lt_trans hi2 hstop), mul64_eq _ _ (by omega),
      add64_eq _ _ (by omega)]
  rw [hj, mul_comm]
  congr 1
  unfold knot_value
  have habs : ∀ x : Int, |x| = 1 ↔ (x = 1 ∨ x = -1) := fun x => abs_eq (by norm_num)
  simp only [habs]

/-- Witness of C6: one element, two knots of fates `2` and `1`, weights
`1/3` and `2/3`. -/
theorem C6_update_value_witness :
    (bmc_mesh_update 2 [1 / 3, 2 / 3]
      { n_r := 1, n_phi := 1, n_z := 1, n_mom1 := 1, n_mom2 := 1, size := 1,
        r := [0], phi := [0], z := [0], mom1 := [0], mom2 := [0],
        val_next := [0], val_prev := [0] }
      0 1 [0, 0] [0, 0] [0, 0] [0, 0] [0, 0] [2, 1]).val_next[0]? = some (1 / 3) := by
  have h := C6_update_value 2 [1 / 3, 2 / 3]
      { n_r := 1, n_phi := 1, n_z := 1, n_mom1 := 1, n_mom2 := 1, size := 1,
        r := [0], phi := [0], z := [0], mom1 := [0], mom2 := [0],
        val_next := [0], val_prev := [0] }
      0 1 [0, 0] [0, 0] [0, 0] [0, 0] [0, 0] [2, 1] (by decide) (by decide) (by decide) 0
      (by decide) (by decide)
  rw [h]
  simp [rd, List.range, List.range.loop]

/-- Claim C7: `bmc_mesh_update` over `[start, stop)` changes nothing but
`val_next[i]` for `i` in `[start, stop)`: `val_next` outside the range, all of
`val_prev`, the five axis arrays and the stored sizes are as before the call,
for every input of endpoints and fates. -/
theorem C7_update_frame (K : Nat) (hermite_w : List ℚ) (mesh : bmc_mesh) (start stop : Nat)
    (r phi z mom1 mom2 : List ℚ) (fate : List Int) :
    (∀ i : Nat, (i < start ∨ stop ≤ i) →
      (bmc_mesh_update K hermite_w mesh start stop r phi z mom1 mom2 fate).val_next[i]? =
        mesh.val_next[i]?) ∧
    (bmc_mesh_update K hermite_w mesh start stop r phi z mom1 mom2 fate).val_next.length =
      mesh.val_next.length ∧
    (bmc_mesh_update K hermite_w mesh start stop r phi z mom1 mom2 fate).val_prev =
      mesh.val_prev ∧
    (bmc_mesh_update K hermite_w mesh start stop r phi z mom1 mom2 fate).r = mesh.r ∧
    (bmc_mesh_update K hermite_w mesh start stop r phi z mom1 mom2 fate).phi = mesh.phi ∧
    (bmc_mesh_update K hermite_w mesh start stop r phi z mom1 mom2 fate).z = mesh.z ∧
    (bmc_mesh_update K hermite_w mesh start stop r phi z mom1 mom2 fate).mom1 = mesh.mom1 ∧
    (bmc_mesh_update K hermite_w mesh start stop r phi z mom1 mom2 fate).mom2 = mesh.mom2 ∧
    (bmc_mesh_update K hermite_w mesh start stop r phi z mom1 mom2 fate).n_r = mesh.n_r ∧
    (bmc_mesh_update K hermite_w mesh start stop r phi z mom1 mom2 fate).n_phi = mesh.n_phi ∧
    (bmc_mesh_update K hermite_w mesh start stop r phi z mom1 mom2 fate).n_z = mesh.n_z ∧
    (bmc_mesh_update K hermite_w mesh start stop r phi z mom1 mom2 fate).n_mom1 =
      mesh.n_mom1 ∧
    (bmc_mesh_update K hermite_w mesh start stop r phi z mom1 mom2 fate).n_mom2 =
      mesh.n_mom2 ∧
    (bmc_mesh_update K hermite_w mesh start stop r phi z mom1 mom2 fate).size = mesh.size := by
  obtain ⟨h1, h2, h3, _⟩ := elements_fold K hermite_w start r phi z mom1 mom2 fate _
    (update_range_nodup start stop) mesh
  have hag : agree_off_val_next
      (bmc_mesh_update K hermite_w mesh start stop r phi z mom1 mom2 fate) mesh := h1
  unfold agree_off_val_next at hag
  refine ⟨?_, h2, ?_, ?_, ?_, ?_, ?_, ?_, ?_, ?_, ?_, ?_, ?_, ?_⟩
  · intro i hi
    apply h3
    rw [mem_update_range]
    omega
  · have := congrArg bmc_mesh.val_prev hag
    exact this
  · have := congrArg bmc_mesh.r hag
    exact this
  · have := congrArg bmc_mesh.phi hag
    exact this
  · have := congrArg bmc_mesh.z hag
    exact this
  · have := congrArg bmc_mesh.mom1 hag
    exact this
  · have := congrArg bmc_mesh.mom2 hag
    exact this
  · have := congrArg bmc_mesh.n_r hag
    exact this
  · have := congrArg bmc_mesh.n_phi hag
    exact this
  · have := congrArg bmc_mesh.n_z hag
    exact this
  · have := congrArg bmc_mesh.n_mom1 hag
    exact this
  · have := congrArg bmc_mesh.n_mom2 hag
    exact this
  · have := congrArg bmc_mesh.size hag
    exact this

/-! ## Lemmas on the corner indices of the interpolation -/

theorem add64_sub64 (a b : Nat) (ha : a < SIZE_MOD) (hb : b < SIZE_MOD) :
    add64 a (sub64 b a) = b := by
  unfold add64 sub64
  rw [Nat.mod_eq_of_lt ha, Nat.add_mod_mod]
  have : a + (b + (SIZE_MOD - a)) = b + SIZE_MOD := by omega
  rw [this, Nat.add_mod_right, Nat.mod_eq_of_lt hb]

/-- The phi index of a corner: `i_phi` for `i3 = 0`, the wrap partner for
`i3 = 1`. -/
theorem corner_phi (i_phi i_phi1 i3 : Nat) (h3 : i3 ≤ 1) (ha : i_phi < SIZE_MOD)
    (hb : i_phi1 < SIZE_MOD) :
    add64 i_phi (mul64 i3 (sub64 i_phi1 i_phi)) = if i3 = 0 then i_phi else i_phi1 := by
  have h : i3 = 0 ∨ i3 = 1 := by omega
  rcases h with rfl | rfl
  · simp [mul64, add64, Nat.mod_eq_of_lt ha]
  · have hs : sub64 i_phi1 i_phi < SIZE_MOD := Nat.mod_lt _ (by unfold SIZE_MOD; norm_num)
    simp only [mul64, one_mul, Nat.mod_eq_of_lt hs]
    simpa using add64_sub64 i_phi i_phi1 ha hb

theorem lin_step_lt (a b N M : Nat) (ha : a < N) (hb : b < M) : b * N + a < N * M := by
  calc b * N + a < b * N + N := by omega
    _ = N * (b + 1) := by ring
    _ ≤ N * M := Nat.mul_le_mul_left N hb

/-- The canonical linearization of in-range indices is below the product of the
sizes. -/
theorem lin_lt (Nr Nz Nphi Nm1 Nm2 a b c d e : Nat) (ha : a < Nr) (hb : b < Nz)
    (hc : c < Nphi) (hd : d < Nm1) (he : e < Nm2) :
    e * (Nr * Nz * Nphi * Nm1) + d * (Nr * Nz * Nphi) + c * (Nr * Nz) + b * Nr + a
      < Nr * Nz * Nphi * Nm1 * Nm2 := by
  have h1 := lin_step_lt a b Nr Nz ha hb
  have h2 := lin_step_lt (b * Nr + a) c (Nr * Nz) Nphi h1 hc
  have h3 := lin_step_lt (c * (Nr * Nz) + (b * Nr + a)) d (Nr * Nz * Nphi) Nm1 h2 hd
  have h4 := lin_step_lt (d * (Nr * Nz * Nphi) + (c * (Nr * Nz) + (b * Nr + a))) e
    (Nr * Nz * Nphi * Nm1) Nm2 h3 he
  calc e * (Nr * Nz * Nphi * Nm1) + d * (Nr * Nz * Nphi) + c * (Nr * Nz) + b * Nr + a
      = e * (Nr * Nz * Nphi * Nm1) + (d * (Nr * Nz * Nphi) + (c * (Nr * Nz) + (b * Nr + a))) := by
        ring
    _ < _ := h4

/-- The corner index `idx0` of the interpolation is the canonical linearization
of the corner, on a mesh whose element count is representable. -/
theorem interp_idx0_eq (m : bmc_mesh) (Nr Nz Nphi Nm1 Nm2 : Nat)
    (hr : m.n_r = (Nr : Int)) (hz : m.n_z = (Nz : Int)) (hphi : m.n_phi = (Nphi : Int))
    (hm1 : m.n_mom1 = (Nm1 : Int))
    (hfit : Nr * Nz * Nphi * Nm1 * Nm2 < SIZE_MOD)
    (i_r i_z i_phi i_phi1 i_mom1 i_mom2 i1 i2 i3 i4 i5 : Nat)
    (h1 : i_r + i1 < Nr) (h2 : i_z + i2 < Nz) (hp : i_phi < Nphi) (hp1 : i_phi1 < Nphi)
    (h3 : i3 ≤ 1) (h4 : i_mom1 + i4 < Nm1) (h5 : i_mom2 + i5 < Nm2) :
    interp_idx0 m i_r i_z i_phi i_phi1 i_mom1 i_mom2 i1 i2 i3 i4 i5 =
      (i_mom2 + i5) * (Nr * Nz * Nphi * Nm1) + (i_mom1 + i4) * (Nr * Nz * Nphi)
        + (if i3 = 0 then i_phi else i_phi1) * (Nr * Nz) + (i_z + i2) * Nr + (i_r + i1) ∧
    interp_idx0 m i_r i_z i_phi i_phi1 i_mom1 i_mom2 i1 i2 i3 i4 i5 <
      Nr * Nz * Nphi * Nm1 * Nm2 := by
  have hNr : 0 < Nr := by omega
  have hNz : 0 < Nz := by omega
  have hNphi : 0 < Nphi := by omega
  have hNm1 : 0 < Nm1 := by omega
  have hNm2 : 0 < Nm2 := by omega
  have hP4 : Nr * Nz * Nphi * Nm1 < SIZE_MOD :=
    lt_of_le_of_lt (Nat.le_mul_of_pos_right _ hNm2) hfit
  have hP3 : Nr * Nz * Nphi < SIZE_MOD :=
    lt_of_le_of_lt (Nat.le_mul_of_pos_right _ hNm1) hP4
  have hP2 : Nr * Nz < SIZE_MOD :=
    lt_of_le_of_lt (Nat.le_mul_of_pos_right _ hNphi) hP3
  have hP1 : Nr < SIZE_MOD :=
    lt_of_le_of_lt (Nat.le_mul_of_pos_right _ hNz) hP2
  have hZ : Nz < SIZE_MOD :=
    lt_of_le_of_lt (Nat.le_mul_of_pos_left _ hNr) hP2
  have hPhi : Nphi < SIZE_MOD :=
    lt_of_le_of_lt (Nat.le_mul_of_pos_left _ (Nat.mul_pos hNr hNz)) hP3
  have hM1 : Nm1 < SIZE_MOD :=
    lt_of_le_of_lt (Nat.le_mul_of_pos_left _ (Nat.mul_pos (Nat.mul_pos hNr hNz) hNphi)) hP4
  have hsel : (if i3 = 0 then i_phi else i_phi1) < Nphi := by
    split <;> assumption
  have hlt := lin_lt Nr Nz Nphi Nm1 Nm2 (i_r + i1) (i_z + i2)
    (if i3 = 0 then i_phi else i_phi1) (i_mom1 + i4) (i_mom2 + i5) h1 h2 hsel h4 h5
  have key : interp_idx0 m i_r i_z i_phi i_phi1 i_mom1 i_mom2 i1 i2 i3 i4 i5 =
      ((i_mom2 + i5) * (Nr * Nz * Nphi * Nm1) + (i_mom1 + i4) * (Nr * Nz * Nphi)
        + (if i3 = 0 then i_phi else i_phi1) * (Nr * Nz) + (i_z + i2) * Nr + (i_r + i1))
        % SIZE_MOD := by
    unfold interp_idx0
    rw [corner_phi i_phi i_phi1 i3 h3 (lt_trans hp hPhi) (lt_trans hp1 hPhi)]
    rw [hr, hz, hphi, hm1, size_of_int_natCast_of_lt _ hP1, size_of_int_natCast_of_lt _ hZ,
      size_of_int_natCast_of_lt _ hPhi, size_of_int_natCast_of_lt _ hM1]
    unfold add64 mul64
    simp only [Nat.add_mod_mod, Nat.mod_add_mod, Nat.mul_mod_mod, Nat.mod_mul_mod]
    congr 1
    ring
  rw [key, Nat.mod_eq_of_lt (lt_trans hlt hfit)]
  exact ⟨rfl, hlt⟩

/-! ## Lemmas on the interpolation sum -/

theorem inside_bounds (m : bmc_mesh) (Nr Nz Nm1 Nm2 : Nat)
    (hr : m.n_r = (Nr : Int)) (hz : m.n_z = (Nz : Int))
    (hm1 : m.n_mom1 = (Nm1 : Int)) (hm2 : m.n_mom2 = (Nm2 : Int))
    (b1 : 2 ≤ Nr) (b2 : 2 ≤ Nz) (b4 : 2 ≤ Nm1) (b5 : 2 ≤ Nm2)
    (l1 : Nr < SIZE_MOD) (l2 : Nz < SIZE_MOD) (l4 : Nm1 < SIZE_MOD) (l5 : Nm2 < SIZE_MOD)
    (i_r i_z i_mom1 i_mom2 : Nat) :
    interp_inside m i_r i_z i_mom1 i_mom2 = true ↔
      (i_r + 2 < Nr ∧ i_z + 2 < Nz ∧ i_mom1 + 2 < Nm1 ∧ i_mom2 + 2 < Nm2) := by
  have e : ∀ N : Nat, 2 ≤ N → N < SIZE_MOD → size_of_int ((N : Int) - 2) = N - 2 := by
    intro N h2 hl
    have : ((N : Int) - 2) = ((N - 2 : Nat) : Int) := by omega
    rw [this, size_of_int_natCast_of_lt _ (by omega)]
  unfold interp_inside
  rw [hr, hz, hm1, hm2, e Nr b1 l1, e Nz b2 l2, e Nm1 b4 l4, e Nm2 b5 l5]
  simp only [Bool.and_eq_true, decide_eq_true_eq]
  omega

theorem interp_i_phi1_lt (m : bmc_mesh) (Nphi : Nat) (hphi : m.n_phi = (Nphi : Int))
    (lphi : Nphi < SIZE_MOD) (i_phi : Nat) (hp : i_phi < Nphi) :
    interp_i_phi1 m i_phi < Nphi ∧
    interp_i_phi1 m i_phi = if i_phi + 1 = Nphi then 0 else i_phi + 1 := by
  have e : size_of_int ((Nphi : Int) - 1) = Nphi - 1 := by
    have : ((Nphi : Int) - 1) = ((Nphi - 1 : Nat) : Int) := by omega
    rw [this, size_of_int_natCast_of_lt _ (by omega)]
  unfold interp_i_phi1
  rw [hphi, e]
  by_cases h : i_phi = Nphi - 1
  · have h' : i_phi + 1 = Nphi := by omega
    simp only [h, if_true]
    rw [if_pos (by omega)]
    exact ⟨by omega, rfl⟩
  · have h' : ¬ i_phi + 1 = Nphi := by omega
    rw [if_neg h, if_neg h', add64_eq _ _ (by omega)]
    exact ⟨by omega, rfl⟩

/-- The interpolation of a constant field: the corner weights of each axis sum
to the cell width of the axis, so that the result is `c` times the ratio of the
products of the widths, the phi width being divided by its guarded value. -/
theorem interpolate_const (m : bmc_mesh) (Nr Nz Nphi Nm1 Nm2 : Nat)
    (hr : m.n_r = (Nr : Int)) (hz : m.n_z = (Nz : Int)) (hphi : m.n_phi = (Nphi : Int))
    (hm1 : m.n_mom1 = (Nm1 : Int)) (hm2 : m.n_mom2 = (Nm2 : Int))
    (b1 : 2 ≤ Nr) (b2 : 2 ≤ Nz) (b4 : 2 ≤ Nm1) (b5 : 2 ≤ Nm2)
    (hfit : Nr * Nz * Nphi * Nm1 * Nm2 < SIZE_MOD)
    (c : ℚ) (hconst : ∀ j : Nat, j < Nr * Nz * Nphi * Nm1 * Nm2 → rd m.val_prev j = c)
    (r phi z mom1 mom2 : ℚ)
    (hin : interp_inside m (interp_i_r m r) (interp_i_z m z) (interp_i_mom1 m mom1)
      (interp_i_mom2 m mom2) = true)
    (hp : interp_i_phi m phi < Nphi) :
    bmc_mesh_interpolate m r phi z mom1 mom2 =
      c * ((rd m.r (interp_i_r m r + 1) - rd m.r (interp_i_r m r))
        * (if m.n_phi = 1 then 1
           else rd m.phi (interp_i_phi1 m (interp_i_phi m phi)) - rd m.phi (interp_i_phi m phi))
        * (rd m.z (interp_i_z m z + 1) - rd m.z (interp_i_z m z))
        * (rd m.mom1 (interp_i_mom1 m mom1 + 1) - rd m.mom1 (interp_i_mom1 m mom1))
        * (rd m.mom2 (interp_i_mom2 m mom2 + 1) - rd m.mom2 (interp_i_mom2 m mom2)))
      / ((rd m.r (interp_i_r m r + 1) - rd m.r (interp_i_r m r))
        * max |rd m.phi (interp_i_phi1 m (interp_i_phi m phi)) - rd m.phi (interp_i_phi m phi)| 1
        * (rd m.z (interp_i_z m z + 1) - rd m.z (interp_i_z m z))
        * (rd m.mom1 (interp_i_mom1 m mom1 + 1) - rd m.mom1 (interp_i_mom1 m mom1))
        * (rd m.mom2 (interp_i_mom2 m mom2 + 1) - rd m.mom2 (interp_i_mom2 m mom2))) := by
  have hNphi : 0 < Nphi := by omega
  have hP4 : Nr * Nz * Nphi * Nm1 < SIZE_MOD :=
    lt_of_le_of_lt (Nat.le_mul_of_pos_right _ (by omega)) hfit
  have hP3 : Nr * Nz * Nphi < SIZE_MOD :=
    lt_of_le_of_lt (Nat.le_mul_of_pos_right _ (by omega)) hP4
  have hP2 : Nr * Nz < SIZE_MOD :=
    lt_of_le_of_lt (Nat.le_mul_of_pos_right _ hNphi) hP3
  have l1 : Nr < SIZE_MOD := lt_of_le_of_lt (Nat.le_mul_of_pos_right _ (by omega)) hP2
  have l2 : Nz < SIZE_MOD := lt_of_le_of_lt (Nat.le_mul_of_pos_left _ (by omega)) hP2
  have l3 : Nphi < SIZE_MOD :=
    lt_of_le_of_lt (Nat.le_mul_of_pos_left _ (Nat.mul_pos (by omega) (by omega))) hP3
  have l4 : Nm1 < SIZE_MOD :=
    lt_of_le_of_lt (Nat.le_mul_of_pos_left _
      (Nat.mul_pos (Nat.mul_pos (by omega) (by omega)) hNphi)) hP4
  have l5 : Nm2 < SIZE_MOD :=
    lt_of_le_of_lt (Nat.le_mul_of_pos_left _
      (Nat.mul_pos (Nat.mul_pos (Nat.mul_pos (by omega) (by omega)) hNphi) (by omega))) hfit
  obtain ⟨i1, i2, i4, i5⟩ := (inside_bounds m Nr Nz Nm1 Nm2 hr hz hm1 hm2 b1 b2 b4 b5
    l1 l2 l4 l5 _ _ _ _).mp hin
  obtain ⟨hp1, _⟩ := interp_i_phi1_lt m Nphi hphi l3 _ hp
  have hread : ∀ a b c3 d e : Nat, a ≤ 1 → b ≤ 1 → c3 ≤ 1 → d ≤ 1 → e ≤ 1 →
      rd m.val_prev (interp_idx0 m (interp_i_r m r) (interp_i_z m z) (interp_i_phi m phi)
        (interp_i_phi1 m (interp_i_phi m phi)) (interp_i_mom1 m mom1) (interp_i_mom2 m mom2)
        a b c3 d e) = c := by
    intro a b c3 d e ha hb hc hd he
    exact hconst _ (interp_idx0_eq m Nr Nz Nphi Nm1 Nm2 hr hz hphi hm1 hfit _ _ _ _ _ _
      a b c3 d e (by omega) (by omega) hp hp1 hc (by omega) (by omega)).2
  have ea : ∀ i N : Nat, i + 2 < N → N < SIZE_MOD → add64 i 1 = i + 1 :=
    fun i N h hl => add64_eq _ _ (by omega)
  unfold bmc_mesh_interpolate
  simp only [hin, if_true, ea _ _ i1 l1, ea _ _ i2 l2, ea _ _ i4 l4, ea _ _ i5 l5]
  congr 1
  simp only [List.foldl_cons, List.foldl_nil]
  rw [hread 0 0 0 0 0, hread 0 0 0 0 1, hread 0 0 0 1 0, hread 0 0 0 1 1,
    hread 0 0 1 0 0, hread 0 0 1 0 1, hread 0 0 1 1 0, hread 0 0 1 1 1,
    hread 0 1 0 0 0, hread 0 1 0 0 1, hread 0 1 0 1 0, hread 0 1 0 1 1,
    hread 0 1 1 0 0, hread 0 1 1 0 1, hread 0 1 1 1 0, hread 0 1 1 1 1,
    hread 1 0 0 0 0, hread 1 0 0 0 1, hread 1 0 0 1 0, hread 1 0 0 1 1,
    hread 1 0 1 0 0, hread 1 0 1 0 1, hread 1 0 1 1 0, hread 1 0 1 1 1,
    hread 1 1 0 0 0, hread 1 1 0 0 1, hread 1 1 0 1 0, hread 1 1 0 1 1,
    hread 1 1 1 0 0, hread 1 1 1 0 1, hread 1 1 1 1 0, hread 1 1 1 1 1] <;>
    first
    | omega
    | skip
  by_cases h1 : m.n_phi = 1
  · simp only [h1, if_true, rd, List.getD_cons_zero, List.getD_cons_succ]
    ring
  · simp only [h1, if_false, rd, List.getD_cons_zero, List.getD_cons_succ]
    ring

/-! ## Lemmas on the cells of an initialised mesh -/

theorem store_abscissae_delta (min max : ℚ) (n : Int) (i : Nat) (hi : (i : Int) + 1 ≤ n) :
    rd (store_abscissae min max n) (i + 1) - rd (store_abscissae min max n) i =
      (max - min) / (n : ℚ) := by
  rw [rd_store_abscissae min max n (i + 1) (by push_cast; omega),
    rd_store_abscissae min max n i (by omega)]
  push_cast
  ring

theorem store_abscissae_phi_delta (min max : ℚ) (n : Int) (i : Nat) (hi : (i : Int) + 1 < n) :
    rd (store_abscissae_phi min max n) (i + 1) - rd (store_abscissae_phi min max n) i =
      (max - min) / ((n : ℚ) + 1) := by
  rw [rd_store_abscissae_phi min max n (i + 1) (by push_cast; omega),
    rd_store_abscissae_phi min max n i (by omega)]
  push_cast
  ring

theorem size_of_real_floor (x : ℚ) (h0 : 0 ≤ x) (hx : x < (SIZE_MOD : ℚ)) :
    ((size_of_real x : Nat) : Int) = ⌊x⌋ := by
  unfold size_of_real
  rw [trunc_eq_floor x h0]
  have hf0 : 0 ≤ ⌊x⌋ := Int.floor_nonneg.mpr h0
  have hf1 : ⌊x⌋ < (SIZE_MOD : Int) := by
    rw [Int.floor_lt]
    exact_mod_cast hx
  obtain ⟨k, hk⟩ := Int.eq_ofNat_of_zero_le hf0
  rw [hk] at hf1 ⊢
  rw [size_of_int_natCast_of_lt k (by exact_mod_cast hf1)]

theorem size_of_real_lt_of_lt (x : ℚ) (k : Nat) (h0 : 0 ≤ x) (hx : x < (k : ℚ))
    (hk : k ≤ SIZE_MOD) : size_of_real x < k := by
  have hx' : x < (SIZE_MOD : ℚ) := lt_of_lt_of_le hx (by exact_mod_cast hk)
  have h := size_of_real_floor x h0 hx'
  have hf : ⌊x⌋ < (k : Int) := by
    rw [Int.floor_lt]
    exact_mod_cast hx
  omega

/-- The phi index of a query below the last stored phi abscissa, on the phi axis
stored by `bmc_mesh_init` with at least two abscissae: it is not the wrap cell. -/
theorem interp_i_phi_init (m : bmc_mesh) (min_phi max_phi : ℚ) (n_phi : Int)
    (hphi : m.phi = store_abscissae_phi min_phi max_phi n_phi) (hn : m.n_phi = n_phi)
    (h2 : 2 ≤ n_phi) (hl : n_phi < (SIZE_MOD : Int)) (hD : 0 < (max_phi - min_phi) / ((n_phi : ℚ) + 1))
    (phi : ℚ) (h0 : min_phi ≤ phi)
    (h1 : phi < min_phi + ((n_phi : ℚ) - 1) * ((max_phi - min_phi) / ((n_phi : ℚ) + 1))) :
    (interp_i_phi m phi : Int) + 1 < n_phi := by
  have r0 : rd m.phi 0 = min_phi := by
    rw [hphi, rd_store_abscissae_phi min_phi max_phi n_phi 0 (by push_cast; omega)]
    simp
  have r1 : rd m.phi 1 - rd m.phi 0 = (max_phi - min_phi) / ((n_phi : ℚ) + 1) := by
    rw [hphi]
    exact store_abscissae_phi_delta min_phi max_phi n_phi 0 (by push_cast; omega)
  have hne : m.n_phi ≠ 1 := by omega
  unfold interp_i_phi
  rw [if_neg hne, r1, r0]
  obtain ⟨k, hk⟩ := Int.eq_ofNat_of_zero_le (show (0 : Int) ≤ n_phi - 1 by omega)
  have hkq : ((k : Nat) : ℚ) = (n_phi : ℚ) - 1 := by
    have : ((k : Int) : ℚ) = ((n_phi - 1 : Int) : ℚ) := by rw [hk]
    push_cast at this
    exact this
  have hx0 : 0 ≤ (phi - min_phi) / ((max_phi - min_phi) / ((n_phi : ℚ) + 1)) :=
    div_nonneg (by linarith) hD.le
  have hx1 : (phi - min_phi) / ((max_phi - min_phi) / ((n_phi : ℚ) + 1)) < (k : ℚ) := by
    rw [div_lt_iff₀ hD, hkq]
    linarith
  have := size_of_real_lt_of_lt _ k hx0 hx1 (by omega)
  omega

theorem sizes_lt (Nr Nz Nphi Nm1 Nm2 : Nat) (b1 : 0 < Nr) (b2 : 0 < Nz) (b3 : 0 < Nphi)
    (b4 : 0 < Nm1) (b5 : 0 < Nm2) (hfit : Nr * Nz * Nphi * Nm1 * Nm2 < SIZE_MOD) :
    Nr < SIZE_MOD ∧ Nz < SIZE_MOD ∧ Nphi < SIZE_MOD ∧ Nm1 < SIZE_MOD ∧ Nm2 < SIZE_MOD := by
  have hP4 : Nr * Nz * Nphi * Nm1 < SIZE_MOD :=
    lt_of_le_of_lt (Nat.le_mul_of_pos_right _ b5) hfit
  have hP3 : Nr * Nz * Nphi < SIZE_MOD :=
    lt_of_le_of_lt (Nat.le_mul_of_pos_right _ b4) hP4
  have hP2 : Nr * Nz < SIZE_MOD :=
    lt_of_le_of_lt (Nat.le_mul_of_pos_right _ b3) hP3
  refine ⟨lt_of_le_of_lt (Nat.le_mul_of_pos_right _ b2) hP2,
    lt_of_le_of_lt (Nat.le_mul_of_pos_left _ b1) hP2,
    lt_of_le_of_lt (Nat.le_mul_of_pos_left _ (Nat.mul_pos b1 b2)) hP3,
    lt_of_le_of_lt (Nat.le_mul_of_pos_left _ (Nat.mul_pos (Nat.mul_pos b1 b2) b3)) hP4,
    lt_of_le_of_lt (Nat.le_mul_of_pos_left _
      (Nat.mul_pos (Nat.mul_pos (Nat.mul_pos b1 b2) b3) b4)) hfit⟩

theorem rd_replicate (n : Nat) (c : ℚ) (j : Nat) (h : j < n) :
    rd (List.replicate n c) j = c := by
  simp [rd, List.getElem?_replicate_of_lt h]

/-! ## Lemmas on queries at a vertex -/

/-- At a query whose coordinates are the lower abscissae of its cell, only the
lower corner of the cell contributes to the interpolation sum. -/
theorem interpolate_lower_corner (m : bmc_mesh) (r phi z mom1 mom2 : ℚ)
    (hin : interp_inside m (interp_i_r m r) (interp_i_z m z) (interp_i_mom1 m mom1)
      (interp_i_mom2 m mom2) = true)
    (hn : ¬ m.n_phi = 1)
    (er : r = rd m.r (interp_i_r m r)) (ephi : phi = rd m.phi (interp_i_phi m phi))
    (ez : z = rd m.z (interp_i_z m z)) (em1 : mom1 = rd m.mom1 (interp_i_mom1 m mom1))
    (em2 : mom2 = rd m.mom2 (interp_i_mom2 m mom2)) :
    bmc_mesh_interpolate m r phi z mom1 mom2 =
      rd m.val_prev (interp_idx0 m (interp_i_r m r) (interp_i_z m z) (interp_i_phi m phi)
        (interp_i_phi1 m (interp_i_phi m phi)) (interp_i_mom1 m mom1) (interp_i_mom2 m mom2)
        0 0 0 0 0)
      * ((rd m.r (add64 (interp_i_r m r) 1) - rd m.r (interp_i_r m r))
        * (rd m.phi (interp_i_phi1 m (interp_i_phi m phi)) - rd m.phi (interp_i_phi m phi))
        * (rd m.z (add64 (interp_i_z m z) 1) - rd m.z (interp_i_z m z))
        * (rd m.mom1 (add64 (interp_i_mom1 m mom1) 1) - rd m.mom1 (interp_i_mom1 m mom1))
        * (rd m.mom2 (add64 (interp_i_mom2 m mom2) 1) - rd m.mom2 (interp_i_mom2 m mom2)))
      / ((rd m.r (add64 (interp_i_r m r) 1) - rd m.r (interp_i_r m r))
        * max |rd m.phi (interp_i_phi1 m (interp_i_phi m phi)) - rd m.phi (interp_i_phi m phi)| 1
        * (rd m.z (add64 (interp_i_z m z) 1) - rd m.z (interp_i_z m z))
        * (rd m.mom1 (add64 (interp_i_mom1 m mom1) 1) - rd m.mom1 (interp_i_mom1 m mom1))
        * (rd m.mom2 (add64 (interp_i_mom2 m mom2) 1) - rd m.mom2 (interp_i_mom2 m mom2))) := by
  have zr : r - rd m.r (interp_i_r m r) = 0 := sub_eq_zero.mpr er
  have zphi : phi - rd m.phi (interp_i_phi m phi) = 0 := sub_eq_zero.mpr ephi
  have zz : z - rd m.z (interp_i_z m z) = 0 := sub_eq_zero.mpr ez
  have zm1 : mom1 - rd m.mom1 (interp_i_mom1 m mom1) = 0 := sub_eq_zero.mpr em1
  have zm2 : mom2 - rd m.mom2 (interp_i_mom2 m mom2) = 0 := sub_eq_zero.mpr em2
  have ur : rd m.r (add64 (interp_i_r m r) 1) - r =
      rd m.r (add64 (interp_i_r m r) 1) - rd m.r (interp_i_r m r) := by rw [← er]
  have uphi : rd m.phi (interp_i_phi1 m (interp_i_phi m phi)) - phi =
      rd m.phi (interp_i_phi1 m (interp_i_phi m phi)) - rd m.phi (interp_i_phi m phi) := by
    rw [← ephi]
  have uz : rd m.z (add64 (interp_i_z m z) 1) - z =
      rd m.z (add64 (interp_i_z m z) 1) - rd m.z (interp_i_z m z) := by rw [← ez]
  have um1 : rd m.mom1 (add64 (interp_i_mom1 m mom1) 1) - mom1 =
      rd m.mom1 (add64 (interp_i_mom1 m mom1) 1) - rd m.mom1 (interp_i_mom1 m mom1) := by
    rw [← em1]
  have um2 : rd m.mom2 (add64 (interp_i_mom2 m mom2) 1) - mom2 =
      rd m.mom2 (add64 (interp_i_mom2 m mom2) 1) - rd m.mom2 (interp_i_mom2 m mom2) := by
    rw [← em2]
  unfold bmc_mesh_interpolate
  simp only [hin, if_true, hn, if_false]
  congr 1
  simp only [List.foldl_cons, List.foldl_nil, zr, zphi, zz, zm1, zm2, ur, uphi, uz, um1, um2]
  generalize rd m.r (add64 (interp_i_r m r) 1) - rd m.r (interp_i_r m r) = A
  generalize rd m.phi (interp_i_phi1 m (interp_i_phi m phi)) - rd m.phi (interp_i_phi m phi) = B
  generalize rd m.z (add64 (interp_i_z m z) 1) - rd m.z (interp_i_z m z) = C
  generalize rd m.mom1 (add64 (interp_i_mom1 m mom1) 1) - rd m.mom1 (interp_i_mom1 m mom1) = D
  generalize rd m.mom2 (add64 (interp_i_mom2 m mom2) 1) - rd m.mom2 (interp_i_mom2 m mom2) = E
  simp only [rd, List.getD_cons_zero, List.getD_cons_succ, mul_zero, zero_mul, add_zero,
    zero_add]
  ring

theorem size_of_real_div (x D : ℚ) (hD : 0 < D) (k : Nat) (hk : k < SIZE_MOD)
    (h1 : (k : ℚ) * D ≤ x) (h2 : x < ((k : ℚ) + 1) * D) : size_of_real (x / D) = k :=
  size_of_real_eq (x / D) k hk ((le_div_iff₀ hD).mpr h1) ((div_lt_iff₀ hD).mpr h2)

theorem size_of_real_div_zero (x D : ℚ) (hD : 0 < D) (h1 : -D < x) (h2 : x < D) :
    size_of_real (x / D) = 0 :=
  size_of_real_eq_zero (x / D) (by rw [lt_div_iff₀ hD]; linarith)
    (by rw [div_lt_iff₀ hD]; linarith)

theorem store_abscissae_zero (min max : ℚ) (n : Int) (hn : 0 ≤ n) :
    rd (store_abscissae min max n) 0 = min := by
  rw [rd_store_abscissae min max n 0 (by simpa using hn)]
  simp

theorem store_abscissae_phi_zero (min max : ℚ) (n : Int) (hn : 0 < n) :
    rd (store_abscissae_phi min max n) 0 = min := by
  rw [rd_store_abscissae_phi min max n 0 (by simpa using hn)]
  simp

/-- The index computed by `bmc_mesh_interpolate` on a non-periodic axis stored by
`bmc_mesh_init`, for a coordinate in the cell `k`. -/
theorem axis_index (min max : ℚ) (n : Int) (hn : 0 < n) (hmm : min < max) (a : ℚ) (k : Nat)
    (hk : k < SIZE_MOD) (h1 : min + (k : ℚ) * ((max - min) / (n : ℚ)) ≤ a)
    (h2 : a < min + ((k : ℚ) + 1) * ((max - min) / (n : ℚ))) :
    size_of_real ((a - rd (store_abscissae min max n) 0) /
      (rd (store_abscissae min max n) 1 - rd (store_abscissae min max n) 0)) = k := by
  have hD : (0 : ℚ) < (max - min) / (n : ℚ) := div_pos (by linarith) (by exact_mod_cast hn)
  have d := store_abscissae_delta min max n 0 (by push_cast; omega)
  simp only [zero_add] at d
  rw [d, store_abscissae_zero min max n hn.le]
  exact size_of_real_div _ _ hD k hk (by linarith) (by linarith)

/-- The phi index computed by `bmc_mesh_interpolate` on the phi axis stored by
`bmc_mesh_init` with at least two abscissae, for a coordinate in the cell `k`. -/
theorem axis_index_phi (min max : ℚ) (n : Int) (hn : 2 ≤ n) (hmm : min < max) (a : ℚ)
    (k : Nat) (hk : k < SIZE_MOD) (h1 : min + (k : ℚ) * ((max - min) / ((n : ℚ) + 1)) ≤ a)
    (h2 : a < min + ((k : ℚ) + 1) * ((max - min) / ((n : ℚ) + 1))) :
    size_of_real ((a - rd (store_abscissae_phi min max n) 0) /
      (rd (store_abscissae_phi min max n) 1 - rd (store_abscissae_phi min max n) 0)) = k := by
  have hn' : (0 : ℚ) < (n : ℚ) + 1 := by
    have : (0 : Int) < n + 1 := by omega
    exact_mod_cast this
  have hD : (0 : ℚ) < (max - min) / ((n : ℚ) + 1) := div_pos (by linarith) hn'
  have d := store_abscissae_phi_delta min max n 0 (by push_cast; omega)
  simp only [zero_add] at d
  rw [d, store_abscissae_phi_zero min max n (by omega)]
  exact size_of_real_div _ _ hD k hk (by linarith) (by linarith)

/-- Sizes and axis arrays of a mesh built by `bmc_mesh_init` from well-formed
counts whose `val_prev` has then been filled with `vp`. -/
theorem init_with_val_prev (min_r max_r : ℚ) (n_r : Int) (min_phi max_phi : ℚ) (n_phi : Int)
    (min_z max_z : ℚ) (n_z : Int) (min_mom1 max_mom1 : ℚ) (n_mom1 : Int)
    (min_mom2 max_mom2 : ℚ) (n_mom2 : Int) (hc : counts_ok n_r n_phi n_z n_mom1 n_mom2)
    (vp : List ℚ) (mesh : bmc_mesh)
    (hmesh : mesh =
      { (init_mesh min_r max_r n_r min_phi max_phi n_phi min_z max_z n_z
          min_mom1 max_mom1 n_mom1 min_mom2 max_mom2 n_mom2) with val_prev := vp }) :
    ∃ Nr Nz Nphi Nm1 Nm2 : Nat,
      (2 ≤ Nr ∧ 2 ≤ Nz ∧ 1 ≤ Nphi ∧ 2 ≤ Nm1 ∧ 2 ≤ Nm2) ∧
      (mesh.n_r = (Nr : Int) ∧ mesh.n_z = (Nz : Int) ∧ mesh.n_phi = (Nphi : Int) ∧
        mesh.n_mom1 = (Nm1 : Int) ∧ mesh.n_mom2 = (Nm2 : Int)) ∧
      ((Nr : Int) = n_r + 1 ∧ (Nz : Int) = n_z + 1 ∧ (Nphi : Int) = n_phi ∧
        (Nm1 : Int) = n_mom1 + 1 ∧ (Nm2 : Int) = n_mom2 + 1) ∧
      (mesh.r = store_abscissae min_r max_r n_r ∧ mesh.z = store_abscissae min_z max_z n_z ∧
        mesh.phi = store_abscissae_phi min_phi max_phi n_phi ∧
        mesh.mom1 = store_abscissae min_mom1 max_mom1 n_mom1 ∧
        mesh.mom2 = store_abscissae min_mom2 max_mom2 n_mom2) ∧
      mesh.val_prev = vp ∧ mesh.size = Nr * Nz * Nphi * Nm1 * Nm2 ∧
      Nr * Nz * Nphi * Nm1 * Nm2 < SIZE_MOD ∧
      (Nr < SIZE_MOD ∧ Nz < SIZE_MOD ∧ Nphi < SIZE_MOD ∧ Nm1 < SIZE_MOD ∧ Nm2 < SIZE_MOD) := by
  obtain ⟨Nr, Nz, Nphi, Nm1, Nm2, b1, b2, b3, b4, b5, sr, sz, sphi, sm1, sm2, -, -, -, -, -,
    hsize, hfit⟩ := init_nat_sizes min_r max_r n_r min_phi max_phi n_phi
      min_z max_z n_z min_mom1 max_mom1 n_mom1 min_mom2 max_mom2 n_mom2 hc _ rfl
  refine ⟨Nr, Nz, Nphi, Nm1, Nm2, ⟨b1, b2, b3, b4, b5⟩, ?_, ⟨sr.symm, sz.symm, sphi.symm,
    sm1.symm, sm2.symm⟩, ?_, ?_, ?_, hfit,
    sizes_lt Nr Nz Nphi Nm1 Nm2 (by omega) (by omega) (by omega) (by omega) (by omega) hfit⟩
  · rw [hmesh]; exact ⟨sr, sz, sphi, sm1, sm2⟩
  · rw [hmesh]; exact ⟨rfl, rfl, rfl, rfl, rfl⟩
  · rw [hmesh]
  · rw [hmesh]; exact hsize

/-- The interpolation of a constant field on a mesh built by `bmc_mesh_init`
from well-formed axis specifications: the widths of the four non-periodic axes
cancel, and the result is `c` times the sum of the two phi weights divided by the
guarded phi width. -/
theorem interpolate_const_init (min_r max_r : ℚ) (n_r : Int) (min_phi max_phi : ℚ)
    (n_phi : Int) (min_z max_z : ℚ) (n_z : Int) (min_mom1 max_mom1 : ℚ) (n_mom1 : Int)
    (min_mom2 max_mom2 : ℚ) (n_mom2 : Int) (hc : counts_ok n_r n_phi n_z n_mom1 n_mom2)
    (hr : min_r < max_r) (hz : min_z < max_z) (hm1 : min_mom1 < max_mom1)
    (hm2 : min_mom2 < max_mom2) (c : ℚ) (vp : List ℚ) (mesh : bmc_mesh)
    (hmesh : mesh =
      { (init_mesh min_r max_r n_r min_phi max_phi n_phi min_z max_z n_z
          min_mom1 max_mom1 n_mom1 min_mom2 max_mom2 n_mom2) with val_prev := vp })
    (hconst : ∀ j : Nat, j < mesh.size → rd mesh.val_prev j = c)
    (r phi z mom1 mom2 : ℚ)
    (hir : (interp_i_r mesh r : Int) ≤ mesh.n_r - 3)
    (hiz : (interp_i_z mesh z : Int) ≤ mesh.n_z - 3)
    (him1 : (interp_i_mom1 mesh mom1 : Int) ≤ mesh.n_mom1 - 3)
    (him2 : (interp_i_mom2 mesh mom2 : Int) ≤ mesh.n_mom2 - 3)
    (hp : (interp_i_phi mesh phi : Int) < mesh.n_phi) :
    bmc_mesh_interpolate mesh r phi z mom1 mom2 =
      c * (if mesh.n_phi = 1 then 1
           else rd mesh.phi (interp_i_phi1 mesh (interp_i_phi mesh phi)) -
             rd mesh.phi (interp_i_phi mesh phi))
      / max |rd mesh.phi (interp_i_phi1 mesh (interp_i_phi mesh phi)) -
             rd mesh.phi (interp_i_phi mesh phi)| 1 := by
  obtain ⟨Nr, Nz, Nphi, Nm1, Nm2, ⟨b1, b2, b3, b4, b5⟩, ⟨er, ez, ephi, em1, em2⟩,
    ⟨kr, kz, kphi, km1, km2⟩, ⟨ar, az, aphi, am1, am2⟩, -, hsize, hfit, ⟨l1, l2, l3, l4, l5⟩⟩ :=
    init_with_val_prev min_r max_r n_r min_phi max_phi n_phi min_z max_z n_z
      min_mom1 max_mom1 n_mom1 min_mom2 max_mom2 n_mom2 hc vp mesh hmesh
  obtain ⟨c1, c2, c3, c4, c5, -⟩ := hc
  rw [er] at hir
  rw [ez] at hiz
  rw [em1] at him1
  rw [em2] at him2
  rw [ephi] at hp
  rw [hsize] at hconst
  have hin : interp_inside mesh (interp_i_r mesh r) (interp_i_z mesh z)
      (interp_i_mom1 mesh mom1) (interp_i_mom2 mesh mom2) = true :=
    (inside_bounds mesh Nr Nz Nm1 Nm2 er ez em1 em2 b1 b2 b4 b5 l1 l2 l4 l5 _ _ _ _).mpr
      ⟨by omega, by omega, by omega, by omega⟩
  have dR : rd mesh.r (interp_i_r mesh r + 1) - rd mesh.r (interp_i_r mesh r) =
      (max_r - min_r) / (n_r : ℚ) := by
    rw [ar]; exact store_abscissae_delta _ _ _ _ (by omega)
  have dZ : rd mesh.z (interp_i_z mesh z + 1) - rd mesh.z (interp_i_z mesh z) =
      (max_z - min_z) / (n_z : ℚ) := by
    rw [az]; exact store_abscissae_delta _ _ _ _ (by omega)
  have dM1 : rd mesh.mom1 (interp_i_mom1 mesh mom1 + 1) -
      rd mesh.mom1 (interp_i_mom1 mesh mom1) = (max_mom1 - min_mom1) / (n_mom1 : ℚ) := by
    rw [am1]; exact store_abscissae_delta _ _ _ _ (by omega)
  have dM2 : rd mesh.mom2 (interp_i_mom2 mesh mom2 + 1) -
      rd mesh.mom2 (interp_i_mom2 mesh mom2) = (max_mom2 - min_mom2) / (n_mom2 : ℚ) := by
    rw [am2]; exact store_abscissae_delta _ _ _ _ (by omega)
  have pR : (0 : ℚ) < (max_r - min_r) / (n_r : ℚ) :=
    div_pos (by linarith) (by exact_mod_cast c1)
  have pZ : (0 : ℚ) < (max_z - min_z) / (n_z : ℚ) :=
    div_pos (by linarith) (by exact_mod_cast c3)
  have pM1 : (0 : ℚ) < (max_mom1 - min_mom1) / (n_mom1 : ℚ) :=
    div_pos (by linarith) (by exact_mod_cast c4)
  have pM2 : (0 : ℚ) < (max_mom2 - min_mom2) / (n_mom2 : ℚ) :=
    div_pos (by linarith) (by exact_mod_cast c5)
  rw [interpolate_const mesh Nr Nz Nphi Nm1 Nm2 er ez ephi em1 em2 b1 b2 b4 b5 hfit c hconst
    r phi z mom1 mom2 hin (by omega), dR, dZ, dM1, dM2]
  have hM : (0 : ℚ) < max |rd mesh.phi (interp_i_phi1 mesh (interp_i_phi mesh phi)) -
      rd mesh.phi (interp_i_phi mesh phi)| 1 := lt_of_lt_of_le one_pos (le_max_right _ _)
  generalize max |rd mesh.phi (interp_i_phi1 mesh (interp_i_phi mesh phi)) -
      rd mesh.phi (interp_i_phi mesh phi)| 1 = M at hM ⊢
  generalize (if mesh.n_phi = 1 then (1 : ℚ)
    else rd mesh.phi (interp_i_phi1 mesh (interp_i_phi mesh phi)) -
      rd mesh.phi (interp_i_phi mesh phi)) = S
  generalize (max_r - min_r) / (n_r : ℚ) = A at pR ⊢
  generalize (max_z - min_z) / (n_z : ℚ) = B at pZ ⊢
  generalize (max_mom1 - min_mom1) / (n_mom1 : ℚ) = C at pM1 ⊢
  generalize (max_mom2 - min_mom2) / (n_mom2 : ℚ) = E at pM2 ⊢
  have nA := ne_of_gt pR
  have nB := ne_of_gt pZ
  have nC := ne_of_gt pM1
  have nE := ne_of_gt pM2
  have nM := ne_of_gt hM
  field_simp
  ring

/-! ## Partition of unity: claim C4 -/

/-- Claim C4, as amended: on a mesh built by `bmc_mesh_init` from well-formed
axis specifications, with `val_prev` equal to the constant `c` at every index,
`bmc_mesh_interpolate` returns `c` at every query whose index on each
non-periodic axis is at most `n_a - 3`, provided `n_phi = 1`, or the phi spacing
`(max_phi - min_phi) / (n_phi + 1)` is at least `1` and `phi` lies in
`[phi[0], phi[n_phi - 1])`, below the last stored phi abscissa. -/
theorem C4_partition_of_unity (min_r max_r : ℚ) (n_r : Int) (min_phi max_phi : ℚ)
    (n_phi : Int) (min_z max_z : ℚ) (n_z : Int) (min_mom1 max_mom1 : ℚ) (n_mom1 : Int)
    (min_mom2 max_mom2 : ℚ) (n_mom2 : Int) (hc : counts_ok n_r n_phi n_z n_mom1 n_mom2)
    (hr : min_r < max_r) (hz : min_z < max_z) (hm1 : min_mom1 < max_mom1)
    (hm2 : min_mom2 < max_mom2) (c : ℚ) (mesh : bmc_mesh)
    (hmesh : mesh =
      { (init_mesh min_r max_r n_r min_phi max_phi n_phi min_z max_z n_z
          min_mom1 max_mom1 n_mom1 min_mom2 max_mom2 n_mom2) with
        val_prev := List.replicate (init_mesh min_r max_r n_r min_phi max_phi n_phi
          min_z max_z n_z min_mom1 max_mom1 n_mom1 min_mom2 max_mom2 n_mom2).size c })
    (r phi z mom1 mom2 : ℚ)
    (hir : (interp_i_r mesh r : Int) ≤ mesh.n_r - 3)
    (hiz : (interp_i_z mesh z : Int) ≤ mesh.n_z - 3)
    (him1 : (interp_i_mom1 mesh mom1 : Int) ≤ mesh.n_mom1 - 3)
    (him2 : (interp_i_mom2 mesh mom2 : Int) ≤ mesh.n_mom2 - 3)
    (hphi : n_phi = 1 ∨
      (1 ≤ (max_phi - min_phi) / ((n_phi : ℚ) + 1) ∧ min_phi ≤ phi ∧
        phi < min_phi + ((n_phi : ℚ) - 1) * ((max_phi - min_phi) / ((n_phi : ℚ) + 1)))) :
    bmc_mesh_interpolate mesh r phi z mom1 mom2 = c := by
  obtain ⟨Nr, Nz, Nphi, Nm1, Nm2, -, ⟨-, -, ephi, -, -⟩,
    ⟨-, -, kphi, -, -⟩, ⟨-, -, aphi, -, -⟩, avp, hsize, -, ⟨-, -, l3, -, -⟩⟩ :=
    init_with_val_prev min_r max_r n_r min_phi max_phi n_phi min_z max_z n_z
      min_mom1 max_mom1 n_mom1 min_mom2 max_mom2 n_mom2 hc _ mesh hmesh
  have hsz : mesh.size = (init_mesh min_r max_r n_r min_phi max_phi n_phi
      min_z max_z n_z min_mom1 max_mom1 n_mom1 min_mom2 max_mom2 n_mom2).size := by
    rw [hmesh]
  have hconst : ∀ j : Nat, j < mesh.size → rd mesh.val_prev j = c := by
    intro j hj
    rw [avp, rd_replicate _ _ _ (hsz ▸ hj)]
  rcases hphi with h1 | ⟨hD, hlo, hhi⟩
  · -- degenerate phi: one stored abscissa
    have hn1 : mesh.n_phi = 1 := by rw [ephi, kphi, h1]
    have hi0 : interp_i_phi mesh phi = 0 := by
      unfold interp_i_phi
      rw [if_pos hn1]
    have hp : interp_i_phi mesh phi < Nphi := by omega
    have hi1 : interp_i_phi1 mesh (interp_i_phi mesh phi) = 0 := by
      rw [(interp_i_phi1_lt mesh Nphi ephi l3 _ hp).2, hi0, if_pos (by omega)]
    rw [interpolate_const_init min_r max_r n_r min_phi max_phi n_phi min_z max_z n_z
      min_mom1 max_mom1 n_mom1 min_mom2 max_mom2 n_mom2 hc hr hz hm1 hm2 c _ mesh hmesh hconst
      r phi z mom1 mom2 hir hiz him1 him2 (by rw [ephi]; omega), if_pos hn1, hi1, hi0]
    simp only [sub_self, abs_zero]
    rw [max_eq_right (by norm_num : (0 : ℚ) ≤ 1)]
    simp
  · -- phi cell below the wrap cell, spacing at least one
    have hDpos : (0 : ℚ) < (max_phi - min_phi) / ((n_phi : ℚ) + 1) := by linarith
    have hq : (0 : ℚ) < (n_phi : ℚ) - 1 := by
      by_contra hneg
      push_neg at hneg
      have := mul_nonpos_of_nonpos_of_nonneg hneg hDpos.le
      linarith
    have h2 : 2 ≤ n_phi := by
      have : ((1 : Int) : ℚ) < (n_phi : ℚ) := by push_cast; linarith
      have : (1 : Int) < n_phi := by exact_mod_cast this
      omega
    have hidx := interp_i_phi_init mesh min_phi max_phi n_phi aphi (by rw [ephi, kphi])
      h2 (by omega) hDpos phi hlo hhi
    have hp : interp_i_phi mesh phi < Nphi := by omega
    have hne : ¬ mesh.n_phi = 1 := by rw [ephi, kphi]; omega
    have hi1 : interp_i_phi1 mesh (interp_i_phi mesh phi) = interp_i_phi mesh phi + 1 := by
      rw [(interp_i_phi1_lt mesh Nphi ephi l3 _ hp).2, if_neg (by omega)]
    have dP : rd mesh.phi (interp_i_phi mesh phi + 1) - rd mesh.phi (interp_i_phi mesh phi) =
        (max_phi - min_phi) / ((n_phi : ℚ) + 1) := by
      rw [aphi]; exact store_abscissae_phi_delta _ _ _ _ hidx
    rw [interpolate_const_init min_r max_r n_r min_phi max_phi n_phi min_z max_z n_z
      min_mom1 max_mom1 n_mom1 min_mom2 max_mom2 n_mom2 hc hr hz hm1 hm2 c _ mesh hmesh hconst
      r phi z mom1 mom2 hir hiz him1 him2 (by rw [ephi]; omega), if_neg hne, hi1, dP,
      abs_of_pos hDpos, max_eq_left hD, mul_div_assoc, div_self (ne_of_gt hDpos), mul_one]

/-! ## Interpolation at a vertex: claim C5 -/

/-- The interpolation at a vertex of a mesh built by `bmc_mesh_init` from
well-formed axis specifications, for `val_prev` equal to `1` at the vertex and
`0` elsewhere: the phi spacing divided by its guarded value. -/
theorem interpolate_vertex_init (min_r max_r : ℚ) (n_r : Int) (min_phi max_phi : ℚ)
    (n_phi : Int) (min_z max_z : ℚ) (n_z : Int) (min_mom1 max_mom1 : ℚ) (n_mom1 : Int)
    (min_mom2 max_mom2 : ℚ) (n_mom2 : Int) (hc : counts_ok n_r n_phi n_z n_mom1 n_mom2)
    (hr : min_r < max_r) (hz : min_z < max_z) (hm1 : min_mom1 < max_mom1)
    (hm2 : min_mom2 < max_mom2)
    (hphi : min_phi < max_phi)
    (vp : List ℚ) (mesh : bmc_mesh)
    (hmesh : mesh =
      { (init_mesh min_r max_r n_r min_phi max_phi n_phi min_z max_z n_z
          min_mom1 max_mom1 n_mom1 min_mom2 max_mom2 n_mom2) with val_prev := vp })
    (k_r k_phi k_z k_mom1 k_mom2 : Nat)
    (hkr : (k_r : Int) ≤ mesh.n_r - 3) (hkphi : (k_phi : Int) ≤ mesh.n_phi - 3)
    (hkz : (k_z : Int) ≤ mesh.n_z - 3) (hkm1 : (k_mom1 : Int) ≤ mesh.n_mom1 - 3)
    (hkm2 : (k_mom2 : Int) ≤ mesh.n_mom2 - 3)
    (hhot : ∀ j : Nat, j < mesh.size → rd mesh.val_prev j =
      if (j : Int) = k_mom2 * (mesh.n_r * mesh.n_z * mesh.n_phi * mesh.n_mom1)
        + k_mom1 * (mesh.n_r * mesh.n_z * mesh.n_phi) + k_phi * (mesh.n_r * mesh.n_z)
        + k_z * mesh.n_r + k_r then 1 else 0) :
    bmc_mesh_interpolate mesh (rd mesh.r k_r) (rd mesh.phi k_phi) (rd mesh.z k_z)
      (rd mesh.mom1 k_mom1) (rd mesh.mom2 k_mom2) =
      (max_phi - min_phi) / ((n_phi : ℚ) + 1) /
        max ((max_phi - min_phi) / ((n_phi : ℚ) + 1)) 1 := by
  obtain ⟨Nr, Nz, Nphi, Nm1, Nm2, ⟨b1, b2, b3, b4, b5⟩, ⟨er, ez, ephi, em1, em2⟩,
    ⟨kr, kz, kphi, km1, km2⟩, ⟨ar, az, aphi, am1, am2⟩, -, hsize, hfit, ⟨l1, l2, l3, l4, l5⟩⟩ :=
    init_with_val_prev min_r max_r n_r min_phi max_phi n_phi min_z max_z n_z
      min_mom1 max_mom1 n_mom1 min_mom2 max_mom2 n_mom2 hc vp mesh hmesh
  obtain ⟨c1, c2, c3, c4, c5, -⟩ := hc
  rw [er, ez, ephi, em1] at hhot
  rw [er] at hkr
  rw [ephi] at hkphi
  rw [ez] at hkz
  rw [em1] at hkm1
  rw [em2] at hkm2
  have hnq : (0 : ℚ) < (n_phi : ℚ) + 1 := by
    have : (0 : Int) < n_phi + 1 := by omega
    exact_mod_cast this
  have hDpos : (0 : ℚ) < (max_phi - min_phi) / ((n_phi : ℚ) + 1) :=
    div_pos (by linarith) hnq
  -- the coordinates of the vertex
  have vR : rd mesh.r k_r = min_r + (k_r : ℚ) * ((max_r - min_r) / (n_r : ℚ)) := by
    rw [ar, rd_store_abscissae _ _ _ _ (by omega)]; ring
  have vZ : rd mesh.z k_z = min_z + (k_z : ℚ) * ((max_z - min_z) / (n_z : ℚ)) := by
    rw [az, rd_store_abscissae _ _ _ _ (by omega)]; ring
  have vM1 : rd mesh.mom1 k_mom1 =
      min_mom1 + (k_mom1 : ℚ) * ((max_mom1 - min_mom1) / (n_mom1 : ℚ)) := by
    rw [am1, rd_store_abscissae _ _ _ _ (by omega)]; ring
  have vM2 : rd mesh.mom2 k_mom2 =
      min_mom2 + (k_mom2 : ℚ) * ((max_mom2 - min_mom2) / (n_mom2 : ℚ)) := by
    rw [am2, rd_store_abscissae _ _ _ _ (by omega)]; ring
  have vP : rd mesh.phi k_phi =
      min_phi + (k_phi : ℚ) * ((max_phi - min_phi) / ((n_phi : ℚ) + 1)) := by
    rw [aphi, rd_store_abscissae_phi _ _ _ _ (by omega)]; ring
  have pR : (0 : ℚ) < (max_r - min_r) / (n_r : ℚ) :=
    div_pos (by linarith) (by exact_mod_cast c1)
  have pZ : (0 : ℚ) < (max_z - min_z) / (n_z : ℚ) :=
    div_pos (by linarith) (by exact_mod_cast c3)
  have pM1 : (0 : ℚ) < (max_mom1 - min_mom1) / (n_mom1 : ℚ) :=
    div_pos (by linarith) (by exact_mod_cast c4)
  have pM2 : (0 : ℚ) < (max_mom2 - min_mom2) / (n_mom2 : ℚ) :=
    div_pos (by linarith) (by exact_mod_cast c5)
  -- the indices of the vertex
  have iR : interp_i_r mesh (rd mesh.r k_r) = k_r := by
    unfold interp_i_r
    rw [vR, ar]
    exact axis_index min_r max_r n_r c1 hr _ k_r (by omega) le_rfl (by linarith)
  have iZ : interp_i_z mesh (rd mesh.z k_z) = k_z := by
    unfold interp_i_z
    rw [vZ, az]
    exact axis_index min_z max_z n_z c3 hz _ k_z (by omega) le_rfl (by linarith)
  have iM1 : interp_i_mom1 mesh (rd mesh.mom1 k_mom1) = k_mom1 := by
    unfold interp_i_mom1
    rw [vM1, am1]
    exact axis_index min_mom1 max_mom1 n_mom1 c4 hm1 _ k_mom1 (by omega) le_rfl (by linarith)
  have iM2 : interp_i_mom2 mesh (rd mesh.mom2 k_mom2) = k_mom2 := by
    unfold interp_i_mom2
    rw [vM2, am2]
    exact axis_index min_mom2 max_mom2 n_mom2 c5 hm2 _ k_mom2 (by omega) le_rfl (by linarith)
  have hne : ¬ mesh.n_phi = 1 := by rw [ephi]; omega
  have iP : interp_i_phi mesh (rd mesh.phi k_phi) = k_phi := by
    unfold interp_i_phi
    rw [if_neg hne, vP, aphi]
    exact axis_index_phi min_phi max_phi n_phi (by omega) hphi _ k_phi (by omega) le_rfl
      (by linarith)
  have iP1 : interp_i_phi1 mesh k_phi = k_phi + 1 := by
    rw [(interp_i_phi1_lt mesh Nphi ephi l3 k_phi (by omega)).2, if_neg (by omega)]
  have hin : interp_inside mesh (interp_i_r mesh (rd mesh.r k_r))
      (interp_i_z mesh (rd mesh.z k_z)) (interp_i_mom1 mesh (rd mesh.mom1 k_mom1))
      (interp_i_mom2 mesh (rd mesh.mom2 k_mom2)) = true := by
    rw [iR, iZ, iM1, iM2]
    exact (inside_bounds mesh Nr Nz Nm1 Nm2 er ez em1 em2 b1 b2 b4 b5 l1 l2 l4 l5 _ _ _ _).mpr
      ⟨by omega, by omega, by omega, by omega⟩
  rw [interpolate_lower_corner mesh _ _ _ _ _ hin hne (by rw [iR]) (by rw [iP]) (by rw [iZ])
    (by rw [iM1]) (by rw [iM2])]
  rw [iR, iZ, iM1, iM2, iP, iP1]
  obtain ⟨hidx, hlt⟩ := interp_idx0_eq mesh Nr Nz Nphi Nm1 Nm2 er ez ephi em1 hfit
    k_r k_z k_phi (k_phi + 1) k_mom1 k_mom2 0 0 0 0 0 (by omega) (by omega) (by omega)
    (by omega) (by omega) (by omega) (by omega)
  have hone : rd mesh.val_prev (interp_idx0 mesh k_r k_z k_phi (k_phi + 1) k_mom1 k_mom2
      0 0 0 0 0) = 1 := by
    rw [hhot _ (by rw [hsize]; exact hlt), if_pos]
    rw [hidx]
    push_cast
    simp only [if_true, add_zero]
  rw [hone, add64_eq k_r 1 (by omega), add64_eq k_z 1 (by omega),
    add64_eq k_mom1 1 (by omega), add64_eq k_mom2 1 (by omega)]
  have dR : rd mesh.r (k_r + 1) - rd mesh.r k_r = (max_r - min_r) / (n_r : ℚ) := by
    rw [ar]; exact store_abscissae_delta _ _ _ _ (by omega)
  have dZ : rd mesh.z (k_z + 1) - rd mesh.z k_z = (max_z - min_z) / (n_z : ℚ) := by
    rw [az]; exact store_abscissae_delta _ _ _ _ (by omega)
  have dM1 : rd mesh.mom1 (k_mom1 + 1) - rd mesh.mom1 k_mom1 =
      (max_mom1 - min_mom1) / (n_mom1 : ℚ) := by
    rw [am1]; exact store_abscissae_delta _ _ _ _ (by omega)
  have dM2 : rd mesh.mom2 (k_mom2 + 1) - rd mesh.mom2 k_mom2 =
      (max_mom2 - min_mom2) / (n_mom2 : ℚ) := by
    rw [am2]; exact store_abscissae_delta _ _ _ _ (by omega)
  have dP : rd mesh.phi (k_phi + 1) - rd mesh.phi k_phi =
      (max_phi - min_phi) / ((n_phi : ℚ) + 1) := by
    rw [aphi]; exact store_abscissae_phi_delta _ _ _ _ (by omega)
  rw [dR, dZ, dM1, dM2, dP, abs_of_pos hDpos, one_mul]
  have hM : (0 : ℚ) < max ((max_phi - min_phi) / ((n_phi : ℚ) + 1)) 1 :=
    lt_of_lt_of_le one_pos (le_max_right _ _)
  generalize max ((max_phi - min_phi) / ((n_phi : ℚ) + 1)) 1 = M at hM ⊢
  generalize (max_phi - min_phi) / ((n_phi : ℚ) + 1) = S
  generalize (max_r - min_r) / (n_r : ℚ) = A at pR ⊢
  generalize (max_z - min_z) / (n_z : ℚ) = B at pZ ⊢
  generalize (max_mom1 - min_mom1) / (n_mom1 : ℚ) = C at pM1 ⊢
  generalize (max_mom2 - min_mom2) / (n_mom2 : ℚ) = E at pM2 ⊢
  have nA := ne_of_gt pR
  have nB := ne_of_gt pZ
  have nC := ne_of_gt pM1
  have nE := ne_of_gt pM2
  have nM := ne_of_gt hM
  field_simp
  ring

/-- Claim C5, as amended: on a mesh built by `bmc_mesh_init` from well-formed
axis specifications whose phi spacing `(max_phi - min_phi) / (n_phi + 1)` is at
least `1`, if the query is the mesh vertex of indices `(k_r, k_phi, k_z, k_mom1,
k_mom2)`, each at most `n - 3` on its axis, and `val_prev` is `1` at the linear
index of that vertex and `0` at every other index, then `bmc_mesh_interpolate`
returns exactly `1`. -/
theorem C5_vertex_one_hot (min_r max_r : ℚ) (n_r : Int) (min_phi max_phi : ℚ)
    (n_phi : Int) (min_z max_z : ℚ) (n_z : Int) (min_mom1 max_mom1 : ℚ) (n_mom1 : Int)
    (min_mom2 max_mom2 : ℚ) (n_mom2 : Int) (hc : counts_ok n_r n_phi n_z n_mom1 n_mom2)
    (hr : min_r < max_r) (hz : min_z < max_z) (hm1 : min_mom1 < max_mom1)
    (hm2 : min_mom2 < max_mom2)
    (hD : 1 ≤ (max_phi - min_phi) / ((n_phi : ℚ) + 1))
    (vp : List ℚ) (mesh : bmc_mesh)
    (hmesh : mesh =
      { (init_mesh min_r max_r n_r min_phi max_phi n_phi min_z max_z n_z
          min_mom1 max_mom1 n_mom1 min_mom2 max_mom2 n_mom2) with val_prev := vp })
    (k_r k_phi k_z k_mom1 k_mom2 : Nat)
    (hkr : (k_r : Int) ≤ mesh.n_r - 3) (hkphi : (k_phi : Int) ≤ mesh.n_phi - 3)
    (hkz : (k_z : Int) ≤ mesh.n_z - 3) (hkm1 : (k_mom1 : Int) ≤ mesh.n_mom1 - 3)
    (hkm2 : (k_mom2 : Int) ≤ mesh.n_mom2 - 3)
    (hhot : ∀ j : Nat, j < mesh.size → rd mesh.val_prev j =
      if (j : Int) = k_mom2 * (mesh.n_r * mesh.n_z * mesh.n_phi * mesh.n_mom1)
        + k_mom1 * (mesh.n_r * mesh.n_z * mesh.n_phi) + k_phi * (mesh.n_r * mesh.n_z)
        + k_z * mesh.n_r + k_r then 1 else 0) :
    bmc_mesh_interpolate mesh (rd mesh.r k_r) (rd mesh.phi k_phi) (rd mesh.z k_z)
      (rd mesh.mom1 k_mom1) (rd mesh.mom2 k_mom2) = 1 := by
  have hnq : (0 : ℚ) < (n_phi : ℚ) + 1 := by
    have : (0 : Int) < n_phi + 1 := by have := hc.2.1; omega
    exact_mod_cast this
  have hphi : min_phi < max_phi := by
    by_contra hneg
    push_neg at hneg
    have : (max_phi - min_phi) / ((n_phi : ℚ) + 1) ≤ 0 :=
      div_nonpos_of_nonpos_of_nonneg (by linarith) hnq.le
    linarith
  rw [interpolate_vertex_init min_r max_r n_r min_phi max_phi n_phi min_z max_z n_z
    min_mom1 max_mom1 n_mom1 min_mom2 max_mom2 n_mom2 hc hr hz hm1 hm2 hphi vp mesh hmesh
    k_r k_phi k_z k_mom1 k_mom2 hkr hkphi hkz hkm1 hkm2 hhot, max_eq_left hD]
  exact div_self (by linarith)

/-! ## Concrete meshes -/

theorem rd_one_hot (n L j : Nat) (hL : L < n) :
    rd (one_hot n L) j = if j = L then 1 else 0 := by
  unfold one_hot rd
  by_cases h : j = L
  · subst h
    simp [List.getElem?_set_self (show j < (List.replicate n (0 : ℚ)).length by simpa using hL)]
  · rw [if_neg h, List.getD_eq_getElem?_getD, List.getElem?_set_ne (Ne.symm h)]
    by_cases hj : j < n
    · simp [List.getElem?_replicate_of_lt hj]
    · simp [List.getElem?_replicate, hj]

/-- The index of a coordinate within one cell width of the first abscissa, on
either side of it, is `0`: the conversion to `size_t` truncates toward zero. -/
theorem axis_index_near_min (min max : ℚ) (n : Int) (hn : 0 < n) (hmm : min < max) (a : ℚ)
    (h1 : min - (max - min) / (n : ℚ) < a) (h2 : a < min + (max - min) / (n : ℚ)) :
    size_of_real ((a - rd (store_abscissae min max n) 0) /
      (rd (store_abscissae min max n) 1 - rd (store_abscissae min max n) 0)) = 0 := by
  have hD : (0 : ℚ) < (max - min) / (n : ℚ) := div_pos (by linarith) (by exact_mod_cast hn)
  have d := store_abscissae_delta min max n 0 (by push_cast; omega)
  simp only [zero_add] at d
  rw [d, store_abscissae_zero min max n hn.le]
  exact size_of_real_div_zero _ _ hD (by linarith) (by linarith)

theorem mesh_three_i_r (max_phi : ℚ) (n_phi : Int) (vp : List ℚ) (a : ℚ)
    (h1 : -(1 / 3) < a) (h2 : a < 1 / 3) : interp_i_r (mesh_three max_phi n_phi vp) a = 0 :=
  axis_index_near_min 0 1 3 (by decide) (by norm_num) a (by norm_num; linarith)
    (by norm_num; linarith)

theorem mesh_three_i_z (max_phi : ℚ) (n_phi : Int) (vp : List ℚ) (a : ℚ)
    (h1 : -(1 / 3) < a) (h2 : a < 1 / 3) : interp_i_z (mesh_three max_phi n_phi vp) a = 0 :=
  axis_index_near_min 0 1 3 (by decide) (by norm_num) a (by norm_num; linarith)
    (by norm_num; linarith)

theorem mesh_three_i_mom1 (max_phi : ℚ) (n_phi : Int) (vp : List ℚ) (a : ℚ)
    (h1 : -(1 / 3) < a) (h2 : a < 1 / 3) :
    interp_i_mom1 (mesh_three max_phi n_phi vp) a = 0 :=
  axis_index_near_min 0 1 3 (by decide) (by norm_num) a (by norm_num; linarith)
    (by norm_num; linarith)

theorem mesh_three_i_mom2 (max_phi : ℚ) (n_phi : Int) (vp : List ℚ) (a : ℚ)
    (h1 : -(1 / 3) < a) (h2 : a < 1 / 3) :
    interp_i_mom2 (mesh_three max_phi n_phi vp) a = 0 :=
  axis_index_near_min 0 1 3 (by decide) (by norm_num) a (by norm_num; linarith)
    (by norm_num; linarith)

theorem mesh_three_i_phi (max_phi : ℚ) (n_phi : Int) (vp : List ℚ) (hn : 2 ≤ n_phi)
    (hmax : 0 < max_phi) : interp_i_phi (mesh_three max_phi n_phi vp) 0 = 0 := by
  have hne : ¬ (mesh_three max_phi n_phi vp).n_phi = 1 := by
    show ¬ n_phi = 1
    omega
  unfold interp_i_phi
  rw [if_neg hne]
  have hq : (0 : ℚ) < (n_phi : ℚ) + 1 := by
    have : (0 : Int) < n_phi + 1 := by omega
    exact_mod_cast this
  have hD : (0 : ℚ) < (max_phi - 0) / ((n_phi : ℚ) + 1) := div_pos (by linarith) hq
  exact axis_index_phi 0 max_phi n_phi hn hmax 0 0 (by decide) (by simp)
    (by simpa using hD)

theorem mesh_three_const (max_phi : ℚ) (n_phi : Int) (c : ℚ) (n : Nat) (j : Nat)
    (hj : j < n) : rd (mesh_three max_phi n_phi (List.replicate n c)).val_prev j = c :=
  rd_replicate n c j hj

theorem mesh_three_flat_phi (max_phi : ℚ) (vp : List ℚ) (phi : ℚ) :
    interp_i_phi (mesh_three max_phi 1 vp) phi = 0 ∧
    interp_i_phi1 (mesh_three max_phi 1 vp) 0 = 0 := by
  constructor
  · unfold interp_i_phi
    rw [if_pos (show (mesh_three max_phi 1 vp).n_phi = 1 from rfl)]
  · unfold interp_i_phi1
    rw [if_pos (show (0 : Nat) = size_of_int ((mesh_three max_phi 1 vp).n_phi - 1) from rfl)]

/-! ## Coordinates below the axis minimum: claim C3 -/

/-- Claim C3, evaluated on the code: on the mesh of counts `3` over `[0, 1]`
(cell width `1/3`, `n_phi = 1`) with `val_prev` equal to `1` everywhere, the query
`r = -1/10` lies below `r[0] = 0` and `floor((r - r[0]) / (r[1] - r[0])) = -1`,
yet the index `i_r` computed by the code is `0` and `bmc_mesh_interpolate`
returns `1`, not `0`. -/
theorem C3_below_minimum_not_zero :
    (-1 / 10 : ℚ) < rd (mesh_three 6 1 (List.replicate 256 1)).r 0 ∧
    ⌊((-1 / 10 : ℚ) - rd (mesh_three 6 1 (List.replicate 256 1)).r 0) /
      (rd (mesh_three 6 1 (List.replicate 256 1)).r 1 -
        rd (mesh_three 6 1 (List.replicate 256 1)).r 0)⌋ = -1 ∧
    interp_i_r (mesh_three 6 1 (List.replicate 256 1)) (-1 / 10) = 0 ∧
    bmc_mesh_interpolate (mesh_three 6 1 (List.replicate 256 1)) (-1 / 10) 0 0 0 0 = 1 := by
  have r0 : rd (mesh_three 6 1 (List.replicate 256 1)).r 0 = 0 :=
    store_abscissae_zero 0 1 3 (by decide)
  have r1 : rd (mesh_three 6 1 (List.replicate 256 1)).r 1 -
      rd (mesh_three 6 1 (List.replicate 256 1)).r 0 = 1 / 3 := by
    have := store_abscissae_delta 0 1 3 0 (by decide)
    simp only [zero_add] at this
    rw [show (mesh_three 6 1 (List.replicate 256 1)).r = store_abscissae 0 1 3 from rfl, this]
    norm_num
  have hi := mesh_three_i_r 6 1 (List.replicate 256 1) (-1 / 10) (by norm_num) (by norm_num)
  refine ⟨by rw [r0]; norm_num, ?_, hi, ?_⟩
  · rw [r1, r0, Int.floor_eq_iff]
    constructor <;> norm_num
  · rw [interpolate_const_init 0 1 3 0 6 1 0 1 3 0 1 3 0 1 3
      ⟨by decide, by decide, by decide, by decide, by decide, by decide⟩
      (by norm_num) (by norm_num) (by norm_num) (by norm_num) 1 (List.replicate 256 1)
      (mesh_three 6 1 (List.replicate 256 1)) rfl
      (fun j hj => mesh_three_const 6 1 1 256 j hj) (-1 / 10) 0 0 0 0
      (by rw [hi]; decide)
      (by rw [mesh_three_i_z 6 1 _ 0 (by norm_num) (by norm_num)]; decide)
      (by rw [mesh_three_i_mom1 6 1 _ 0 (by norm_num) (by norm_num)]; decide)
      (by rw [mesh_three_i_mom2 6 1 _ 0 (by norm_num) (by norm_num)]; decide)
      (by rw [(mesh_three_flat_phi 6 _ 0).1]; decide)]
    rw [if_pos (show (mesh_three 6 1 (List.replicate 256 1)).n_phi = 1 from rfl),
      (mesh_three_flat_phi 6 _ 0).1, (mesh_three_flat_phi 6 _ 0).2]
    norm_num

/-! ## Concrete cases of claims C4 and C5 -/

theorem mesh_three_phi_cell (max_phi : ℚ) (vp : List ℚ) (hmax : 0 < max_phi) :
    interp_i_phi (mesh_three max_phi 3 vp) 0 = 0 ∧
    interp_i_phi1 (mesh_three max_phi 3 vp) 0 = 1 ∧
    rd (mesh_three max_phi 3 vp).phi 1 - rd (mesh_three max_phi 3 vp).phi 0 = max_phi / 4 := by
  refine ⟨mesh_three_i_phi max_phi 3 vp (by decide) hmax, ?_, ?_⟩
  · rw [(interp_i_phi1_lt (mesh_three max_phi 3 vp) 3 rfl (by decide) 0 (by decide)).2]
    rfl
  · have := store_abscissae_phi_delta 0 max_phi 3 0 (by decide)
    simp only [zero_add] at this
    rw [show (mesh_three max_phi 3 vp).phi = store_abscissae_phi 0 max_phi 3 from rfl, this]
    norm_num

theorem mesh_three_hot (max_phi : ℚ) (j : Nat) :
    rd (mesh_three max_phi 3 (one_hot 768 0)).val_prev j =
      if (j : Int) = ((0 : Nat) : Int) * ((mesh_three max_phi 3 (one_hot 768 0)).n_r *
          (mesh_three max_phi 3 (one_hot 768 0)).n_z *
          (mesh_three max_phi 3 (one_hot 768 0)).n_phi *
          (mesh_three max_phi 3 (one_hot 768 0)).n_mom1)
        + ((0 : Nat) : Int) * ((mesh_three max_phi 3 (one_hot 768 0)).n_r *
          (mesh_three max_phi 3 (one_hot 768 0)).n_z *
          (mesh_three max_phi 3 (one_hot 768 0)).n_phi)
        + ((0 : Nat) : Int) * ((mesh_three max_phi 3 (one_hot 768 0)).n_r *
          (mesh_three max_phi 3 (one_hot 768 0)).n_z)
        + ((0 : Nat) : Int) * (mesh_three max_phi 3 (one_hot 768 0)).n_r + ((0 : Nat) : Int)
      then 1 else 0 := by
  show rd (one_hot 768 0) j = _
  rw [rd_one_hot 768 0 j (by decide)]
  simp

/-- Counterexample to C4 as stated: on the mesh of counts `3` with phi range
`[0, 1]` (phi spacing `1/4`) and `val_prev` equal to `1` everywhere, the query
`(0, 0, 0, 0, 0)` has index `0 <= n_a - 3` on each non-periodic axis and `phi` in
the phi interval, and `bmc_mesh_interpolate` returns `1/4`, not `1`. -/
theorem C4_counterexample :
    (∀ j : Nat, j < (mesh_three 1 3 (List.replicate 768 1)).size →
      rd (mesh_three 1 3 (List.replicate 768 1)).val_prev j = 1) ∧
    (interp_i_r (mesh_three 1 3 (List.replicate 768 1)) 0 : Int) ≤
      (mesh_three 1 3 (List.replicate 768 1)).n_r - 3 ∧
    (interp_i_z (mesh_three 1 3 (List.replicate 768 1)) 0 : Int) ≤
      (mesh_three 1 3 (List.replicate 768 1)).n_z - 3 ∧
    (interp_i_mom1 (mesh_three 1 3 (List.replicate 768 1)) 0 : Int) ≤
      (mesh_three 1 3 (List.replicate 768 1)).n_mom1 - 3 ∧
    (interp_i_mom2 (mesh_three 1 3 (List.replicate 768 1)) 0 : Int) ≤
      (mesh_three 1 3 (List.replicate 768 1)).n_mom2 - 3 ∧
    ((0 : ℚ) ≤ 0 ∧ (0 : ℚ) < 1) ∧
    bmc_mesh_interpolate (mesh_three 1 3 (List.replicate 768 1)) 0 0 0 0 0 = 1 / 4 ∧
    bmc_mesh_interpolate (mesh_three 1 3 (List.replicate 768 1)) 0 0 0 0 0 ≠ 1 := by
  have hconst : ∀ j : Nat, j < (mesh_three 1 3 (List.replicate 768 1)).size →
      rd (mesh_three 1 3 (List.replicate 768 1)).val_prev j = 1 :=
    fun j hj => mesh_three_const 1 3 1 768 j hj
  have h1 : (interp_i_r (mesh_three 1 3 (List.replicate 768 1)) 0 : Int) ≤
      (mesh_three 1 3 (List.replicate 768 1)).n_r - 3 := by
    rw [mesh_three_i_r 1 3 _ 0 (by norm_num) (by norm_num)]; decide
  have h2 : (interp_i_z (mesh_three 1 3 (List.replicate 768 1)) 0 : Int) ≤
      (mesh_three 1 3 (List.replicate 768 1)).n_z - 3 := by
    rw [mesh_three_i_z 1 3 _ 0 (by norm_num) (by norm_num)]; decide
  have h3 : (interp_i_mom1 (mesh_three 1 3 (List.replicate 768 1)) 0 : Int) ≤
      (mesh_three 1 3 (List.replicate 768 1)).n_mom1 - 3 := by
    rw [mesh_three_i_mom1 1 3 _ 0 (by norm_num) (by norm_num)]; decide
  have h4 : (interp_i_mom2 (mesh_three 1 3 (List.replicate 768 1)) 0 : Int) ≤
      (mesh_three 1 3 (List.replicate 768 1)).n_mom2 - 3 := by
    rw [mesh_three_i_mom2 1 3 _ 0 (by norm_num) (by norm_num)]; decide
  obtain ⟨p0, p1, pd⟩ := mesh_three_phi_cell 1 (List.replicate 768 1) (by norm_num)
  have hval : bmc_mesh_interpolate (mesh_three 1 3 (List.replicate 768 1)) 0 0 0 0 0 = 1 / 4 := by
    rw [interpolate_const_init 0 1 3 0 1 3 0 1 3 0 1 3 0 1 3
      ⟨by decide, by decide, by decide, by decide, by decide, by decide⟩
      (by norm_num) (by norm_num) (by norm_num) (by norm_num) 1 (List.replicate 768 1)
      (mesh_three 1 3 (List.replicate 768 1)) rfl hconst 0 0 0 0 0 h1 h2 h3 h4
      (by rw [p0]; decide)]
    rw [if_neg (show ¬ (mesh_three 1 3 (List.replicate 768 1)).n_phi = 1 by decide), p0, p1, pd]
    rw [abs_of_pos (by norm_num), max_eq_right (by norm_num)]
    norm_num
  refine ⟨hconst, h1, h2, h3, h4, ⟨le_refl _, by norm_num⟩, hval, ?_⟩
  rw [hval]
  norm_num

/-- Witness of C4 on the mesh of counts `3` with phi range `[0, 6]` (phi spacing
`3/2`) and `val_prev` equal to `7/10` everywhere, at the query `(0, 0, 0, 0, 0)`. -/
theorem C4_partition_of_unity_witness :
    bmc_mesh_interpolate (mesh_three 6 3 (List.replicate
      (init_mesh 0 1 3 0 6 3 0 1 3 0 1 3 0 1 3).size (7 / 10))) 0 0 0 0 0 = 7 / 10 :=
  C4_partition_of_unity 0 1 3 0 6 3 0 1 3 0 1 3 0 1 3
    ⟨by decide, by decide, by decide, by decide, by decide, by decide⟩
    (by norm_num) (by norm_num) (by norm_num) (by norm_num) (7 / 10)
    (mesh_three 6 3 (List.replicate
      (init_mesh 0 1 3 0 6 3 0 1 3 0 1 3 0 1 3).size (7 / 10))) rfl 0 0 0 0 0
    (by rw [mesh_three_i_r 6 3 _ 0 (by norm_num) (by norm_num)]; decide)
    (by rw [mesh_three_i_z 6 3 _ 0 (by norm_num) (by norm_num)]; decide)
    (by rw [mesh_three_i_mom1 6 3 _ 0 (by norm_num) (by norm_num)]; decide)
    (by rw [mesh_three_i_mom2 6 3 _ 0 (by norm_num) (by norm_num)]; decide)
    (Or.inr ⟨by norm_num, le_refl _, by norm_num⟩)

/-- Counterexample to C5 as stated: on the mesh of counts `3` with phi range
`[0, 1]` (phi spacing `1/4`), with `val_prev` equal to `1` at index `0` and `0`
elsewhere, the query at the vertex of indices `(0, 0, 0, 0, 0)`, each at most
`n - 3`, returns `1/4`, not `1`. -/
theorem C5_counterexample :
    rd (mesh_three 1 3 (one_hot 768 0)).val_prev 0 = 1 ∧
    (∀ j : Nat, j ≠ 0 → rd (mesh_three 1 3 (one_hot 768 0)).val_prev j = 0) ∧
    ((0 : Int) ≤ (mesh_three 1 3 (one_hot 768 0)).n_r - 3 ∧
      (0 : Int) ≤ (mesh_three 1 3 (one_hot 768 0)).n_phi - 3 ∧
      (0 : Int) ≤ (mesh_three 1 3 (one_hot 768 0)).n_z - 3 ∧
      (0 : Int) ≤ (mesh_three 1 3 (one_hot 768 0)).n_mom1 - 3 ∧
      (0 : Int) ≤ (mesh_three 1 3 (one_hot 768 0)).n_mom2 - 3) ∧
    bmc_mesh_interpolate (mesh_three 1 3 (one_hot 768 0))
      (rd (mesh_three 1 3 (one_hot 768 0)).r 0) (rd (mesh_three 1 3 (one_hot 768 0)).phi 0)
      (rd (mesh_three 1 3 (one_hot 768 0)).z 0) (rd (mesh_three 1 3 (one_hot 768 0)).mom1 0)
      (rd (mesh_three 1 3 (one_hot 768 0)).mom2 0) = 1 / 4 ∧
    bmc_mesh_interpolate (mesh_three 1 3 (one_hot 768 0))
      (rd (mesh_three 1 3 (one_hot 768 0)).r 0) (rd (mesh_three 1 3 (one_hot 768 0)).phi 0)
      (rd (mesh_three 1 3 (one_hot 768 0)).z 0) (rd (mesh_three 1 3 (one_hot 768 0)).mom1 0)
      (rd (mesh_three 1 3 (one_hot 768 0)).mom2 0) ≠ 1 := by
  have hval : bmc_mesh_interpolate (mesh_three 1 3 (one_hot 768 0))
      (rd (mesh_three 1 3 (one_hot 768 0)).r 0) (rd (mesh_three 1 3 (one_hot 768 0)).phi 0)
      (rd (mesh_three 1 3 (one_hot 768 0)).z 0) (rd (mesh_three 1 3 (one_hot 768 0)).mom1 0)
      (rd (mesh_three 1 3 (one_hot 768 0)).mom2 0) = 1 / 4 := by
    rw [interpolate_vertex_init 0 1 3 0 1 3 0 1 3 0 1 3 0 1 3
      ⟨by decide, by decide, by decide, by decide, by decide, by decide⟩
      (by norm_num) (by norm_num) (by norm_num) (by norm_num) (by norm_num) (one_hot 768 0)
      (mesh_three 1 3 (one_hot 768 0)) rfl 0 0 0 0 0 (by decide) (by decide) (by decide)
      (by decide) (by decide) (fun j _ => mesh_three_hot 1 j)]
    rw [max_eq_right (by norm_num)]
    norm_num
  refine ⟨?_, ?_, ⟨by decide, by decide, by decide, by decide, by decide⟩, hval, ?_⟩
  · show rd (one_hot 768 0) 0 = 1
    rw [rd_one_hot 768 0 0 (by decide)]
    rfl
  · intro j hj
    show rd (one_hot 768 0) j = 0
    rw [rd_one_hot 768 0 j (by decide), if_neg hj]
  · rw [hval]
    norm_num

/-- Witness of C5 on the mesh of counts `3` with phi range `[0, 6]` (phi spacing
`3/2`), one-hot at the vertex of indices `(0, 0, 0, 0, 0)`. -/
theorem C5_vertex_one_hot_witness :
    bmc_mesh_interpolate (mesh_three 6 3 (one_hot 768 0))
      (rd (mesh_three 6 3 (one_hot 768 0)).r 0) (rd (mesh_three 6 3 (one_hot 768 0)).phi 0)
      (rd (mesh_three 6 3 (one_hot 768 0)).z 0) (rd (mesh_three 6 3 (one_hot 768 0)).mom1 0)
      (rd (mesh_three 6 3 (one_hot 768 0)).mom2 0) = 1 :=
  C5_vertex_one_hot 0 1 3 0 6 3 0 1 3 0 1 3 0 1 3
    ⟨by decide, by decide, by decide, by decide, by decide, by decide⟩
    (by norm_num) (by norm_num) (by norm_num) (by norm_num) (by norm_num) (one_hot 768 0)
    (mesh_three 6 3 (one_hot 768 0)) rfl 0 0 0 0 0 (by decide) (by decide) (by decide)
    (by decide) (by decide) (fun j _ => mesh_three_hot 6 j)

/-! ## Construction: claims C11, C16 and C19 -/

theorem store_abscissae_ascending (min max : ℚ) (n : Int) (hn : 0 < n) (hmm : min < max)
    (i : Nat) (hi : i + 1 < (store_abscissae min max n).length) :
    rd (store_abscissae min max n) i < rd (store_abscissae min max n) (i + 1) ∧
    rd (store_abscissae min max n) (i + 1) - rd (store_abscissae min max n) i =
      (max - min) / (n : ℚ) := by
  rw [store_abscissae_length] at hi
  have hD : (0 : ℚ) < (max - min) / (n : ℚ) := div_pos (by linarith) (by exact_mod_cast hn)
  have d := store_abscissae_delta min max n i (by omega)
  exact ⟨by linarith, d⟩

theorem store_abscissae_phi_ascending (min max : ℚ) (n : Int) (hn : 0 < n) (hmm : min < max)
    (i : Nat) (hi : i + 1 < (store_abscissae_phi min max n).length) :
    rd (store_abscissae_phi min max n) i < rd (store_abscissae_phi min max n) (i + 1) ∧
    rd (store_abscissae_phi min max n) (i + 1) - rd (store_abscissae_phi min max n) i =
      (max - min) / ((n : ℚ) + 1) := by
  rw [store_abscissae_phi_length] at hi
  have hq : (0 : ℚ) < (n : ℚ) + 1 := by
    have : (0 : Int) < n + 1 := by omega
    exact_mod_cast this
  have hD : (0 : ℚ) < (max - min) / ((n : ℚ) + 1) := div_pos (by linarith) hq
  have d := store_abscissae_phi_delta min max n i (by omega)
  exact ⟨by linarith, d⟩

/-- Claim C19: for a call of `bmc_mesh_init` in which each axis has `max > min`
and `count > 0`, each stored axis array is strictly ascending, and in exact
arithmetic all consecutive differences within one axis are equal: `(max - min) /
count` on the non-periodic axes and `(max - min) / (count + 1)` on phi. -/
theorem C19_axes_ascending (min_r max_r : ℚ) (n_r : Int) (min_phi max_phi : ℚ)
    (n_phi : Int) (min_z max_z : ℚ) (n_z : Int) (min_mom1 max_mom1 : ℚ) (n_mom1 : Int)
    (min_mom2 max_mom2 : ℚ) (n_mom2 : Int) (mesh : bmc_mesh)
    (hmesh : mesh = (init_mesh min_r max_r n_r min_phi max_phi n_phi min_z max_z n_z
      min_mom1 max_mom1 n_mom1 min_mom2 max_mom2 n_mom2))
    (hr : min_r < max_r) (hphi : min_phi < max_phi) (hz : min_z < max_z)
    (hm1 : min_mom1 < max_mom1) (hm2 : min_mom2 < max_mom2)
    (cr : 0 < n_r) (cphi : 0 < n_phi) (cz : 0 < n_z) (cm1 : 0 < n_mom1) (cm2 : 0 < n_mom2) :
    (∀ i : Nat, i + 1 < mesh.r.length →
      rd mesh.r i < rd mesh.r (i + 1) ∧
      rd mesh.r (i + 1) - rd mesh.r i = (max_r - min_r) / (n_r : ℚ)) ∧
    (∀ i : Nat, i + 1 < mesh.z.length →
      rd mesh.z i < rd mesh.z (i + 1) ∧
      rd mesh.z (i + 1) - rd mesh.z i = (max_z - min_z) / (n_z : ℚ)) ∧
    (∀ i : Nat, i + 1 < mesh.mom1.length →
      rd mesh.mom1 i < rd mesh.mom1 (i + 1) ∧
      rd mesh.mom1 (i + 1) - rd mesh.mom1 i = (max_mom1 - min_mom1) / (n_mom1 : ℚ)) ∧
    (∀ i : Nat, i + 1 < mesh.mom2.length →
      rd mesh.mom2 i < rd mesh.mom2 (i + 1) ∧
      rd mesh.mom2 (i + 1) - rd mesh.mom2 i = (max_mom2 - min_mom2) / (n_mom2 : ℚ)) ∧
    (∀ i : Nat, i + 1 < mesh.phi.length →
      rd mesh.phi i < rd mesh.phi (i + 1) ∧
      rd mesh.phi (i + 1) - rd mesh.phi i = (max_phi - min_phi) / ((n_phi : ℚ) + 1)) := by
  subst hmesh
  exact ⟨store_abscissae_ascending min_r max_r n_r cr hr,
    store_abscissae_ascending min_z max_z n_z cz hz,
    store_abscissae_ascending min_mom1 max_mom1 n_mom1 cm1 hm1,
    store_abscissae_ascending min_mom2 max_mom2 n_mom2 cm2 hm2,
    store_abscissae_phi_ascending min_phi max_phi n_phi cphi hphi⟩

/-- Witness of C19 on the mesh of counts `(3, 3, 3, 3, 3)`: `phi[1] < phi[2]`. -/
theorem C19_axes_ascending_witness :
    rd (init_mesh 0 1 3 0 6 3 0 1 3 0 1 3 0 1 3).phi 1 <
      rd (init_mesh 0 1 3 0 6 3 0 1 3 0 1 3 0 1 3).phi (1 + 1) :=
  ((C19_axes_ascending 0 1 3 0 6 3 0 1 3 0 1 3 0 1 3 _ rfl (by norm_num) (by norm_num)
    (by norm_num) (by norm_num) (by norm_num) (by decide) (by decide) (by decide) (by decide)
    (by decide)).2.2.2.2 1 (by decide)).1

/-! ## Index to position out of range: claim C12 -/

/-- Claim C12, as amended: `bmc_mesh_index2pos` has no range check and no error
result.  Called with `size <= idx <= INT_MAX` (so that every `int` result of the
function is representable) on a mesh built by `bmc_mesh_init` from well-formed
counts, it derives the `mom2` index `idx / (n_r * n_z * n_phi * n_mom1) >= n_mom2`,
outside the `mom2` axis, so that the read of `mom2` is past the end of the array;
the other four indices are inside their axes. -/
theorem C12_index2pos_out_of_range (min_r max_r : ℚ) (n_r : Int) (min_phi max_phi : ℚ)
    (n_phi : Int) (min_z max_z : ℚ) (n_z : Int) (min_mom1 max_mom1 : ℚ) (n_mom1 : Int)
    (min_mom2 max_mom2 : ℚ) (n_mom2 : Int) (hc : counts_ok n_r n_phi n_z n_mom1 n_mom2)
    (mesh : bmc_mesh)
    (hmesh : mesh = (init_mesh min_r max_r n_r min_phi max_phi n_phi min_z max_z n_z
      min_mom1 max_mom1 n_mom1 min_mom2 max_mom2 n_mom2))
    (idx : Nat) (hlo : mesh.size ≤ idx) (hhi : (idx : Int) ≤ INT_MAX) :
    mesh.n_mom2 ≤ (index2pos_indices mesh idx).2.2.2.2 ∧
    mesh.mom2[(index2pos_indices mesh idx).2.2.2.2.toNat]? = none ∧
    (0 ≤ (index2pos_indices mesh idx).1 ∧ (index2pos_indices mesh idx).1 < mesh.n_r) ∧
    (0 ≤ (index2pos_indices mesh idx).2.1 ∧ (index2pos_indices mesh idx).2.1 < mesh.n_phi) ∧
    (0 ≤ (index2pos_indices mesh idx).2.2.1 ∧
      (index2pos_indices mesh idx).2.2.1 < mesh.n_z) ∧
    (0 ≤ (index2pos_indices mesh idx).2.2.2.1 ∧
      (index2pos_indices mesh idx).2.2.2.1 < mesh.n_mom1) := by
  obtain ⟨Nr, Nz, Nphi, Nm1, Nm2, b1, b2, b3, b4, b5, hr, hz, hphi, hm1, hm2, lr, lz, lphi,
    lm1, lm2, hsize, hfit⟩ := init_nat_sizes min_r max_r n_r min_phi max_phi n_phi
      min_z max_z n_z min_mom1 max_mom1 n_mom1 min_mom2 max_mom2 n_mom2 hc mesh hmesh
  have h0 : 0 < Nr * Nz * Nphi * Nm1 := by positivity
  have hP : ((Nr * Nz * Nphi * Nm1 : Nat) : Int) ≤ INT_MAX := by
    have h1 : Nr * Nz * Nphi * Nm1 ≤ Nr * Nz * Nphi * Nm1 * Nm2 :=
      Nat.le_mul_of_pos_right _ (by omega)
    rw [hsize] at hlo
    exact le_trans (by exact_mod_cast le_trans h1 hlo) hhi
  have h3 : 0 < Nr * Nz * Nphi := by positivity
  have h2 : 0 < Nr * Nz := by positivity
  rw [index2pos_indices_nat mesh Nr Nz Nphi Nm1 hr hz hphi hm1 idx hhi hP h0, hr, hphi, hz,
    hm1, hm2]
  simp only [Int.toNat_natCast]
  have hq : Nm2 ≤ idx / (Nr * Nz * Nphi * Nm1) := by
    rw [Nat.le_div_iff_mul_le h0, Nat.mul_comm]
    rw [hsize] at hlo
    exact hlo
  refine ⟨by exact_mod_cast hq, ?_, ⟨Int.natCast_nonneg _, ?_⟩, ⟨Int.natCast_nonneg _, ?_⟩,
    ⟨Int.natCast_nonneg _, ?_⟩, ⟨Int.natCast_nonneg _, ?_⟩⟩
  · rw [List.getElem?_eq_none_iff, lm2]
    exact hq
  · exact_mod_cast Nat.mod_lt _ (by omega)
  · have : idx % (Nr * Nz * Nphi * Nm1) % (Nr * Nz * Nphi) / (Nr * Nz) < Nphi := by
      rw [Nat.div_lt_iff_lt_mul h2, Nat.mul_comm Nphi (Nr * Nz)]
      exact Nat.mod_lt _ h3
    exact_mod_cast this
  · have : idx % (Nr * Nz * Nphi * Nm1) % (Nr * Nz * Nphi) % (Nr * Nz) / Nr < Nz := by
      rw [Nat.div_lt_iff_lt_mul (by omega), Nat.mul_comm Nz Nr]
      exact Nat.mod_lt _ h2
    exact_mod_cast this
  · have : idx % (Nr * Nz * Nphi * Nm1) / (Nr * Nz * Nphi) < Nm1 := by
      rw [Nat.div_lt_iff_lt_mul h3, Nat.mul_comm Nm1 (Nr * Nz * Nphi)]
      exact Nat.mod_lt _ h0
    exact_mod_cast this

/-- Witness of C12 on the mesh of counts `(3, 3, 3, 3, 3)` at `idx = size = 768`. -/
theorem C12_index2pos_out_of_range_witness :
    (init_mesh 0 1 3 0 6 3 0 1 3 0 1 3 0 1 3).n_mom2 ≤
      (index2pos_indices (init_mesh 0 1 3 0 6 3 0 1 3 0 1 3 0 1 3) 768).2.2.2.2 :=
  (C12_index2pos_out_of_range 0 1 3 0 6 3 0 1 3 0 1 3 0 1 3
    ⟨by decide, by decide, by decide, by decide, by decide, by decide⟩ _ rfl 768
    (by decide) (by decide)).1

/-- Counterexample to C12 as stated: on the mesh of counts `(3, 3, 3, 3, 3)`, of
size `768`, the call with `idx = 768` reports no error: it derives the indices
`(0, 0, 0, 0, 4)`, with `4 = n_mom2` outside the `mom2` axis, and returns
`r[0] = 0` as first coordinate. -/
theorem C12_counterexample :
    (init_mesh 0 1 3 0 6 3 0 1 3 0 1 3 0 1 3).size = 768 ∧
    (init_mesh 0 1 3 0 6 3 0 1 3 0 1 3 0 1 3).n_mom2 = 4 ∧
    index2pos_indices (init_mesh 0 1 3 0 6 3 0 1 3 0 1 3 0 1 3) 768 = (0, 0, 0, 0, 4) ∧
    (bmc_mesh_index2pos (init_mesh 0 1 3 0 6 3 0 1 3 0 1 3 0 1 3) 768).1 = 0 := by
  have hi : index2pos_indices (init_mesh 0 1 3 0 6 3 0 1 3 0 1 3 0 1 3) 768 =
      (0, 0, 0, 0, 4) := by decide
  refine ⟨by decide, by decide, hi, ?_⟩
  show rdi (store_abscissae 0 1 3)
    (index2pos_indices (init_mesh 0 1 3 0 6 3 0 1 3 0 1 3 0 1 3) 768).1 = 0
  rw [hi]
  exact store_abscissae_zero 0 1 3 (by decide)

/-! ## Degenerate phi: claim C18 -/

theorem interp_idx0_flat (m : bmc_mesh) (a b c d i1 i2 i4 i5 : Nat) :
    interp_idx0 m a b 0 0 c d i1 i2 1 i4 i5 = interp_idx0 m a b 0 0 c d i1 i2 0 i4 i5 := by
  unfold interp_idx0
  have h : add64 0 (mul64 1 (sub64 0 0)) = add64 0 (mul64 0 (sub64 0 0)) := by decide
  rw [h]

theorem interp_flat_phi (m : bmc_mesh) (h1 : m.n_phi = 1) (phi : ℚ) :
    interp_i_phi m phi = 0 ∧ interp_i_phi1 m 0 = 0 := by
  constructor
  · unfold interp_i_phi
    rw [if_pos h1]
  · unfold interp_i_phi1
    rw [h1]
    rfl

/-- Claim C18: on a mesh with `n_phi = 1` the phi argument is degenerate:
`bmc_mesh_interpolate` returns the same value for any two phi arguments, both phi
corners being the phi row `0` weighted `1/2` each, and the result is the
four-dimensional multilinear interpolation of `val_prev` over `(R, z, mom1,
mom2)`. -/
theorem C18_degenerate_phi (mesh : bmc_mesh) (h1 : mesh.n_phi = 1)
    (r z mom1 mom2 phi phi' : ℚ) :
    bmc_mesh_interpolate mesh r phi z mom1 mom2 =
      bmc_mesh_interpolate mesh r phi' z mom1 mom2 ∧
    bmc_mesh_interpolate mesh r phi z mom1 mom2 = interpolate_4d mesh r z mom1 mom2 := by
  have key : ∀ p : ℚ, bmc_mesh_interpolate mesh r p z mom1 mom2 =
      interpolate_4d mesh r z mom1 mom2 := by
    intro p
    unfold bmc_mesh_interpolate interpolate_4d
    by_cases hin : interp_inside mesh (interp_i_r mesh r) (interp_i_z mesh z)
        (interp_i_mom1 mesh mom1) (interp_i_mom2 mesh mom2) = true
    · simp only [hin, if_true, h1, (interp_flat_phi mesh h1 p).1,
        (interp_flat_phi mesh h1 p).2, sub_self, abs_zero, List.foldl_cons, List.foldl_nil,
        interp_idx0_flat]
      rw [max_eq_right (by norm_num : (0 : ℚ) ≤ 1)]
      simp only [rd, List.getD_cons_zero, List.getD_cons_succ]
      ring
    · rw [Bool.not_eq_true] at hin
      simp only [hin, Bool.false_eq_true, if_false]
  exact ⟨(key phi).trans (key phi').symm, key phi⟩

/-- Witness of C18 on a mesh of one phi abscissa: two phi arguments. -/
theorem C18_degenerate_phi_witness :
    bmc_mesh_interpolate (mesh_three 6 1 (one_hot 256 0)) 0 0 0 0 0 =
      bmc_mesh_interpolate (mesh_three 6 1 (one_hot 256 0)) 0 5 0 0 0 :=
  (C18_degenerate_phi (mesh_three 6 1 (one_hot 256 0)) rfl 0 0 0 0 0 5).1

/-! ## One full step: claims C14, C15 and C17 -/

theorem knot_value_eq (mesh : bmc_mesh) (r phi z mom1 mom2 : List ℚ) (fate : List Int)
    (j : Nat) :
    knot_value mesh r phi z mom1 mom2 fate j =
      if fate.getD j 0 = 2 then 1
      else if fate.getD j 0 = 1 ∨ fate.getD j 0 = -1 then 0
      else bmc_mesh_interpolate mesh (rd r j) (rd phi j) (rd z j) (rd mom1 j) (rd mom2 j) := by
  unfold knot_value
  have habs : ∀ x : Int, |x| = 1 ↔ (x = 1 ∨ x = -1) := fun x => abs_eq (by norm_num)
  simp only [habs]

/-- The value accumulated by `bmc_mesh_update` in `val_next[i]`, for `i` in
`[start, stop)`. -/
theorem update_val_next_eq (K : Nat) (hermite_w : List ℚ) (mesh : bmc_mesh)
    (start stop : Nat) (r phi z mom1 mom2 : List ℚ) (fate : List Int)
    (hstop : stop < SIZE_MOD) (hrec : (stop - start) * K < SIZE_MOD)
    (hsz : stop ≤ mesh.val_next.length) (i : Nat) (hi1 : start ≤ i) (hi2 : i < stop) :
    (bmc_mesh_update K hermite_w mesh start stop r phi z mom1 mom2 fate).val_next[i]? =
      some (rd mesh.val_next i +
        ((List.range K).map (fun k => knot_value mesh r phi z mom1 mom2 fate
          ((i - start) * K + k) * rd hermite_w k)).sum) := by
  obtain ⟨_, _, _, h4⟩ := elements_fold K hermite_w start r phi z mom1 mom2 fate _
    (update_range_nodup start stop) mesh
  have h := h4 i ((mem_update_range start stop i).mpr ⟨hi1, hi2⟩) (lt_of_lt_of_le hi2 hsz)
  unfold bmc_mesh_update
  rw [h]
  refine congrArg (fun s => some (rd mesh.val_next i + s))
    (congrArg List.sum (List.map_congr_left ?_))
  intro k hk
  rw [List.mem_range] at hk
  have hmul : (i - start) * K + k < (stop - start) * K := by
    have : (i - start) + 1 ≤ stop - start := by omega
    calc (i - start) * K + k < (i - start) * K + K := by omega
      _ = ((i - start) + 1) * K := by ring
      _ ≤ (stop - start) * K := Nat.mul_le_mul_right K this
  rw [sub64_eq i start hi1 (lt_trans hi2 hstop), mul64_eq _ _ (by omega),
    add64_eq _ _ (by omega)]

/-- The part of the mesh that `bmc_mesh_update` leaves unchanged. -/
theorem update_frame (K : Nat) (hermite_w : List ℚ) (mesh : bmc_mesh)
    (start stop : Nat) (r phi z mom1 mom2 : List ℚ) (fate : List Int) :
    agree_off_val_next
      (bmc_mesh_update K hermite_w mesh start stop r phi z mom1 mom2 fate) mesh ∧
    (bmc_mesh_update K hermite_w mesh start stop r phi z mom1 mom2 fate).val_next.length =
      mesh.val_next.length ∧
    (∀ i : Nat, (i < start ∨ stop ≤ i) →
      (bmc_mesh_update K hermite_w mesh start stop r phi z mom1 mom2 fate).val_next[i]? =
        mesh.val_next[i]?) := by
  obtain ⟨h1, h2, h3, _⟩ := elements_fold K hermite_w start r phi z mom1 mom2 fate _
    (update_range_nodup start stop) mesh
  refine ⟨h1, h2, fun i hi => h3 i ?_⟩
  rw [mem_update_range]
  omega

theorem finishstep_buffers (mesh : bmc_mesh) (hn : mesh.val_next.length = mesh.size)
    (hp : mesh.val_prev.length = mesh.size) :
    (bmc_mesh_finishstep mesh).val_prev = mesh.val_next ∧
    (bmc_mesh_finishstep mesh).val_next = List.replicate mesh.size 0 := by
  constructor
  · show mesh.val_next.take mesh.size ++ mesh.val_prev.drop mesh.size = mesh.val_next
    rw [List.take_of_length_le (le_of_eq hn), List.drop_of_length_le (le_of_eq hp),
      List.append_nil]
  · show List.replicate mesh.size 0 ++ mesh.val_next.drop mesh.size = _
    rw [List.drop_of_length_le (le_of_eq hn), List.append_nil]

/-- The state after `bmc_mesh_update` followed by `bmc_mesh_finishstep`, on a
mesh whose buffers hold `size` values. -/
theorem step_buffers (K : Nat) (hermite_w : List ℚ) (mesh : bmc_mesh)
    (start stop : Nat) (r phi z mom1 mom2 : List ℚ) (fate : List Int)
    (hn : mesh.val_next.length = mesh.size) (hp : mesh.val_prev.length = mesh.size) :
    (bmc_mesh_finishstep
      (bmc_mesh_update K hermite_w mesh start stop r phi z mom1 mom2 fate)).val_prev =
      (bmc_mesh_update K hermite_w mesh start stop r phi z mom1 mom2 fate).val_next ∧
    (bmc_mesh_finishstep
      (bmc_mesh_update K hermite_w mesh start stop r phi z mom1 mom2 fate)).val_next =
      List.replicate mesh.size 0 := by
  obtain ⟨hag, hlen, _⟩ := update_frame K hermite_w mesh start stop r phi z mom1 mom2 fate
  unfold agree_off_val_next at hag
  have hs : (bmc_mesh_update K hermite_w mesh start stop r phi z mom1 mom2 fate).size =
      mesh.size := by
    have := congrArg bmc_mesh.size hag
    exact this
  have hvp : (bmc_mesh_update K hermite_w mesh start stop r phi z mom1 mom2 fate).val_prev =
      mesh.val_prev := by
    have := congrArg bmc_mesh.val_prev hag
    exact this
  have := finishstep_buffers
    (bmc_mesh_update K hermite_w mesh start stop r phi z mom1 mom2 fate)
    (by rw [hlen, hs, hn]) (by rw [hvp, hs, hp])
  rw [hs] at this
  exact this

theorem rd_of_all_zero (l : List ℚ) (h : ∀ x ∈ l, x = 0) (i : Nat) : rd l i = 0 := by
  unfold rd
  rw [List.getD_eq_getElem?_getD]
  by_cases hi : i < l.length
  · rw [List.getElem?_eq_getElem hi]
    exact h _ (List.getElem_mem hi)
  · rw [List.getElem?_eq_none (by omega)]
    rfl

/-- Claim C17: starting from a mesh whose `val_next` is all zero (both buffers
holding `size` values, record offsets representable), `bmc_mesh_update` over
`[start, stop)` followed by the single-worker `bmc_mesh_finishstep` leaves
`val_prev[i]` equal to the sum over the knots of `w_k * v_k` for `i` in
`[start, stop)`, with `v_k` given by the fate and the interpolation taken in the
`val_prev` held at the start of the step, `val_prev[i] = 0` for every other `i`,
and `val_next` all zero; when all fates are `2`, the range is `[0, size)` and the
weights sum to `1`, `val_prev` is `1` everywhere after the step. -/
theorem C17_full_step (K : Nat) (hermite_w : List ℚ) (mesh : bmc_mesh) (start stop : Nat)
    (r phi z mom1 mom2 : List ℚ) (fate : List Int)
    (hn : mesh.val_next.length = mesh.size) (hp : mesh.val_prev.length = mesh.size)
    (hzero : ∀ x ∈ mesh.val_next, x = 0)
    (hstop : stop ≤ mesh.size) (hsize : mesh.size < SIZE_MOD)
    (hrec : (stop - start) * K < SIZE_MOD) :
    (∀ i : Nat, start ≤ i → i < stop →
      (bmc_mesh_finishstep
        (bmc_mesh_update K hermite_w mesh start stop r phi z mom1 mom2 fate)).val_prev[i]? =
      some (((List.range K).map (fun k => rd hermite_w k *
          (if fate.getD ((i - start) * K + k) 0 = 2 then 1
           else if fate.getD ((i - start) * K + k) 0 = 1 ∨
              fate.getD ((i - start) * K + k) 0 = -1 then 0
           else bmc_mesh_interpolate mesh (rd r ((i - start) * K + k))
              (rd phi ((i - start) * K + k)) (rd z ((i - start) * K + k))
              (rd mom1 ((i - start) * K + k)) (rd mom2 ((i - start) * K + k))))).sum)) ∧
    (∀ i : Nat, i < mesh.size → (i < start ∨ stop ≤ i) →
      (bmc_mesh_finishstep
        (bmc_mesh_update K hermite_w mesh start stop r phi z mom1 mom2 fate)).val_prev[i]? =
      some 0) ∧
    (∀ i : Nat, i < mesh.size →
      (bmc_mesh_finishstep
        (bmc_mesh_update K hermite_w mesh start stop r phi z mom1 mom2 fate)).val_next[i]? =
      some 0) ∧
    (start = 0 → stop = mesh.size → (∀ j : Nat, j < mesh.size * K → fate.getD j 0 = 2) →
      ((List.range K).map (fun k => rd hermite_w k)).sum = 1 →
      ∀ i : Nat, i < mesh.size →
        (bmc_mesh_finishstep
          (bmc_mesh_update K hermite_w mesh start stop r phi z mom1 mom2 fate)).val_prev[i]? =
        some 1) := by
  obtain ⟨hvp, hvn⟩ := step_buffers K hermite_w mesh start stop r phi z mom1 mom2 fate hn hp
  obtain ⟨_, _, hout⟩ := update_frame K hermite_w mesh start stop r phi z mom1 mom2 fate
  have hin : ∀ i : Nat, start ≤ i → i < stop →
      (bmc_mesh_finishstep
        (bmc_mesh_update K hermite_w mesh start stop r phi z mom1 mom2 fate)).val_prev[i]? =
      some (((List.range K).map (fun k => rd hermite_w k *
          (if fate.getD ((i - start) * K + k) 0 = 2 then 1
           else if fate.getD ((i - start) * K + k) 0 = 1 ∨
              fate.getD ((i - start) * K + k) 0 = -1 then 0
           else bmc_mesh_interpolate mesh (rd r ((i - start) * K + k))
              (rd phi ((i - start) * K + k)) (rd z ((i - start) * K + k))
              (rd mom1 ((i - start) * K + k)) (rd mom2 ((i - start) * K + k))))).sum) := by
    intro i hi1 hi2
    rw [hvp, update_val_next_eq K hermite_w mesh start stop r phi z mom1 mom2 fate
      (lt_of_le_of_lt hstop hsize) hrec (by rw [hn]; exact hstop) i hi1 hi2,
      rd_of_all_zero _ hzero, zero_add]
    refine congrArg some (congrArg List.sum (List.map_congr_left ?_))
    intro k _
    rw [knot_value_eq, mul_comm]
  refine ⟨hin, ?_, ?_, ?_⟩
  · intro i hi ho
    rw [hvp, hout i ho, List.getElem?_eq_getElem (by rw [hn]; exact hi)]
    exact congrArg some (hzero _ (List.getElem_mem _))
  · intro i hi
    rw [hvn, List.getElem?_replicate_of_lt hi]
  · intro h0 hs hf hw i hi
    rw [hin i (by omega) (by omega)]
    refine congrArg some (Eq.trans (congrArg List.sum (List.map_congr_left ?_)) hw)
    intro k hk
    have hk' : k < K := List.mem_range.mp hk
    have hj : (i - start) * K + k < mesh.size * K := by
      have h1 : (i - start) * K + k < (i - start) * K + K := by omega
      have h2 : (i - start) * K + K = (i - start + 1) * K := by ring
      have h3 : (i - start + 1) * K ≤ mesh.size * K := Nat.mul_le_mul_right K (by omega)
      omega
    rw [if_pos (hf _ hj), mul_one]

/-- Witness of C17: one element, two knots of fates `2` and `1`, weights `1/3`
and `2/3`. -/
theorem C17_full_step_witness :
    (bmc_mesh_finishstep (bmc_mesh_update 2 [1 / 3, 2 / 3]
      { n_r := 1, n_phi := 1, n_z := 1, n_mom1 := 1, n_mom2 := 1, size := 1,
        r := [0], phi := [0], z := [0], mom1 := [0], mom2 := [0],
        val_next := [0], val_prev := [5] }
      0 1 [0, 0] [0, 0] [0, 0] [0, 0] [0, 0] [2, 1])).val_next[0]? = some 0 :=
  (C17_full_step 2 [1 / 3, 2 / 3]
      { n_r := 1, n_phi := 1, n_z := 1, n_mom1 := 1, n_mom2 := 1, size := 1,
        r := [0], phi := [0], z := [0], mom1 := [0], mom2 := [0],
        val_next := [0], val_prev := [5] }
      0 1 [0, 0] [0, 0] [0, 0] [0, 0] [0, 0] [2, 1] rfl rfl
      (by intro x hx; simpa using hx) (by decide) (by decide) (by decide)).2.2.1 0 (by decide)

/-! ## The phi index near the end of the phi interval: claim C20 -/

theorem mesh_three_inside (max_phi : ℚ) (n_phi : Int) (vp : List ℚ) :
    interp_inside (mesh_three max_phi n_phi vp) 0 0 0 0 = true := rfl

theorem mesh_three_phi_index (vp : List ℚ) (phi : ℚ) (k : Nat) (hk : k < SIZE_MOD)
    (h1 : (k : ℚ) * (3 / 2) ≤ phi) (h2 : phi < ((k : ℚ) + 1) * (3 / 2)) :
    interp_i_phi (mesh_three 6 3 vp) phi = k := by
  unfold interp_i_phi
  rw [if_neg (show ¬ (mesh_three 6 3 vp).n_phi = 1 by show ¬ ((3 : Int) = 1); decide)]
  exact axis_index_phi 0 6 3 (by decide) (by norm_num) phi k hk
    (by norm_num; linarith) (by norm_num; linarith)

/-- Claim C20, evaluated on the code: on the mesh of counts `3` with phi range
`[0, 6]` (three phi abscissae `0, 3/2, 3`), the query `(0, 5, 0, 0, 0)` passes the
boundary test and has `0 <= phi < 6`, yet its phi index is `i_phi = 3 = n_phi`:
the read `phi[i_phi]` is past the end of the phi array. -/
theorem C20_phi_index_out_of_range :
    interp_inside (mesh_three 6 3 (List.replicate 768 1))
      (interp_i_r (mesh_three 6 3 (List.replicate 768 1)) 0)
      (interp_i_z (mesh_three 6 3 (List.replicate 768 1)) 0)
      (interp_i_mom1 (mesh_three 6 3 (List.replicate 768 1)) 0)
      (interp_i_mom2 (mesh_three 6 3 (List.replicate 768 1)) 0) = true ∧
    ((0 : ℚ) ≤ 5 ∧ (5 : ℚ) < 6) ∧
    interp_i_phi (mesh_three 6 3 (List.replicate 768 1)) 5 = 3 ∧
    (mesh_three 6 3 (List.replicate 768 1)).n_phi = 3 ∧
    (mesh_three 6 3 (List.replicate 768 1)).phi.length = 3 ∧
    (mesh_three 6 3 (List.replicate 768 1)).phi[
      interp_i_phi (mesh_three 6 3 (List.replicate 768 1)) 5]? = none := by
  have hi := mesh_three_phi_index (List.replicate 768 1) 5 3 (by decide) (by norm_num)
    (by norm_num)
  have hl : (mesh_three 6 3 (List.replicate 768 1)).phi.length = 3 :=
    store_abscissae_phi_length 0 6 3
  refine ⟨?_, ⟨by norm_num, by norm_num⟩, hi, rfl, hl, ?_⟩
  · rw [mesh_three_i_r 6 3 _ 0 (by norm_num) (by norm_num),
      mesh_three_i_z 6 3 _ 0 (by norm_num) (by norm_num),
      mesh_three_i_mom1 6 3 _ 0 (by norm_num) (by norm_num),
      mesh_three_i_mom2 6 3 _ 0 (by norm_num) (by norm_num)]
    exact mesh_three_inside 6 3 _
  · rw [hi, List.getElem?_eq_none_iff, hl]

/-! ## Periodicity in phi: claim C13 -/

/-- The phi index on the phi axis stored by `bmc_mesh_init` with at least two
abscissae, as a floor. -/
theorem interp_i_phi_floor (m : bmc_mesh) (min_phi max_phi : ℚ) (n_phi : Int)
    (hphi : m.phi = store_abscissae_phi min_phi max_phi n_phi) (hn : m.n_phi = n_phi)
    (h2 : 2 ≤ n_phi) (hmm : min_phi < max_phi) (phi : ℚ) (h0 : min_phi ≤ phi)
    (h1 : (phi - min_phi) / ((max_phi - min_phi) / ((n_phi : ℚ) + 1)) < (SIZE_MOD : ℚ)) :
    ((interp_i_phi m phi : Nat) : Int) =
      ⌊(phi - min_phi) / ((max_phi - min_phi) / ((n_phi : ℚ) + 1))⌋ := by
  have hq : (0 : ℚ) < (n_phi : ℚ) + 1 := by
    have : (0 : Int) < n_phi + 1 := by omega
    exact_mod_cast this
  have hD : (0 : ℚ) < (max_phi - min_phi) / ((n_phi : ℚ) + 1) := div_pos (by linarith) hq
  have r0 : rd m.phi 0 = min_phi := by
    rw [hphi]; exact store_abscissae_phi_zero min_phi max_phi n_phi (by omega)
  have r1 : rd m.phi 1 - rd m.phi 0 = (max_phi - min_phi) / ((n_phi : ℚ) + 1) := by
    rw [hphi]
    exact store_abscissae_phi_delta min_phi max_phi n_phi 0 (by push_cast; omega)
  unfold interp_i_phi
  rw [if_neg (by omega), r1, r0]
  exact size_of_real_floor _ (div_nonneg (by linarith) hD.le) h1

/-- Claim C13, as amended: `bmc_mesh_interpolate` does not reduce its phi
argument modulo the period.  On a mesh built by `bmc_mesh_init` from well-formed
axis specifications with `n_phi >= 2`, for every `phi` in `[min_phi, max_phi)`
the phi index computed for the query at `phi + (max_phi - min_phi)` is at least
`n_phi`: the read `phi[i_phi]` of that query is at or past the end of the phi
array. -/
theorem C13_phi_not_wrapped (min_r max_r : ℚ) (n_r : Int) (min_phi max_phi : ℚ)
    (n_phi : Int) (min_z max_z : ℚ) (n_z : Int) (min_mom1 max_mom1 : ℚ) (n_mom1 : Int)
    (min_mom2 max_mom2 : ℚ) (n_mom2 : Int) (hc : counts_ok n_r n_phi n_z n_mom1 n_mom2)
    (hmm : min_phi < max_phi) (h2 : 2 ≤ n_phi) (vp : List ℚ) (mesh : bmc_mesh)
    (hmesh : mesh =
      { (init_mesh min_r max_r n_r min_phi max_phi n_phi min_z max_z n_z
          min_mom1 max_mom1 n_mom1 min_mom2 max_mom2 n_mom2) with val_prev := vp })
    (phi : ℚ) (hlo : min_phi ≤ phi) (hhi : phi < max_phi) :
    mesh.n_phi ≤ (interp_i_phi mesh (phi + (max_phi - min_phi)) : Int) ∧
    mesh.phi[interp_i_phi mesh (phi + (max_phi - min_phi))]? = none := by
  obtain ⟨Nr, Nz, Nphi, Nm1, Nm2, ⟨b1, b2, b3, b4, b5⟩, ⟨er, ez, ephi, em1, em2⟩,
    ⟨kr, kz, kphi, km1, km2⟩, ⟨ar, az, aphi, am1, am2⟩, -, hsize, hfit, ⟨l1, l2, l3, l4, l5⟩⟩ :=
    init_with_val_prev min_r max_r n_r min_phi max_phi n_phi min_z max_z n_z
      min_mom1 max_mom1 n_mom1 min_mom2 max_mom2 n_mom2 hc vp mesh hmesh
  have hbig : 4 * Nphi < SIZE_MOD := by
    have h1 : 2 * 2 * Nphi ≤ Nr * Nz * Nphi :=
      Nat.mul_le_mul_right Nphi (Nat.mul_le_mul b1 b2)
    have h2 : Nr * Nz * Nphi ≤ Nr * Nz * Nphi * Nm1 := Nat.le_mul_of_pos_right _ (by omega)
    have h3 : Nr * Nz * Nphi * Nm1 ≤ Nr * Nz * Nphi * Nm1 * Nm2 :=
      Nat.le_mul_of_pos_right _ (by omega)
    omega
  have hq : (0 : ℚ) < (n_phi : ℚ) + 1 := by
    have : (0 : Int) < n_phi + 1 := by omega
    exact_mod_cast this
  have hD : (0 : ℚ) < (max_phi - min_phi) / ((n_phi : ℚ) + 1) := div_pos (by linarith) hq
  have hP : max_phi - min_phi =
      ((n_phi : ℚ) + 1) * ((max_phi - min_phi) / ((n_phi : ℚ) + 1)) := by
    field_simp
  generalize hDdef : (max_phi - min_phi) / ((n_phi : ℚ) + 1) = D at hD hP
  have hx0 : 0 ≤ (phi - min_phi) / D := div_nonneg (by linarith) hD.le
  have hx1 : (phi - min_phi) / D < (n_phi : ℚ) + 1 := by
    rw [div_lt_iff₀ hD]
    linarith
  have hNq : ((Nphi : Nat) : ℚ) = (n_phi : ℚ) := by exact_mod_cast kphi
  have hM : (4 : ℚ) * (Nphi : ℚ) < (SIZE_MOD : ℚ) := by exact_mod_cast hbig
  have hN1 : (1 : ℚ) ≤ (Nphi : ℚ) := by exact_mod_cast b3
  have hshift : (phi + (max_phi - min_phi) - min_phi) / D =
      (phi - min_phi) / D + ((n_phi + 1 : Int) : ℚ) := by
    rw [hP]
    push_cast
    field_simp
    ring
  have f1 := interp_i_phi_floor mesh min_phi max_phi n_phi aphi (by rw [ephi, kphi]) h2 hmm
    phi hlo (by rw [hDdef]; linarith)
  have f2 := interp_i_phi_floor mesh min_phi max_phi n_phi aphi (by rw [ephi, kphi]) h2 hmm
    (phi + (max_phi - min_phi)) (by linarith)
    (by rw [hDdef, hshift]; push_cast; linarith)
  rw [hDdef] at f1 f2
  rw [hshift, Int.floor_add_int] at f2
  have hf0 : 0 ≤ ⌊(phi - min_phi) / D⌋ := Int.floor_nonneg.mpr hx0
  have hlen : mesh.phi.length = Nphi := by
    rw [aphi, store_abscissae_phi_length]
    omega
  refine ⟨by rw [ephi]; omega, ?_⟩
  rw [List.getElem?_eq_none_iff, hlen]
  omega

/-- Witness of C13 on the mesh of counts `3` with phi range `[0, 6]`, at
`phi = 0`: the query at `phi = 6` has a phi index of at least `n_phi = 3`. -/
theorem C13_phi_not_wrapped_witness :
    (mesh_three 6 3 (List.replicate 768 1)).n_phi ≤
      (interp_i_phi (mesh_three 6 3 (List.replicate 768 1)) (0 + (6 - 0)) : Int) :=
  (C13_phi_not_wrapped 0 1 3 0 6 3 0 1 3 0 1 3 0 1 3
    ⟨by decide, by decide, by decide, by decide, by decide, by decide⟩ (by norm_num)
    (by decide) (List.replicate 768 1) (mesh_three 6 3 (List.replicate 768 1)) rfl 0
    (le_refl _) (by norm_num)).1

/-- The constant field `1` on the mesh of counts `3` with phi range `[0, 6]`
interpolates to `1` at the query `(0, 0, 0, 0, 0)`. -/
theorem mesh_three_wide_value :
    bmc_mesh_interpolate (mesh_three 6 3 (List.replicate 768 1)) 0 0 0 0 0 = 1 := by
  obtain ⟨p0, p1, pd⟩ := mesh_three_phi_cell 6 (List.replicate 768 1) (by norm_num)
  rw [interpolate_const_init 0 1 3 0 6 3 0 1 3 0 1 3 0 1 3
    ⟨by decide, by decide, by decide, by decide, by decide, by decide⟩
    (by norm_num) (by norm_num) (by norm_num) (by norm_num) 1 (List.replicate 768 1)
    (mesh_three 6 3 (List.replicate 768 1)) rfl
    (fun j hj => mesh_three_const 6 3 1 768 j hj) 0 0 0 0 0
    (by rw [mesh_three_i_r 6 3 _ 0 (by norm_num) (by norm_num)]; decide)
    (by rw [mesh_three_i_z 6 3 _ 0 (by norm_num) (by norm_num)]; decide)
    (by rw [mesh_three_i_mom1 6 3 _ 0 (by norm_num) (by norm_num)]; decide)
    (by rw [mesh_three_i_mom2 6 3 _ 0 (by norm_num) (by norm_num)]; decide)
    (by rw [p0]; decide)]
  rw [if_neg (show ¬ (mesh_three 6 3 (List.replicate 768 1)).n_phi = 1 by decide), p0, p1, pd]
  rw [abs_of_pos (by norm_num), max_eq_left (by norm_num)]
  norm_num

/-- Counterexample to C13 as stated: on the mesh of counts `3` with phi range
`[0, 6]` (`n_phi = 3`) and `val_prev` equal to `1` everywhere, hence phi-periodic,
the query `(0, 0, 0, 0, 0)` returns `1`.  The query at `phi = 0 + (6 - 0)` passes
the boundary test with the phi index `4` and the upper neighbour `5`, beyond the
three phi abscissae: the function reads `phi[4]` and `phi[5]` outside the phi
array, so that the mesh gives that query no value, and not the value `1`. -/
theorem C13_counterexample :
    (∀ j : Nat, j < (mesh_three 6 3 (List.replicate 768 1)).size →
      rd (mesh_three 6 3 (List.replicate 768 1)).val_prev j = 1) ∧
    ((0 : ℚ) ≤ 0 ∧ (0 : ℚ) < 6) ∧
    bmc_mesh_interpolate (mesh_three 6 3 (List.replicate 768 1)) 0 0 0 0 0 = 1 ∧
    interp_inside (mesh_three 6 3 (List.replicate 768 1))
      (interp_i_r (mesh_three 6 3 (List.replicate 768 1)) 0)
      (interp_i_z (mesh_three 6 3 (List.replicate 768 1)) 0)
      (interp_i_mom1 (mesh_three 6 3 (List.replicate 768 1)) 0)
      (interp_i_mom2 (mesh_three 6 3 (List.replicate 768 1)) 0) = true ∧
    interp_i_phi (mesh_three 6 3 (List.replicate 768 1)) (0 + (6 - 0)) = 4 ∧
    interp_i_phi1 (mesh_three 6 3 (List.replicate 768 1)) 4 = 5 ∧
    (mesh_three 6 3 (List.replicate 768 1)).phi.length = 3 ∧
    (mesh_three 6 3 (List.replicate 768 1)).phi[4]? = none ∧
    (mesh_three 6 3 (List.replicate 768 1)).phi[5]? = none := by
  have hi : interp_i_phi (mesh_three 6 3 (List.replicate 768 1)) (0 + (6 - 0)) = 4 :=
    mesh_three_phi_index (List.replicate 768 1) (0 + (6 - 0)) 4 (by decide) (by norm_num)
      (by norm_num)
  have hl : (mesh_three 6 3 (List.replicate 768 1)).phi.length = 3 :=
    store_abscissae_phi_length 0 6 3
  refine ⟨fun j hj => mesh_three_const 6 3 1 768 j hj, ⟨le_refl _, by norm_num⟩,
    mesh_three_wide_value, ?_, hi, rfl, hl, ?_, ?_⟩
  · rw [mesh_three_i_r 6 3 _ 0 (by norm_num) (by norm_num),
      mesh_three_i_z 6 3 _ 0 (by norm_num) (by norm_num),
      mesh_three_i_mom1 6 3 _ 0 (by norm_num) (by norm_num),
      mesh_three_i_mom2 6 3 _ 0 (by norm_num) (by norm_num)]
    exact mesh_three_inside 6 3 _
  · rw [List.getElem?_eq_none_iff, hl]
    decide
  · rw [List.getElem?_eq_none_iff, hl]
    decide

/-- The interpolation of a constant field at an interior query of a mesh built by
`bmc_mesh_init` from well-formed axis specifications is the constant, when
`n_phi = 1` or the phi spacing is at least `1` and `phi` lies below the last
stored phi abscissa. -/
theorem interpolate_const_interior (min_r max_r : ℚ) (n_r : Int) (min_phi max_phi : ℚ)
    (n_phi : Int) (min_z max_z : ℚ) (n_z : Int) (min_mom1 max_mom1 : ℚ) (n_mom1 : Int)
    (min_mom2 max_mom2 : ℚ) (n_mom2 : Int) (hc : counts_ok n_r n_phi n_z n_mom1 n_mom2)
    (hr : min_r < max_r) (hz : min_z < max_z) (hm1 : min_mom1 < max_mom1)
    (hm2 : min_mom2 < max_mom2) (c : ℚ) (vp : List ℚ) (mesh : bmc_mesh)
    (hmesh : mesh =
      { (init_mesh min_r max_r n_r min_phi max_phi n_phi min_z max_z n_z
          min_mom1 max_mom1 n_mom1 min_mom2 max_mom2 n_mom2) with val_prev := vp })
    (hconst : ∀ j : Nat, j < mesh.size → rd mesh.val_prev j = c)
    (r phi z mom1 mom2 : ℚ)
    (hir : (interp_i_r mesh r : Int) ≤ mesh.n_r - 3)
    (hiz : (interp_i_z mesh z : Int) ≤ mesh.n_z - 3)
    (him1 : (interp_i_mom1 mesh mom1 : Int) ≤ mesh.n_mom1 - 3)
    (him2 : (interp_i_mom2 mesh mom2 : Int) ≤ mesh.n_mom2 - 3)
    (hphi : n_phi = 1 ∨
      (1 ≤ (max_phi - min_phi) / ((n_phi : ℚ) + 1) ∧ min_phi ≤ phi ∧
        phi < min_phi + ((n_phi : ℚ) - 1) * ((max_phi - min_phi) / ((n_phi : ℚ) + 1)))) :
    bmc_mesh_interpolate mesh r phi z mom1 mom2 = c := by
  obtain ⟨Nr, Nz, Nphi, Nm1, Nm2, -, ⟨-, -, ephi, -, -⟩,
    ⟨-, -, kphi, -, -⟩, ⟨-, -, aphi, -, -⟩, -, hsize, -, ⟨-, -, l3, -, -⟩⟩ :=
    init_with_val_prev min_r max_r n_r min_phi max_phi n_phi min_z max_z n_z
      min_mom1 max_mom1 n_mom1 min_mom2 max_mom2 n_mom2 hc vp mesh hmesh
  rcases hphi with h1 | ⟨hD, hlo, hhi⟩
  · have hn1 : mesh.n_phi = 1 := by rw [ephi, kphi, h1]
    have hi0 : interp_i_phi mesh phi = 0 := by
      unfold interp_i_phi
      rw [if_pos hn1]
    have hp : interp_i_phi mesh phi < Nphi := by omega
    have hi1 : interp_i_phi1 mesh (interp_i_phi mesh phi) = 0 := by
      rw [(interp_i_phi1_lt mesh Nphi ephi l3 _ hp).2, hi0, if_pos (by omega)]
    rw [interpolate_const_init min_r max_r n_r min_phi max_phi n_phi min_z max_z n_z
      min_mom1 max_mom1 n_mom1 min_mom2 max_mom2 n_mom2 hc hr hz hm1 hm2 c vp mesh hmesh hconst
      r phi z mom1 mom2 hir hiz him1 him2 (by rw [ephi]; omega), if_pos hn1, hi1, hi0]
    simp only [sub_self, abs_zero]
    rw [max_eq_right (by norm_num : (0 : ℚ) ≤ 1)]
    simp
  · have hDpos : (0 : ℚ) < (max_phi - min_phi) / ((n_phi : ℚ) + 1) := by linarith
    have hq : (0 : ℚ) < (n_phi : ℚ) - 1 := by
      by_contra hneg
      push_neg at hneg
      have := mul_nonpos_of_nonpos_of_nonneg hneg hDpos.le
      linarith
    have h2 : 2 ≤ n_phi := by
      have : ((1 : Int) : ℚ) < (n_phi : ℚ) := by push_cast; linarith
      have : (1 : Int) < n_phi := by exact_mod_cast this
      omega
    have hidx := interp_i_phi_init mesh min_phi max_phi n_phi aphi (by rw [ephi, kphi])
      h2 (by omega) hDpos phi hlo hhi
    have hp : interp_i_phi mesh phi < Nphi := by omega
    have hne : ¬ mesh.n_phi = 1 := by rw [ephi, kphi]; omega
    have hi1 : interp_i_phi1 mesh (interp_i_phi mesh phi) = interp_i_phi mesh phi + 1 := by
      rw [(interp_i_phi1_lt mesh Nphi ephi l3 _ hp).2, if_neg (by omega)]
    have dP : rd mesh.phi (interp_i_phi mesh phi + 1) - rd mesh.phi (interp_i_phi mesh phi) =
        (max_phi - min_phi) / ((n_phi : ℚ) + 1) := by
      rw [aphi]; exact store_abscissae_phi_delta _ _ _ _ hidx
    rw [interpolate_const_init min_r max_r n_r min_phi max_phi n_phi min_z max_z n_z
      min_mom1 max_mom1 n_mom1 min_mom2 max_mom2 n_mom2 hc hr hz hm1 hm2 c vp mesh hmesh hconst
      r phi z mom1 mom2 hir hiz him1 him2 (by rw [ephi]; omega), if_neg hne, hi1, dP,
      abs_of_pos hDpos, max_eq_left hD, mul_div_assoc, div_self (ne_of_gt hDpos), mul_one]

theorem sum_map_const_mul (v : ℚ) (f : Nat → ℚ) (l : List Nat) :
    (l.map (fun k => v * f k)).sum = v * (l.map f).sum := by
  induction l with
  | nil => simp
  | cons a l ih => simp only [List.map_cons, List.sum_cons, ih]; ring

/-- The value of `val_next[i]` after `bmc_mesh_update` when every knot of the
element `i` has the same value `v`. -/
theorem update_val_next_uniform (K : Nat) (hermite_w : List ℚ) (mesh : bmc_mesh)
    (start stop : Nat) (r phi z mom1 mom2 : List ℚ) (fate : List Int)
    (hstop : stop < SIZE_MOD) (hrec : (stop - start) * K < SIZE_MOD)
    (hsz : stop ≤ mesh.val_next.length) (i : Nat) (hi1 : start ≤ i) (hi2 : i < stop)
    (v : ℚ)
    (hv : ∀ k : Nat, k < K →
      knot_value mesh r phi z mom1 mom2 fate ((i - start) * K + k) = v) :
    (bmc_mesh_update K hermite_w mesh start stop r phi z mom1 mom2 fate).val_next[i]? =
      some (rd mesh.val_next i + v * ((List.range K).map (fun k => rd hermite_w k)).sum) := by
  rw [update_val_next_eq K hermite_w mesh start stop r phi z mom1 mom2 fate hstop hrec hsz
    i hi1 hi2, ← sum_map_const_mul]
  refine congrArg (fun s => some (rd mesh.val_next i + s))
    (congrArg List.sum (List.map_congr_left ?_))
  intro k hk
  rw [hv k (List.mem_range.mp hk)]

theorem knot_value_in_flight (mesh : bmc_mesh) (r phi z mom1 mom2 : List ℚ)
    (fate : List Int) (j : Nat) (hf : fate.getD j 0 = 0) :
    knot_value mesh r phi z mom1 mom2 fate j =
      bmc_mesh_interpolate mesh (rd r j) (rd phi j) (rd z j) (rd mom1 j) (rd mom2 j) := by
  rw [knot_value_eq, hf]
  simp

/-- Claim C14, as amended: for a `bmc_mesh_update` on a mesh built by
`bmc_mesh_init` from well-formed axis specifications, with `val_prev` equal to
the constant `c` everywhere and `val_next` zero beforehand, if every knot of the
element `i` has fate `0` and an endpoint whose index on each non-periodic axis is
at most `n_a - 3`, and `n_phi = 1` or the phi spacing `(max_phi - min_phi) /
(n_phi + 1)` is at least `1` and the endpoint's phi lies in `[phi[0],
phi[n_phi - 1])`, and the Hermite weights sum to `1`, then afterwards
`val_next[i] = c * (sum of w_k) = c`. -/
theorem C14_update_constant (min_r max_r : ℚ) (n_r : Int) (min_phi max_phi : ℚ)
    (n_phi : Int) (min_z max_z : ℚ) (n_z : Int) (min_mom1 max_mom1 : ℚ) (n_mom1 : Int)
    (min_mom2 max_mom2 : ℚ) (n_mom2 : Int) (hc : counts_ok n_r n_phi n_z n_mom1 n_mom2)
    (hr : min_r < max_r) (hz : min_z < max_z) (hm1 : min_mom1 < max_mom1)
    (hm2 : min_mom2 < max_mom2) (c : ℚ) (mesh : bmc_mesh)
    (hmesh : mesh =
      { (init_mesh min_r max_r n_r min_phi max_phi n_phi min_z max_z n_z
          min_mom1 max_mom1 n_mom1 min_mom2 max_mom2 n_mom2) with
        val_prev := List.replicate (init_mesh min_r max_r n_r min_phi max_phi n_phi
          min_z max_z n_z min_mom1 max_mom1 n_mom1 min_mom2 max_mom2 n_mom2).size c
        val_next := List.replicate (init_mesh min_r max_r n_r min_phi max_phi n_phi
          min_z max_z n_z min_mom1 max_mom1 n_mom1 min_mom2 max_mom2 n_mom2).size 0 })
    (K : Nat) (hermite_w : List ℚ)
    (hw : ((List.range K).map (fun k => rd hermite_w k)).sum = 1)
    (start stop : Nat) (r phi z mom1 mom2 : List ℚ) (fate : List Int)
    (hstop : stop ≤ mesh.size) (hrec : (stop - start) * K < SIZE_MOD)
    (i : Nat) (hi1 : start ≤ i) (hi2 : i < stop)
    (hfate : ∀ k : Nat, k < K → fate.getD ((i - start) * K + k) 0 = 0)
    (hcell : ∀ k : Nat, k < K →
      (interp_i_r mesh (rd r ((i - start) * K + k)) : Int) ≤ mesh.n_r - 3 ∧
      (interp_i_z mesh (rd z ((i - start) * K + k)) : Int) ≤ mesh.n_z - 3 ∧
      (interp_i_mom1 mesh (rd mom1 ((i - start) * K + k)) : Int) ≤ mesh.n_mom1 - 3 ∧
      (interp_i_mom2 mesh (rd mom2 ((i - start) * K + k)) : Int) ≤ mesh.n_mom2 - 3 ∧
      (n_phi = 1 ∨
        (1 ≤ (max_phi - min_phi) / ((n_phi : ℚ) + 1) ∧
          min_phi ≤ rd phi ((i - start) * K + k) ∧
          rd phi ((i - start) * K + k) <
            min_phi + ((n_phi : ℚ) - 1) * ((max_phi - min_phi) / ((n_phi : ℚ) + 1))))) :
    (bmc_mesh_update K hermite_w mesh start stop r phi z mom1 mom2 fate).val_next[i]? =
      some (c * ((List.range K).map (fun k => rd hermite_w k)).sum) ∧
    (bmc_mesh_update K hermite_w mesh start stop r phi z mom1 mom2 fate).val_next[i]? =
      some c := by
  obtain ⟨m0, hm0⟩ : ∃ m0 : bmc_mesh, m0 =
      { (init_mesh min_r max_r n_r min_phi max_phi n_phi min_z max_z n_z
          min_mom1 max_mom1 n_mom1 min_mom2 max_mom2 n_mom2) with
        val_prev := List.replicate (init_mesh min_r max_r n_r min_phi max_phi n_phi
          min_z max_z n_z min_mom1 max_mom1 n_mom1 min_mom2 max_mom2 n_mom2).size c } :=
    ⟨_, rfl⟩
  obtain ⟨Nr, Nz, Nphi, Nm1, Nm2, -, -, -, -, avp, hsize, hfit, -⟩ :=
    init_with_val_prev min_r max_r n_r min_phi max_phi n_phi min_z max_z n_z
      min_mom1 max_mom1 n_mom1 min_mom2 max_mom2 n_mom2 hc _ m0 hm0
  have hrel : mesh = { m0 with val_next := List.replicate m0.size 0 } := by
    rw [hmesh, hm0]
  have hsz : m0.size = (init_mesh min_r max_r n_r min_phi max_phi n_phi
      min_z max_z n_z min_mom1 max_mom1 n_mom1 min_mom2 max_mom2 n_mom2).size := by
    rw [hm0]
  have hms : mesh.size = m0.size := by rw [hrel]
  have hconst : ∀ j : Nat, j < m0.size → rd m0.val_prev j = c := by
    intro j hj
    rw [avp, rd_replicate _ _ _ (hsz ▸ hj)]
  have hvn : mesh.val_next = List.replicate mesh.size 0 := by rw [hrel]
  have hint : ∀ a b d e f : ℚ,
      bmc_mesh_interpolate mesh a b d e f = bmc_mesh_interpolate m0 a b d e f := by
    intro a b d e f
    rw [hrel]
    rfl
  have hv : ∀ k : Nat, k < K →
      knot_value mesh r phi z mom1 mom2 fate ((i - start) * K + k) = c := by
    intro k hk
    obtain ⟨a1, a2, a3, a4, a5⟩ := hcell k hk
    rw [hrel] at a1 a2 a3 a4
    rw [knot_value_in_flight mesh r phi z mom1 mom2 fate _ (hfate k hk), hint]
    exact interpolate_const_interior min_r max_r n_r min_phi max_phi n_phi min_z max_z n_z
      min_mom1 max_mom1 n_mom1 min_mom2 max_mom2 n_mom2 hc hr hz hm1 hm2 c _ m0 hm0 hconst
      _ _ _ _ _ a1 a2 a3 a4 a5
  have h := update_val_next_uniform K hermite_w mesh start stop r phi z mom1 mom2 fate
    (lt_of_le_of_lt hstop (by rw [hms, hsize]; exact hfit)) hrec
    (by rw [hvn, List.length_replicate]; exact hstop) i hi1 hi2 c hv
  rw [hvn, rd_replicate _ _ _ (lt_of_lt_of_le hi2 hstop), zero_add] at h
  refine ⟨h, ?_⟩
  rw [h, hw, mul_one]

/-- The constant field `1` on the mesh of counts `3` with phi range `[0, 1]`
(phi spacing `1/4`) interpolates to `1/4` at the query `(0, 0, 0, 0, 0)`. -/
theorem mesh_three_narrow_value :
    bmc_mesh_interpolate (mesh_three 1 3 (List.replicate 768 1)) 0 0 0 0 0 = 1 / 4 := by
  obtain ⟨p0, p1, pd⟩ := mesh_three_phi_cell 1 (List.replicate 768 1) (by norm_num)
  rw [interpolate_const_init 0 1 3 0 1 3 0 1 3 0 1 3 0 1 3
    ⟨by decide, by decide, by decide, by decide, by decide, by decide⟩
    (by norm_num) (by norm_num) (by norm_num) (by norm_num) 1 (List.replicate 768 1)
    (mesh_three 1 3 (List.replicate 768 1)) rfl
    (fun j hj => mesh_three_const 1 3 1 768 j hj) 0 0 0 0 0
    (by rw [mesh_three_i_r 1 3 _ 0 (by norm_num) (by norm_num)]; decide)
    (by rw [mesh_three_i_z 1 3 _ 0 (by norm_num) (by norm_num)]; decide)
    (by rw [mesh_three_i_mom1 1 3 _ 0 (by norm_num) (by norm_num)]; decide)
    (by rw [mesh_three_i_mom2 1 3 _ 0 (by norm_num) (by norm_num)]; decide)
    (by rw [p0]; decide)]
  rw [if_neg (show ¬ (mesh_three 1 3 (List.replicate 768 1)).n_phi = 1 by decide), p0, p1, pd]
  rw [abs_of_pos (by norm_num), max_eq_right (by norm_num)]
  norm_num

theorem one_knot_weight : ((List.range 1).map (fun k => rd [1] k)).sum = 1 := by
  simp [rd, List.range, List.range.loop]

/-- Counterexample to C14 as stated: on the mesh of counts `3` with phi range
`[0, 1]` (phi spacing `1/4`), `val_prev` equal to `1` everywhere and `val_next`
zero, one knot of weight `1` and fate `0` whose endpoint `(0, 0, 0, 0, 0)` lies in
the interior cell of indices `0`, the update of element `0` leaves
`val_next[0] = 1/4`, not `1`. -/
theorem C14_counterexample :
    ((List.range 1).map (fun k => rd [1] k)).sum = 1 ∧
    ([0] : List Int).getD 0 0 = 0 ∧
    (interp_i_r (mesh_three 1 3 (List.replicate 768 1)) 0 : Int) ≤
      (mesh_three 1 3 (List.replicate 768 1)).n_r - 3 ∧
    (interp_i_z (mesh_three 1 3 (List.replicate 768 1)) 0 : Int) ≤
      (mesh_three 1 3 (List.replicate 768 1)).n_z - 3 ∧
    (interp_i_mom1 (mesh_three 1 3 (List.replicate 768 1)) 0 : Int) ≤
      (mesh_three 1 3 (List.replicate 768 1)).n_mom1 - 3 ∧
    (interp_i_mom2 (mesh_three 1 3 (List.replicate 768 1)) 0 : Int) ≤
      (mesh_three 1 3 (List.replicate 768 1)).n_mom2 - 3 ∧
    interp_i_phi (mesh_three 1 3 (List.replicate 768 1)) 0 = 0 ∧
    (mesh_three 1 3 (List.replicate 768 1)).val_next[0]? = some 0 ∧
    (bmc_mesh_update 1 [1] (mesh_three 1 3 (List.replicate 768 1)) 0 1
      [0] [0] [0] [0] [0] [0]).val_next[0]? = some (1 / 4) := by
  obtain ⟨p0, -, -⟩ := mesh_three_phi_cell 1 (List.replicate 768 1) (by norm_num)
  have hvn : (mesh_three 1 3 (List.replicate 768 1)).val_next[0]? = some 0 := by
    show (List.replicate (init_mesh 0 1 3 0 1 3 0 1 3 0 1 3 0 1 3).size (0 : ℚ))[0]? = _
    exact List.getElem?_replicate_of_lt (by decide)
  refine ⟨one_knot_weight, rfl, ?_, ?_, ?_, ?_, p0, hvn, ?_⟩
  · rw [mesh_three_i_r 1 3 _ 0 (by norm_num) (by norm_num)]; decide
  · rw [mesh_three_i_z 1 3 _ 0 (by norm_num) (by norm_num)]; decide
  · rw [mesh_three_i_mom1 1 3 _ 0 (by norm_num) (by norm_num)]; decide
  · rw [mesh_three_i_mom2 1 3 _ 0 (by norm_num) (by norm_num)]; decide
  · have hv : ∀ k : Nat, k < 1 →
        knot_value (mesh_three 1 3 (List.replicate 768 1)) [0] [0] [0] [0] [0] [0]
          ((0 - 0) * 1 + k) = 1 / 4 := by
      intro k hk
      have hk0 : k = 0 := by omega
      subst hk0
      rw [knot_value_in_flight (mesh_three 1 3 (List.replicate 768 1)) [0] [0] [0] [0] [0] [0]
        ((0 - 0) * 1 + 0) (show ([0] : List Int).getD ((0 - 0) * 1 + 0) 0 = 0 from rfl)]
      exact mesh_three_narrow_value
    have h := update_val_next_uniform 1 [1] (mesh_three 1 3 (List.replicate 768 1)) 0 1
      [0] [0] [0] [0] [0] [0] (by decide) (by decide)
      (by show 1 ≤ (List.replicate 768 (0 : ℚ)).length; rw [List.length_replicate]; decide)
      0 (le_refl _) (by decide)
      (1 / 4) hv
    rw [h, one_knot_weight]
    have h0 : rd (mesh_three 1 3 (List.replicate 768 1)).val_next 0 = 0 :=
      rd_replicate 768 0 0 (by decide)
    rw [h0]
    norm_num

/-- Witness of C14 on the mesh of counts `3` with phi range `[0, 6]` and
`val_prev` equal to `7/10`: one knot of weight `1` with endpoint `(0, 0, 0, 0, 0)`. -/
theorem C14_update_constant_witness :
    (bmc_mesh_update 1 [1] (mesh_three 6 3 (List.replicate
      (init_mesh 0 1 3 0 6 3 0 1 3 0 1 3 0 1 3).size (7 / 10))) 0 1
      [0] [0] [0] [0] [0] [0]).val_next[0]? = some (7 / 10) :=
  (C14_update_constant 0 1 3 0 6 3 0 1 3 0 1 3 0 1 3
    ⟨by decide, by decide, by decide, by decide, by decide, by decide⟩
    (by norm_num) (by norm_num) (by norm_num) (by norm_num) (7 / 10)
    (mesh_three 6 3 (List.replicate
      (init_mesh 0 1 3 0 6 3 0 1 3 0 1 3 0 1 3).size (7 / 10))) rfl
    1 [1] one_knot_weight 0 1 [0] [0] [0] [0] [0] [0] (by decide) (by decide) 0 (le_refl _)
    (by decide) (fun k hk => by
      have hk0 : k = 0 := by omega
      subst hk0
      rfl)
    (fun k hk => by
      have hk0 : k = 0 := by omega
      subst hk0
      have e : rd ([0] : List ℚ) ((0 - 0) * 1 + 0) = 0 := rfl
      rw [e]
      refine ⟨?_, ?_, ?_, ?_, Or.inr ⟨by norm_num, le_refl _, by norm_num⟩⟩
      · rw [mesh_three_i_r 6 3 _ 0 (by norm_num) (by norm_num)]; decide
      · rw [mesh_three_i_z 6 3 _ 0 (by norm_num) (by norm_num)]; decide
      · rw [mesh_three_i_mom1 6 3 _ 0 (by norm_num) (by norm_num)]; decide
      · rw [mesh_three_i_mom2 6 3 _ 0 (by norm_num) (by norm_num)]; decide)).2

theorem rdi_eq_rd (l : List ℚ) (k : Nat) : rdi l (k : Int) = rd l k := by
  simp [rdi, rd]

/-- The index computed by `bmc_mesh_interpolate` at a stored abscissa of a
non-periodic axis is the index of the abscissa. -/
theorem axis_index_vertex (min max : ℚ) (n : Int) (hn : 0 < n) (hmm : min < max) (k : Nat)
    (hk : (k : Int) ≤ n) (hks : k < SIZE_MOD) :
    size_of_real ((rd (store_abscissae min max n) k - rd (store_abscissae min max n) 0) /
      (rd (store_abscissae min max n) 1 - rd (store_abscissae min max n) 0)) = k := by
  have hD : (0 : ℚ) < (max - min) / (n : ℚ) := div_pos (by linarith) (by exact_mod_cast hn)
  have e : rd (store_abscissae min max n) k = min + (k : ℚ) * ((max - min) / (n : ℚ)) := by
    rw [rd_store_abscissae min max n k hk]; ring
  exact axis_index min max n hn hmm _ k hks (by rw [e]) (by rw [e]; linarith)

/-- The value buffers of a mesh built by `bmc_mesh_init` with at most `INT_MAX`
elements hold `size` zeros: the byte count `size * sizeof(real)` does not wrap. -/
theorem init_buffers_of_int (min_r max_r : ℚ) (n_r : Int) (min_phi max_phi : ℚ)
    (n_phi : Int) (min_z max_z : ℚ) (n_z : Int) (min_mom1 max_mom1 : ℚ) (n_mom1 : Int)
    (min_mom2 max_mom2 : ℚ) (n_mom2 : Int) (mesh : bmc_mesh)
    (hmesh : mesh = init_mesh min_r max_r n_r min_phi max_phi n_phi min_z max_z n_z
      min_mom1 max_mom1 n_mom1 min_mom2 max_mom2 n_mom2)
    (hint : (mesh.size : Int) ≤ INT_MAX) :
    mesh.val_next = List.replicate mesh.size 0 ∧ mesh.val_prev = List.replicate mesh.size 0 := by
  have hlt : mesh.size * 8 < SIZE_MOD := by
    unfold INT_MAX at hint
    unfold SIZE_MOD
    omega
  have hlen : mul64 mesh.size SIZEOF_REAL / SIZEOF_REAL = mesh.size := by
    show mul64 mesh.size 8 / 8 = mesh.size
    rw [mul64_eq _ _ hlt]
    exact Nat.mul_div_cancel _ (by decide)
  have h1 : mesh.val_next = List.replicate (mul64 mesh.size SIZEOF_REAL / SIZEOF_REAL) 0 := by
    rw [hmesh]; rfl
  have h2 : mesh.val_prev = List.replicate (mul64 mesh.size SIZEOF_REAL / SIZEOF_REAL) 0 := by
    rw [hmesh]; rfl
  rw [hlen] at h1 h2
  exact ⟨h1, h2⟩

/-- The interpolation of a constant field at the vertex of index `i` of a mesh
built by `bmc_mesh_init` from well-formed axis specifications: the constant at an
interior vertex, and `0` at a vertex whose index on some non-periodic axis is
`n_a - 2` or `n_a - 1`. -/
theorem interpolate_const_at_vertex (min_r max_r : ℚ) (n_r : Int) (min_phi max_phi : ℚ)
    (n_phi : Int) (min_z max_z : ℚ) (n_z : Int) (min_mom1 max_mom1 : ℚ) (n_mom1 : Int)
    (min_mom2 max_mom2 : ℚ) (n_mom2 : Int) (hc : counts_ok n_r n_phi n_z n_mom1 n_mom2)
    (hr : min_r < max_r) (hz : min_z < max_z) (hm1 : min_mom1 < max_mom1)
    (hm2 : min_mom2 < max_mom2) (c : ℚ) (vp : List ℚ) (mesh : bmc_mesh)
    (hmesh : mesh =
      { (init_mesh min_r max_r n_r min_phi max_phi n_phi min_z max_z n_z
          min_mom1 max_mom1 n_mom1 min_mom2 max_mom2 n_mom2) with val_prev := vp })
    (hconst : ∀ j : Nat, j < mesh.size → rd mesh.val_prev j = c)
    (hint : (mesh.size : Int) ≤ INT_MAX) (i : Nat) (hi : i < mesh.size) :
    (((index2pos_indices mesh i).1 ≤ mesh.n_r - 3 ∧
      (index2pos_indices mesh i).2.2.1 ≤ mesh.n_z - 3 ∧
      (index2pos_indices mesh i).2.2.2.1 ≤ mesh.n_mom1 - 3 ∧
      (index2pos_indices mesh i).2.2.2.2 ≤ mesh.n_mom2 - 3 ∧
      (n_phi = 1 ∨ (1 ≤ (max_phi - min_phi) / ((n_phi : ℚ) + 1) ∧
        (index2pos_indices mesh i).2.1 ≤ mesh.n_phi - 2))) →
      bmc_mesh_interpolate mesh (bmc_mesh_index2pos mesh i).1 (bmc_mesh_index2pos mesh i).2.1
        (bmc_mesh_index2pos mesh i).2.2.1 (bmc_mesh_index2pos mesh i).2.2.2.1
        (bmc_mesh_index2pos mesh i).2.2.2.2 = c) ∧
    ((mesh.n_r - 2 ≤ (index2pos_indices mesh i).1 ∨
      mesh.n_z - 2 ≤ (index2pos_indices mesh i).2.2.1 ∨
      mesh.n_mom1 - 2 ≤ (index2pos_indices mesh i).2.2.2.1 ∨
      mesh.n_mom2 - 2 ≤ (index2pos_indices mesh i).2.2.2.2) →
      bmc_mesh_interpolate mesh (bmc_mesh_index2pos mesh i).1 (bmc_mesh_index2pos mesh i).2.1
        (bmc_mesh_index2pos mesh i).2.2.1 (bmc_mesh_index2pos mesh i).2.2.2.1
        (bmc_mesh_index2pos mesh i).2.2.2.2 = 0) := by
  obtain ⟨Nr, Nz, Nphi, Nm1, Nm2, ⟨b1, b2, b3, b4, b5⟩, ⟨er, ez, ephi, em1, em2⟩,
    ⟨kr, kz, kphi, km1, km2⟩, ⟨ar, az, aphi, am1, am2⟩, -, hsize, hfit, ⟨l1, l2, l3, l4, l5⟩⟩ :=
    init_with_val_prev min_r max_r n_r min_phi max_phi n_phi min_z max_z n_z
      min_mom1 max_mom1 n_mom1 min_mom2 max_mom2 n_mom2 hc vp mesh hmesh
  obtain ⟨c1, c2, c3, c4, c5, -⟩ := id hc
  have h0 : 0 < Nr * Nz * Nphi * Nm1 := by positivity
  have hi' : i < Nr * Nz * Nphi * Nm1 * Nm2 := hsize ▸ hi
  rw [hsize] at hint
  have hle : Nr * Nz * Nphi * Nm1 ≤ Nr * Nz * Nphi * Nm1 * Nm2 :=
    Nat.le_mul_of_pos_right _ (by omega)
  have hP : ((Nr * Nz * Nphi * Nm1 : Nat) : Int) ≤ INT_MAX :=
    le_trans (by exact_mod_cast hle) hint
  have ht := index2pos_indices_nat mesh Nr Nz Nphi Nm1 er ez ephi em1 i
    (le_trans (by exact_mod_cast hi'.le) hint) hP h0
  obtain ⟨u1, u2, u3, u4, u5, -⟩ := unlin_bounds Nr Nz Nphi Nm1 Nm2 i h0 hi'
  generalize i % (Nr * Nz * Nphi * Nm1) % (Nr * Nz * Nphi) % (Nr * Nz) % Nr = a at ht u1
  generalize i % (Nr * Nz * Nphi * Nm1) % (Nr * Nz * Nphi) / (Nr * Nz) = p at ht u2
  generalize i % (Nr * Nz * Nphi * Nm1) % (Nr * Nz * Nphi) % (Nr * Nz) / Nr = b at ht u3
  generalize i % (Nr * Nz * Nphi * Nm1) / (Nr * Nz * Nphi) = d at ht u4
  generalize i / (Nr * Nz * Nphi * Nm1) = e at ht u5
  have hco : bmc_mesh_index2pos mesh i =
      (rd mesh.r a, rd mesh.phi p, rd mesh.z b, rd mesh.mom1 d, rd mesh.mom2 e) := by
    unfold bmc_mesh_index2pos
    simp only [ht, rdi_eq_rd]
  rw [hco, ht, er, ez, ephi, em1, em2]
  simp only
  have iR : interp_i_r mesh (rd mesh.r a) = a := by
    unfold interp_i_r
    rw [ar]
    exact axis_index_vertex min_r max_r n_r c1 hr a (by omega) (by omega)
  have iZ : interp_i_z mesh (rd mesh.z b) = b := by
    unfold interp_i_z
    rw [az]
    exact axis_index_vertex min_z max_z n_z c3 hz b (by omega) (by omega)
  have iM1 : interp_i_mom1 mesh (rd mesh.mom1 d) = d := by
    unfold interp_i_mom1
    rw [am1]
    exact axis_index_vertex min_mom1 max_mom1 n_mom1 c4 hm1 d (by omega) (by omega)
  have iM2 : interp_i_mom2 mesh (rd mesh.mom2 e) = e := by
    unfold interp_i_mom2
    rw [am2]
    exact axis_index_vertex min_mom2 max_mom2 n_mom2 c5 hm2 e (by omega) (by omega)
  constructor
  · rintro ⟨g1, g2, g3, g4, g5⟩
    refine interpolate_const_interior min_r max_r n_r min_phi max_phi n_phi min_z max_z n_z
      min_mom1 max_mom1 n_mom1 min_mom2 max_mom2 n_mom2 hc hr hz hm1 hm2 c vp mesh hmesh hconst
      _ _ _ _ _ (by rw [iR, er]; exact g1) (by rw [iZ, ez]; exact g2)
      (by rw [iM1, em1]; exact g3) (by rw [iM2, em2]; exact g4) ?_
    rcases g5 with g5 | ⟨hD, g5⟩
    · exact Or.inl g5
    · right
      have hDpos : (0 : ℚ) < (max_phi - min_phi) / ((n_phi : ℚ) + 1) := by linarith
      have vP : rd mesh.phi p =
          min_phi + (p : ℚ) * ((max_phi - min_phi) / ((n_phi : ℚ) + 1)) := by
        rw [aphi, rd_store_abscissae_phi _ _ _ _ (by omega)]; ring
      have hpq : (p : ℚ) + 1 ≤ (n_phi : ℚ) - 1 := by
        have : ((p : Int) : ℚ) ≤ ((n_phi - 2 : Int) : ℚ) := by
          exact_mod_cast (by omega : (p : Int) ≤ n_phi - 2)
        push_cast at this
        linarith
      refine ⟨hD, ?_, ?_⟩
      · rw [vP]
        have : (0 : ℚ) ≤ (p : ℚ) * ((max_phi - min_phi) / ((n_phi : ℚ) + 1)) :=
          mul_nonneg (Nat.cast_nonneg p) hDpos.le
        linarith
      · rw [vP]
        have : ((p : ℚ) + 1) * ((max_phi - min_phi) / ((n_phi : ℚ) + 1)) ≤
            ((n_phi : ℚ) - 1) * ((max_phi - min_phi) / ((n_phi : ℚ) + 1)) :=
          mul_le_mul_of_nonneg_right hpq hDpos.le
        nlinarith
  · intro g
    apply interpolate_outside
    rw [iR, iZ, iM1, iM2]
    by_contra hne
    rw [Bool.not_eq_false] at hne
    have := (inside_bounds mesh Nr Nz Nm1 Nm2 er ez em1 em2 b1 b2 b4 b5 l1 l2 l4 l5
      a b d e).mp hne
    omega

theorem rd_vertex_endpoints (mesh : bmc_mesh) (K : Nat) (sel : ℚ × ℚ × ℚ × ℚ × ℚ → ℚ)
    (i k : Nat) (hi : i < mesh.size) (hk : k < K) :
    rd (vertex_endpoints mesh K sel) (i * K + k) = sel (bmc_mesh_index2pos mesh i) := by
  have hlt : i * K + k < mesh.size * K := by
    calc i * K + k < i * K + K := by omega
      _ = (i + 1) * K := by ring
      _ ≤ mesh.size * K := Nat.mul_le_mul_right K hi
  have hdiv : (i * K + k) / K = i := by
    rw [Nat.mul_comm, Nat.mul_add_div (by omega), Nat.div_eq_of_lt hk, Nat.add_zero]
  unfold vertex_endpoints rd
  rw [List.getD_eq_getElem?_getD, List.getElem?_map, List.getElem?_range hlt]
  simp only [Option.map_some', Option.getD_some, hdiv]

theorem getD_replicate_zero (n j : Nat) : (List.replicate n (0 : Int)).getD j 0 = 0 := by
  rw [List.getD_eq_getElem?_getD, List.getElem?_replicate]
  split <;> rfl

/-- The value of `val_next[i]` after the update of an identity step with a
constant field: every knot of the element `i` ends at the vertex of `i` with fate
`0`. -/
theorem identity_step_val_next (min_r max_r : ℚ) (n_r : Int) (min_phi max_phi : ℚ)
    (n_phi : Int) (min_z max_z : ℚ) (n_z : Int) (min_mom1 max_mom1 : ℚ) (n_mom1 : Int)
    (min_mom2 max_mom2 : ℚ) (n_mom2 : Int) (hc : counts_ok n_r n_phi n_z n_mom1 n_mom2)
    (hr : min_r < max_r) (hz : min_z < max_z) (hm1 : min_mom1 < max_mom1)
    (hm2 : min_mom2 < max_mom2) (c : ℚ) (mesh : bmc_mesh)
    (hmesh : mesh =
      { (init_mesh min_r max_r n_r min_phi max_phi n_phi min_z max_z n_z
          min_mom1 max_mom1 n_mom1 min_mom2 max_mom2 n_mom2) with
        val_prev := List.replicate (init_mesh min_r max_r n_r min_phi max_phi n_phi
          min_z max_z n_z min_mom1 max_mom1 n_mom1 min_mom2 max_mom2 n_mom2).size c })
    (hint : (mesh.size : Int) ≤ INT_MAX)
    (K : Nat) (hermite_w : List ℚ) (r phi z mom1 mom2 : List ℚ) (fate : List Int)
    (hrec : mesh.size * K < SIZE_MOD)
    (hend : ∀ i k : Nat, i < mesh.size → k < K →
      rd r (i * K + k) = (bmc_mesh_index2pos mesh i).1 ∧
      rd phi (i * K + k) = (bmc_mesh_index2pos mesh i).2.1 ∧
      rd z (i * K + k) = (bmc_mesh_index2pos mesh i).2.2.1 ∧
      rd mom1 (i * K + k) = (bmc_mesh_index2pos mesh i).2.2.2.1 ∧
      rd mom2 (i * K + k) = (bmc_mesh_index2pos mesh i).2.2.2.2)
    (hfate : ∀ i k : Nat, i < mesh.size → k < K → fate.getD (i * K + k) 0 = 0)
    (i : Nat) (hi : i < mesh.size) :
    (((index2pos_indices mesh i).1 ≤ mesh.n_r - 3 ∧
      (index2pos_indices mesh i).2.2.1 ≤ mesh.n_z - 3 ∧
      (index2pos_indices mesh i).2.2.2.1 ≤ mesh.n_mom1 - 3 ∧
      (index2pos_indices mesh i).2.2.2.2 ≤ mesh.n_mom2 - 3 ∧
      (n_phi = 1 ∨ (1 ≤ (max_phi - min_phi) / ((n_phi : ℚ) + 1) ∧
        (index2pos_indices mesh i).2.1 ≤ mesh.n_phi - 2))) →
      (bmc_mesh_update K hermite_w mesh 0 mesh.size r phi z mom1 mom2 fate).val_next[i]? =
        some (c * ((List.range K).map (fun k => rd hermite_w k)).sum)) ∧
    ((mesh.n_r - 2 ≤ (index2pos_indices mesh i).1 ∨
      mesh.n_z - 2 ≤ (index2pos_indices mesh i).2.2.1 ∨
      mesh.n_mom1 - 2 ≤ (index2pos_indices mesh i).2.2.2.1 ∨
      mesh.n_mom2 - 2 ≤ (index2pos_indices mesh i).2.2.2.2) →
      (bmc_mesh_update K hermite_w mesh 0 mesh.size r phi z mom1 mom2 fate).val_next[i]? =
        some 0) := by
  obtain ⟨Nr, Nz, Nphi, Nm1, Nm2, -, -, -, -, avp, hsize, hfit, -⟩ :=
    init_with_val_prev min_r max_r n_r min_phi max_phi n_phi min_z max_z n_z
      min_mom1 max_mom1 n_mom1 min_mom2 max_mom2 n_mom2 hc _ mesh hmesh
  have hsz : mesh.size = (init_mesh min_r max_r n_r min_phi max_phi n_phi
      min_z max_z n_z min_mom1 max_mom1 n_mom1 min_mom2 max_mom2 n_mom2).size := by
    rw [hmesh]
  have hconst : ∀ j : Nat, j < mesh.size → rd mesh.val_prev j = c := by
    intro j hj
    rw [avp, rd_replicate _ _ _ (hsz ▸ hj)]
  have hvn : mesh.val_next = List.replicate mesh.size 0 := by
    have h := (init_buffers_of_int min_r max_r n_r min_phi max_phi n_phi min_z max_z n_z
      min_mom1 max_mom1 n_mom1 min_mom2 max_mom2 n_mom2 _ rfl (by rw [← hsz]; exact hint)).1
    rw [hsz]
    rw [hmesh]
    exact h
  obtain ⟨hinr, hbnd⟩ := interpolate_const_at_vertex min_r max_r n_r min_phi max_phi n_phi
    min_z max_z n_z min_mom1 max_mom1 n_mom1 min_mom2 max_mom2 n_mom2 hc hr hz hm1 hm2 c _
    mesh hmesh hconst hint i hi
  have hkv : ∀ k : Nat, k < K →
      knot_value mesh r phi z mom1 mom2 fate ((i - 0) * K + k) =
        bmc_mesh_interpolate mesh (bmc_mesh_index2pos mesh i).1
          (bmc_mesh_index2pos mesh i).2.1 (bmc_mesh_index2pos mesh i).2.2.1
          (bmc_mesh_index2pos mesh i).2.2.2.1 (bmc_mesh_index2pos mesh i).2.2.2.2 := by
    intro k hk
    obtain ⟨e1, e2, e3, e4, e5⟩ := hend i k hi hk
    rw [Nat.sub_zero, knot_value_in_flight mesh r phi z mom1 mom2 fate _ (hfate i k hi hk),
      e1, e2, e3, e4, e5]
  have hup : ∀ v : ℚ,
      bmc_mesh_interpolate mesh (bmc_mesh_index2pos mesh i).1
          (bmc_mesh_index2pos mesh i).2.1 (bmc_mesh_index2pos mesh i).2.2.1
          (bmc_mesh_index2pos mesh i).2.2.2.1 (bmc_mesh_index2pos mesh i).2.2.2.2 = v →
      (bmc_mesh_update K hermite_w mesh 0 mesh.size r phi z mom1 mom2 fate).val_next[i]? =
        some (v * ((List.range K).map (fun k => rd hermite_w k)).sum) := by
    intro v hv
    have h := update_val_next_uniform K hermite_w mesh 0 mesh.size r phi z mom1 mom2 fate
      (by rw [hsize]; exact hfit) (by rw [Nat.sub_zero]; exact hrec)
      (by rw [hvn, List.length_replicate]) i (Nat.zero_le i) hi v
      (fun k hk => (hkv k hk).trans hv)
    rw [hvn, rd_replicate _ _ _ hi, zero_add] at h
    exact h
  constructor
  · intro g
    exact hup c (hinr g)
  · intro g
    rw [hup 0 (hbnd g), zero_mul]

/-- Claim C15, as amended: on a mesh built by `bmc_mesh_init` from well-formed
axis specifications, with at most `INT_MAX` elements (so that every `int` result
of `bmc_mesh_index2pos` is representable), with `val_prev` equal to the constant
`c` at every index and `val_next` zero, if `bmc_mesh_update` is run over
`[0, size)` with every knot's endpoint equal to the coordinates of its own mesh
vertex and every fate `0`, and the Hermite weights sum to `1`, then after
`bmc_mesh_finishstep` `val_prev[i] = c` for every index `i` whose vertex has index
at most `n_a - 3` on each non-periodic axis, provided `n_phi = 1` or the phi
spacing `(max_phi - min_phi) / (n_phi + 1)` is at least `1` and the phi index of
the vertex is at most `n_phi - 2`; and `val_prev[i] = 0` for every index `i` whose
vertex is the last one, of index `n_a - 1`, on some non-periodic axis. -/
theorem C15_identity_step (min_r max_r : ℚ) (n_r : Int) (min_phi max_phi : ℚ)
    (n_phi : Int) (min_z max_z : ℚ) (n_z : Int) (min_mom1 max_mom1 : ℚ) (n_mom1 : Int)
    (min_mom2 max_mom2 : ℚ) (n_mom2 : Int) (hc : counts_ok n_r n_phi n_z n_mom1 n_mom2)
    (hr : min_r < max_r) (hz : min_z < max_z) (hm1 : min_mom1 < max_mom1)
    (hm2 : min_mom2 < max_mom2) (c : ℚ) (mesh : bmc_mesh)
    (hmesh : mesh =
      { (init_mesh min_r max_r n_r min_phi max_phi n_phi min_z max_z n_z
          min_mom1 max_mom1 n_mom1 min_mom2 max_mom2 n_mom2) with
        val_prev := List.replicate (init_mesh min_r max_r n_r min_phi max_phi n_phi
          min_z max_z n_z min_mom1 max_mom1 n_mom1 min_mom2 max_mom2 n_mom2).size c })
    (hint : (mesh.size : Int) ≤ INT_MAX)
    (K : Nat) (hermite_w : List ℚ)
    (hw : ((List.range K).map (fun k => rd hermite_w k)).sum = 1)
    (r phi z mom1 mom2 : List ℚ) (fate : List Int)
    (hrec : mesh.size * K < SIZE_MOD)
    (hend : ∀ i k : Nat, i < mesh.size → k < K →
      rd r (i * K + k) = (bmc_mesh_index2pos mesh i).1 ∧
      rd phi (i * K + k) = (bmc_mesh_index2pos mesh i).2.1 ∧
      rd z (i * K + k) = (bmc_mesh_index2pos mesh i).2.2.1 ∧
      rd mom1 (i * K + k) = (bmc_mesh_index2pos mesh i).2.2.2.1 ∧
      rd mom2 (i * K + k) = (bmc_mesh_index2pos mesh i).2.2.2.2)
    (hfate : ∀ i k : Nat, i < mesh.size → k < K → fate.getD (i * K + k) 0 = 0)
    (i : Nat) (hi : i < mesh.size) :
    (((index2pos_indices mesh i).1 ≤ mesh.n_r - 3 ∧
      (index2pos_indices mesh i).2.2.1 ≤ mesh.n_z - 3 ∧
      (index2pos_indices mesh i).2.2.2.1 ≤ mesh.n_mom1 - 3 ∧
      (index2pos_indices mesh i).2.2.2.2 ≤ mesh.n_mom2 - 3 ∧
      (n_phi = 1 ∨ (1 ≤ (max_phi - min_phi) / ((n_phi : ℚ) + 1) ∧
        (index2pos_indices mesh i).2.1 ≤ mesh.n_phi - 2))) →
      (bmc_mesh_finishstep
        (bmc_mesh_update K hermite_w mesh 0 mesh.size r phi z mom1 mom2 fate)).val_prev[i]? =
        some c) ∧
    (((index2pos_indices mesh i).1 = mesh.n_r - 1 ∨
      (index2pos_indices mesh i).2.2.1 = mesh.n_z - 1 ∨
      (index2pos_indices mesh i).2.2.2.1 = mesh.n_mom1 - 1 ∨
      (index2pos_indices mesh i).2.2.2.2 = mesh.n_mom2 - 1) →
      (bmc_mesh_finishstep
        (bmc_mesh_update K hermite_w mesh 0 mesh.size r phi z mom1 mom2 fate)).val_prev[i]? =
        some 0) := by
  have hsz : mesh.size = (init_mesh min_r max_r n_r min_phi max_phi n_phi
      min_z max_z n_z min_mom1 max_mom1 n_mom1 min_mom2 max_mom2 n_mom2).size := by
    rw [hmesh]
  have hvn : mesh.val_next.length = mesh.size := by
    have h := (init_buffers_of_int min_r max_r n_r min_phi max_phi n_phi min_z max_z n_z
      min_mom1 max_mom1 n_mom1 min_mom2 max_mom2 n_mom2 _ rfl (by rw [← hsz]; exact hint)).1
    have h' : mesh.val_next = List.replicate mesh.size 0 := by
      rw [hsz]
      rw [hmesh]
      exact h
    rw [h', List.length_replicate]
  have hvp : mesh.val_prev.length = mesh.size := by
    rw [hmesh]
    exact List.length_replicate _ _
  obtain ⟨hcopy, -⟩ := step_buffers K hermite_w mesh 0 mesh.size r phi z mom1 mom2 fate
    hvn hvp
  obtain ⟨hinr, hbnd⟩ := identity_step_val_next min_r max_r n_r min_phi max_phi n_phi
    min_z max_z n_z min_mom1 max_mom1 n_mom1 min_mom2 max_mom2 n_mom2 hc hr hz hm1 hm2 c
    mesh hmesh hint K hermite_w r phi z mom1 mom2 fate hrec hend hfate i hi
  rw [hcopy]
  constructor
  · intro g
    rw [hinr g, hw, mul_one]
  · intro g
    apply hbnd
    rcases g with g | g | g | g
    · exact Or.inl (by omega)
    · exact Or.inr (Or.inl (by omega))
    · exact Or.inr (Or.inr (Or.inl (by omega)))
    · exact Or.inr (Or.inr (Or.inr (by omega)))

theorem identity_push_records (mesh : bmc_mesh) (K : Nat) (i k : Nat) (hi : i < mesh.size)
    (hk : k < K) :
    rd (vertex_endpoints mesh K (fun p => p.1)) (i * K + k) = (bmc_mesh_index2pos mesh i).1 ∧
    rd (vertex_endpoints mesh K (fun p => p.2.1)) (i * K + k) =
      (bmc_mesh_index2pos mesh i).2.1 ∧
    rd (vertex_endpoints mesh K (fun p => p.2.2.1)) (i * K + k) =
      (bmc_mesh_index2pos mesh i).2.2.1 ∧
    rd (vertex_endpoints mesh K (fun p => p.2.2.2.1)) (i * K + k) =
      (bmc_mesh_index2pos mesh i).2.2.2.1 ∧
    rd (vertex_endpoints mesh K (fun p => p.2.2.2.2)) (i * K + k) =
      (bmc_mesh_index2pos mesh i).2.2.2.2 :=
  ⟨rd_vertex_endpoints mesh K _ i k hi hk, rd_vertex_endpoints mesh K _ i k hi hk,
    rd_vertex_endpoints mesh K _ i k hi hk, rd_vertex_endpoints mesh K _ i k hi hk,
    rd_vertex_endpoints mesh K _ i k hi hk⟩

/-- Witness of C15 on the mesh of counts `3` with phi range `[0, 6]` and
`val_prev` equal to `7/10`, one knot of weight `1`: the interior vertex `0`. -/
theorem C15_identity_step_witness :
    (bmc_mesh_finishstep
      (bmc_mesh_update 1 [1] (mesh_wide (7 / 10)) 0 (mesh_wide (7 / 10)).size
        (vertex_endpoints (mesh_wide (7 / 10)) 1 (fun p => p.1))
        (vertex_endpoints (mesh_wide (7 / 10)) 1 (fun p => p.2.1))
        (vertex_endpoints (mesh_wide (7 / 10)) 1 (fun p => p.2.2.1))
        (vertex_endpoints (mesh_wide (7 / 10)) 1 (fun p => p.2.2.2.1))
        (vertex_endpoints (mesh_wide (7 / 10)) 1 (fun p => p.2.2.2.2))
        (List.replicate 768 0))).val_prev[0]? = some (7 / 10) :=
  (C15_identity_step 0 1 3 0 6 3 0 1 3 0 1 3 0 1 3
    ⟨by decide, by decide, by decide, by decide, by decide, by decide⟩
    (by norm_num) (by norm_num) (by norm_num) (by norm_num) (7 / 10)
    (mesh_wide (7 / 10)) rfl (by decide)
    1 [1] one_knot_weight _ _ _ _ _ (List.replicate 768 0) (by decide)
    (fun i k hi hk => identity_push_records _ 1 i k hi hk)
    (fun i k _ _ => getD_replicate_zero 768 _) 0 (by decide)).1
    (by
      rw [show index2pos_indices (mesh_wide (7 / 10)) 0 =
        index2pos_indices (init_mesh 0 1 3 0 6 3 0 1 3 0 1 3 0 1 3) 0 from rfl]
      refine ⟨by decide, by decide, by decide, by decide, Or.inr ⟨by norm_num, by decide⟩⟩)

/-- Counterexample to C15 as stated: on the mesh of counts `3` with phi range
`[0, 6]` and `val_prev` equal to `1` everywhere, after the identity step with one
knot of weight `1` per element and every fate `0`, the element `3`, whose vertex
has the indices `(3, 0, 0, 0, 0)` with `3 = n_r - 1`, has `val_prev[3] = 0`, not
`1`. -/
theorem C15_counterexample :
    ((List.range 1).map (fun k => rd [1] k)).sum = 1 ∧
    3 < (mesh_wide 1).size ∧
    (∀ j : Nat, j < (mesh_wide 1).size → rd (mesh_wide 1).val_prev j = 1) ∧
    index2pos_indices (mesh_wide 1) 3 = (3, 0, 0, 0, 0) ∧
    (mesh_wide 1).n_r = 4 ∧
    (bmc_mesh_finishstep
      (bmc_mesh_update 1 [1] (mesh_wide 1) 0 (mesh_wide 1).size
        (vertex_endpoints (mesh_wide 1) 1 (fun p => p.1))
        (vertex_endpoints (mesh_wide 1) 1 (fun p => p.2.1))
        (vertex_endpoints (mesh_wide 1) 1 (fun p => p.2.2.1))
        (vertex_endpoints (mesh_wide 1) 1 (fun p => p.2.2.2.1))
        (vertex_endpoints (mesh_wide 1) 1 (fun p => p.2.2.2.2))
        (List.replicate 768 0))).val_prev[3]? = some 0 := by
  have hidx : index2pos_indices (mesh_wide 1) 3 = (3, 0, 0, 0, 0) := by
    rw [show index2pos_indices (mesh_wide 1) 3 =
      index2pos_indices (init_mesh 0 1 3 0 6 3 0 1 3 0 1 3 0 1 3) 3 from rfl]
    decide
  have hvn : (mesh_wide 1).val_next.length = (mesh_wide 1).size :=
    List.length_replicate _ _
  have hvp : (mesh_wide 1).val_prev.length = (mesh_wide 1).size :=
    List.length_replicate _ _
  refine ⟨one_knot_weight, by decide, fun j hj => rd_replicate _ _ _ hj, hidx, rfl, ?_⟩
  rw [(step_buffers 1 [1] (mesh_wide 1) 0 (mesh_wide 1).size _ _ _ _ _ _ hvn hvp).1]
  exact (identity_step_val_next 0 1 3 0 6 3 0 1 3 0 1 3 0 1 3
    ⟨by decide, by decide, by decide, by decide, by decide, by decide⟩
    (by norm_num) (by norm_num) (by norm_num) (by norm_num) 1 (mesh_wide 1) rfl (by decide)
    1 [1] _ _ _ _ _ (List.replicate 768 0) (by decide)
    (fun i k hi hk => identity_push_records _ 1 i k hi hk)
    (fun i k _ _ => getD_replicate_zero 768 _) 3 (by decide)).2
    (Or.inl (by rw [hidx]; decide))

/-! ## Phi normalisation of a constant field: claim C21 -/

/-- The factor `d / max |d| 1` that the guarded phi width leaves on a constant
field: it is `1` from `d = 1` upwards, `d` itself while `|d| < 1`, and `-1` from
`d = -1` downwards. -/
theorem guarded_ratio (c d : ℚ) :
    (1 ≤ d → c * d / max |d| 1 = c) ∧
    (c ≠ 0 → c * d / max |d| 1 = c → 1 ≤ d) ∧
    (|d| < 1 → c * d / max |d| 1 = c * d) ∧
    (d ≤ -1 → c * d / max |d| 1 = -c) ∧
    SignType.sign (c * d / max |d| 1) = SignType.sign c * SignType.sign d := by
  have hM : (0 : ℚ) < max |d| 1 := lt_of_lt_of_le one_pos (le_max_right _ _)
  have up : 1 ≤ d → c * d / max |d| 1 = c := by
    intro h
    have hd : (0 : ℚ) < d := by linarith
    rw [abs_of_pos hd, max_eq_left h]
    field_simp
  have mid : |d| < 1 → c * d / max |d| 1 = c * d := by
    intro h
    rw [max_eq_right (le_of_lt h), div_one]
  have down : d ≤ -1 → c * d / max |d| 1 = -c := by
    intro h
    have hd : d < 0 := by linarith
    rw [abs_of_neg hd, max_eq_left (by linarith)]
    have hne : -d ≠ 0 := by linarith
    field_simp
  refine ⟨up, ?_, mid, down, ?_⟩
  · intro hc he
    by_contra hlt
    rw [not_le] at hlt
    by_cases ha : |d| < 1
    · rw [mid ha] at he
      have h1 : c * (d - 1) = 0 := by linarith
      rcases mul_eq_zero.mp h1 with h0 | h0
      · exact hc h0
      · linarith
    · rw [not_lt] at ha
      have hd : d ≤ -1 := by
        rcases le_abs.mp ha with h | h
        · linarith
        · linarith
      rw [down hd] at he
      exact hc (by linarith)
  · rw [div_eq_mul_inv, sign_mul, sign_mul, sign_pos (inv_pos.mpr hM), mul_one]

/-- The wrap cell of the phi axis: for a phi index `n_phi - 1` the upper neighbour
is the abscissa `0`, and on an ascending phi axis the difference of the two
abscissae is negative. -/
theorem wrap_cell_width (min_phi max_phi : ℚ) (n_phi : Int) (hn : 2 ≤ n_phi)
    (hfit : n_phi < (SIZE_MOD : Int)) (mesh : bmc_mesh) (hphi : mesh.n_phi = n_phi)
    (harr : mesh.phi = store_abscissae_phi min_phi max_phi n_phi) (i_phi : Nat)
    (hw : (i_phi : Int) = n_phi - 1) :
    interp_i_phi1 mesh i_phi = 0 ∧
    (min_phi < max_phi → rd mesh.phi (interp_i_phi1 mesh i_phi) - rd mesh.phi i_phi < 0) := by
  obtain ⟨N, rfl⟩ := Int.eq_ofNat_of_zero_le (show (0 : Int) ≤ n_phi by omega)
  have hN : N < SIZE_MOD := by exact_mod_cast hfit
  have hi : i_phi + 1 = N := by omega
  have e1 := (interp_i_phi1_lt mesh N hphi hN i_phi (by omega)).2
  rw [if_pos hi] at e1
  refine ⟨e1, ?_⟩
  intro hmm
  rw [e1, harr, rd_store_abscissae_phi _ _ _ 0 (by omega),
    rd_store_abscissae_phi _ _ _ i_phi (by omega)]
  have hq : (0 : ℚ) < ((N : Int) : ℚ) + 1 := by
    have : (0 : Int) < (N : Int) + 1 := by omega
    exact_mod_cast this
  have hi0 : (0 : ℚ) < (i_phi : ℚ) := by
    have : 0 < i_phi := by omega
    exact_mod_cast this
  have hpos : (0 : ℚ) < (i_phi : ℚ) * (max_phi - min_phi) / (((N : Int) : ℚ) + 1) :=
    div_pos (mul_pos hi0 (by linarith)) hq
  simp only [Nat.cast_zero, zero_mul, zero_div, add_zero]
  linarith

/-- Claim C21, as amended: on a mesh built by `bmc_mesh_init` from well-formed
axis specifications with `n_phi >= 2`, whose `val_prev` equals a constant `c` at
every index, every query that passes the boundary test and has `i_phi < n_phi`
is interpolated to `c * d / max(|d|, 1)`, where `d = phi[i_phi1] - phi[i_phi]` and
`i_phi1` is the wrap partner of `i_phi`. So the result is `c` when `d >= 1`, and
for `c` other than `0` only then; it is `c * d` when `|d| < 1`, and `-c` when
`d <= -1`; its sign is the sign of `c` times the sign of `d`. In the wrap cell
`i_phi = n_phi - 1` the partner is `i_phi1 = 0`, and `d < 0` on an ascending phi
axis. -/
theorem C21_phi_normalisation (min_r max_r : ℚ) (n_r : Int) (min_phi max_phi : ℚ)
    (n_phi : Int) (min_z max_z : ℚ) (n_z : Int) (min_mom1 max_mom1 : ℚ) (n_mom1 : Int)
    (min_mom2 max_mom2 : ℚ) (n_mom2 : Int) (hc : counts_ok n_r n_phi n_z n_mom1 n_mom2)
    (hr : min_r < max_r) (hz : min_z < max_z) (hm1 : min_mom1 < max_mom1)
    (hm2 : min_mom2 < max_mom2) (hn : 2 ≤ n_phi) (c : ℚ) (vp : List ℚ) (mesh : bmc_mesh)
    (hmesh : mesh =
      { (init_mesh min_r max_r n_r min_phi max_phi n_phi min_z max_z n_z
          min_mom1 max_mom1 n_mom1 min_mom2 max_mom2 n_mom2) with val_prev := vp })
    (hconst : ∀ j : Nat, j < mesh.size → rd mesh.val_prev j = c)
    (r phi z mom1 mom2 : ℚ)
    (hin : interp_inside mesh (interp_i_r mesh r) (interp_i_z mesh z)
      (interp_i_mom1 mesh mom1) (interp_i_mom2 mesh mom2) = true)
    (hp : (interp_i_phi mesh phi : Int) < mesh.n_phi)
    (d : ℚ) (hd : d = rd mesh.phi (interp_i_phi1 mesh (interp_i_phi mesh phi)) -
      rd mesh.phi (interp_i_phi mesh phi)) :
    bmc_mesh_interpolate mesh r phi z mom1 mom2 = c * d / max |d| 1 ∧
    (1 ≤ d → bmc_mesh_interpolate mesh r phi z mom1 mom2 = c) ∧
    (c ≠ 0 → bmc_mesh_interpolate mesh r phi z mom1 mom2 = c → 1 ≤ d) ∧
    (|d| < 1 → bmc_mesh_interpolate mesh r phi z mom1 mom2 = c * d) ∧
    (d ≤ -1 → bmc_mesh_interpolate mesh r phi z mom1 mom2 = -c) ∧
    SignType.sign (bmc_mesh_interpolate mesh r phi z mom1 mom2) =
      SignType.sign c * SignType.sign d ∧
    ((interp_i_phi mesh phi : Int) = mesh.n_phi - 1 →
      interp_i_phi1 mesh (interp_i_phi mesh phi) = 0 ∧ (min_phi < max_phi → d < 0)) := by
  obtain ⟨Nr, Nz, Nphi, Nm1, Nm2, ⟨b1, b2, b3, b4, b5⟩, ⟨er, ez, ephi, em1, em2⟩,
    ⟨kr, kz, kphi, km1, km2⟩, ⟨ar, az, aphi, am1, am2⟩, -, hsize, hfit, ⟨l1, l2, l3, l4, l5⟩⟩ :=
    init_with_val_prev min_r max_r n_r min_phi max_phi n_phi min_z max_z n_z
      min_mom1 max_mom1 n_mom1 min_mom2 max_mom2 n_mom2 hc vp mesh hmesh
  obtain ⟨i1, i2, i4, i5⟩ := (inside_bounds mesh Nr Nz Nm1 Nm2 er ez em1 em2 b1 b2 b4 b5
    l1 l2 l4 l5 _ _ _ _).mp hin
  have hne : ¬ mesh.n_phi = 1 := by
    rw [ephi]
    omega
  have hval : bmc_mesh_interpolate mesh r phi z mom1 mom2 = c * d / max |d| 1 := by
    rw [interpolate_const_init min_r max_r n_r min_phi max_phi n_phi min_z max_z n_z
      min_mom1 max_mom1 n_mom1 min_mom2 max_mom2 n_mom2 hc hr hz hm1 hm2 c vp mesh hmesh
      hconst r phi z mom1 mom2 (by rw [er]; omega) (by rw [ez]; omega) (by rw [em1]; omega)
      (by rw [em2]; omega) hp, if_neg hne, ← hd]
  obtain ⟨g1, g2, g3, g4, g5⟩ := guarded_ratio c d
  rw [hval]
  refine ⟨rfl, g1, g2, g3, g4, g5, ?_⟩
  intro hw
  have hfitphi : n_phi < (SIZE_MOD : Int) := by
    rw [← kphi]
    exact_mod_cast l3
  obtain ⟨w1, w2⟩ := wrap_cell_width min_phi max_phi n_phi hn hfitphi mesh
    (by rw [ephi, kphi]) aphi (interp_i_phi mesh phi) (by rw [hw, ephi, kphi])
  exact ⟨w1, fun hmm => by rw [hd]; exact w2 hmm⟩

/-- The wrap cell of the mesh of counts `3` with phi range `[0, 6]` (phi abscissae
`0, 3/2, 3`): the query `(0, 3, 0, 0, 0)` passes the boundary test, its phi index is
`2 = n_phi - 1`, the wrap partner is `0`, and `phi[0] - phi[2] = -3`. -/
theorem mesh_three_wrap_cell (vp : List ℚ) :
    interp_inside (mesh_three 6 3 vp) (interp_i_r (mesh_three 6 3 vp) 0)
      (interp_i_z (mesh_three 6 3 vp) 0) (interp_i_mom1 (mesh_three 6 3 vp) 0)
      (interp_i_mom2 (mesh_three 6 3 vp) 0) = true ∧
    interp_i_phi (mesh_three 6 3 vp) 3 = 2 ∧
    rd (mesh_three 6 3 vp).phi (interp_i_phi1 (mesh_three 6 3 vp)
      (interp_i_phi (mesh_three 6 3 vp) 3)) -
      rd (mesh_three 6 3 vp).phi (interp_i_phi (mesh_three 6 3 vp) 3) = -3 := by
  have hi : interp_i_phi (mesh_three 6 3 vp) 3 = 2 :=
    mesh_three_phi_index vp 3 2 (by decide) (by norm_num) (by norm_num)
  have hi1 : interp_i_phi1 (mesh_three 6 3 vp) 2 = 0 := rfl
  refine ⟨?_, hi, ?_⟩
  · rw [mesh_three_i_r 6 3 vp 0 (by norm_num) (by norm_num),
      mesh_three_i_z 6 3 vp 0 (by norm_num) (by norm_num),
      mesh_three_i_mom1 6 3 vp 0 (by norm_num) (by norm_num),
      mesh_three_i_mom2 6 3 vp 0 (by norm_num) (by norm_num)]
    exact mesh_three_inside 6 3 vp
  · rw [hi, hi1, show (mesh_three 6 3 vp).phi = store_abscissae_phi 0 6 3 from rfl,
      rd_store_abscissae_phi 0 6 3 0 (by decide), rd_store_abscissae_phi 0 6 3 2 (by decide)]
    norm_num

/-- The value interpolated in the wrap cell of the mesh of counts `3` with phi
range `[0, 6]` and `val_prev` equal to `c` everywhere: the query `(0, 3, 0, 0, 0)`
returns `-c`. -/
theorem mesh_three_wrap_value (c : ℚ) :
    bmc_mesh_interpolate (mesh_three 6 3 (List.replicate 768 c)) 0 3 0 0 0 = -c := by
  obtain ⟨hin, hi, hd⟩ := mesh_three_wrap_cell (List.replicate 768 c)
  have hb := (inside_bounds (mesh_three 6 3 (List.replicate 768 c)) 4 4 4 4 rfl rfl rfl rfl
    (by decide) (by decide) (by decide) (by decide) (by decide) (by decide) (by decide)
    (by decide) _ _ _ _).mp hin
  rw [interpolate_const_init 0 1 3 0 6 3 0 1 3 0 1 3 0 1 3
    ⟨by decide, by decide, by decide, by decide, by decide, by decide⟩
    (by norm_num) (by norm_num) (by norm_num) (by norm_num) c (List.replicate 768 c)
    (mesh_three 6 3 (List.replicate 768 c)) rfl
    (fun j hj => mesh_three_const 6 3 c 768 j hj) 0 3 0 0 0
    (by show ((interp_i_r (mesh_three 6 3 (List.replicate 768 c)) 0 : Nat) : Int) ≤ 4 - 3
        omega)
    (by show ((interp_i_z (mesh_three 6 3 (List.replicate 768 c)) 0 : Nat) : Int) ≤ 4 - 3
        omega)
    (by show ((interp_i_mom1 (mesh_three 6 3 (List.replicate 768 c)) 0 : Nat) : Int) ≤ 4 - 3
        omega)
    (by show ((interp_i_mom2 (mesh_three 6 3 (List.replicate 768 c)) 0 : Nat) : Int) ≤ 4 - 3
        omega)
    (by rw [hi]; show ((2 : Nat) : Int) < 3; decide),
    if_neg (show ¬ (mesh_three 6 3 (List.replicate 768 c)).n_phi = 1 by
      show ¬ ((3 : Int) = 1)
      decide), hd]
  exact (guarded_ratio c (-3)).2.2.2.1 (by norm_num)

/-- Witness of C21 in the wrap cell: on the mesh of counts `3` with phi range
`[0, 6]` and `val_prev` equal to `7/10` everywhere, the query `(0, 3, 0, 0, 0)`
passes the boundary test with phi index `2 = n_phi - 1`, where
`phi[0] - phi[2] = -3`, and it is interpolated to `-7/10`, of sign `-1`. -/
theorem C21_phi_normalisation_witness :
    interp_inside (mesh_three 6 3 (List.replicate 768 (7 / 10)))
      (interp_i_r (mesh_three 6 3 (List.replicate 768 (7 / 10))) 0)
      (interp_i_z (mesh_three 6 3 (List.replicate 768 (7 / 10))) 0)
      (interp_i_mom1 (mesh_three 6 3 (List.replicate 768 (7 / 10))) 0)
      (interp_i_mom2 (mesh_three 6 3 (List.replicate 768 (7 / 10))) 0) = true ∧
    ((interp_i_phi (mesh_three 6 3 (List.replicate 768 (7 / 10))) 3 : Nat) : Int) <
      (mesh_three 6 3 (List.replicate 768 (7 / 10))).n_phi ∧
    bmc_mesh_interpolate (mesh_three 6 3 (List.replicate 768 (7 / 10))) 0 3 0 0 0 =
      7 / 10 * (-3) / max |(-3 : ℚ)| 1 ∧
    bmc_mesh_interpolate (mesh_three 6 3 (List.replicate 768 (7 / 10))) 0 3 0 0 0 =
      -(7 / 10) :=
  have hcell := mesh_three_wrap_cell (List.replicate 768 (7 / 10))
  have hp : ((interp_i_phi (mesh_three 6 3 (List.replicate 768 (7 / 10))) 3 : Nat) : Int) <
      (mesh_three 6 3 (List.replicate 768 (7 / 10))).n_phi := by
    rw [hcell.2.1]
    decide
  have key := C21_phi_normalisation 0 1 3 0 6 3 0 1 3 0 1 3 0 1 3
    ⟨by decide, by decide, by decide, by decide, by decide, by decide⟩
    (by norm_num) (by norm_num) (by norm_num) (by norm_num) (by decide) (7 / 10)
    (List.replicate 768 (7 / 10)) (mesh_three 6 3 (List.replicate 768 (7 / 10))) rfl
    (fun j hj => mesh_three_const 6 3 (7 / 10) 768 j hj) 0 3 0 0 0 hcell.1 hp (-3)
    hcell.2.2.symm
  ⟨hcell.1, hp, key.1, key.2.2.2.2.1 (by norm_num)⟩

/-- Counterexample to C21 as stated.  On the mesh of counts `3` with phi range
`[0, 6]` (`n_phi = 3`) the query `(0, 3, 0, 0, 0)` passes the boundary test and
lies in the wrap cell `i_phi = 2 = n_phi - 1`, where `phi[i_phi1] - phi[i_phi] = -3`.
With `val_prev` equal to `0` everywhere, as `bmc_mesh_init` leaves it, the result
is `0`: it equals `c` although the phi difference is below `1`, and its sign is
not that of the phi difference.  With `val_prev` equal to `-1` everywhere the
result is `1`, of the sign opposite to that of the phi difference, and it is not
`c` times the phi difference. -/
theorem C21_counterexample :
    (∀ j : Nat, j < (mesh_three 6 3 (List.replicate 768 0)).size →
      rd (mesh_three 6 3 (List.replicate 768 0)).val_prev j = 0) ∧
    (2 : Int) ≤ (mesh_three 6 3 (List.replicate 768 0)).n_phi ∧
    interp_inside (mesh_three 6 3 (List.replicate 768 0))
      (interp_i_r (mesh_three 6 3 (List.replicate 768 0)) 0)
      (interp_i_z (mesh_three 6 3 (List.replicate 768 0)) 0)
      (interp_i_mom1 (mesh_three 6 3 (List.replicate 768 0)) 0)
      (interp_i_mom2 (mesh_three 6 3 (List.replicate 768 0)) 0) = true ∧
    ((interp_i_phi (mesh_three 6 3 (List.replicate 768 0)) 3 : Nat) : Int) =
      (mesh_three 6 3 (List.replicate 768 0)).n_phi - 1 ∧
    rd (mesh_three 6 3 (List.replicate 768 0)).phi
        (interp_i_phi1 (mesh_three 6 3 (List.replicate 768 0))
          (interp_i_phi (mesh_three 6 3 (List.replicate 768 0)) 3)) -
      rd (mesh_three 6 3 (List.replicate 768 0)).phi
        (interp_i_phi (mesh_three 6 3 (List.replicate 768 0)) 3) = -3 ∧
    bmc_mesh_interpolate (mesh_three 6 3 (List.replicate 768 0)) 0 3 0 0 0 = 0 ∧
    ¬ (bmc_mesh_interpolate (mesh_three 6 3 (List.replicate 768 0)) 0 3 0 0 0 = 0 ↔
      (1 : ℚ) ≤ -3) ∧
    SignType.sign (bmc_mesh_interpolate (mesh_three 6 3 (List.replicate 768 0)) 0 3 0 0 0) ≠
      SignType.sign (-3 : ℚ) ∧
    (∀ j : Nat, j < (mesh_three 6 3 (List.replicate 768 (-1))).size →
      rd (mesh_three 6 3 (List.replicate 768 (-1))).val_prev j = -1) ∧
    bmc_mesh_interpolate (mesh_three 6 3 (List.replicate 768 (-1))) 0 3 0 0 0 = 1 ∧
    SignType.sign (bmc_mesh_interpolate (mesh_three 6 3 (List.replicate 768 (-1))) 0 3 0 0 0) ≠
      SignType.sign (-3 : ℚ) ∧
    bmc_mesh_interpolate (mesh_three 6 3 (List.replicate 768 (-1))) 0 3 0 0 0 ≠ -1 * -3 := by
  obtain ⟨hin, hi, hd⟩ := mesh_three_wrap_cell (List.replicate 768 0)
  have v0 : bmc_mesh_interpolate (mesh_three 6 3 (List.replicate 768 0)) 0 3 0 0 0 = 0 := by
    rw [mesh_three_wrap_value 0, neg_zero]
  have v1 : bmc_mesh_interpolate (mesh_three 6 3 (List.replicate 768 (-1))) 0 3 0 0 0 = 1 := by
    rw [mesh_three_wrap_value (-1), neg_neg]
  have s3 : SignType.sign (-3 : ℚ) = -1 := sign_neg (by norm_num)
  refine ⟨fun j hj => mesh_three_const 6 3 0 768 j hj, by decide, hin, by rw [hi]; decide, hd,
    v0, ?_, ?_, fun j hj => mesh_three_const 6 3 (-1) 768 j hj, v1, ?_, ?_⟩
  · intro h
    have := h.mp v0
    norm_num at this
  · rw [v0, sign_zero, s3]
    decide
  · rw [v1, sign_pos one_pos, s3]
    decide
  · rw [v1]
    norm_num

end Ascot5
